import Mathlib

/-!
# Mini dynamic DB engine: embedding and verification

A shallow embedding of the table store (`db.h`), the string helpers (`utils.h`),
the WHERE predicate, command executor and command loop (`main.cpp`), the parser
(`parser.h`), the iterator operators (`operators.h`) and the typed prototype pipeline
(`Source.cpp`), followed by the theorems that settle the numbered claims of the
specification.

Conventions of the embedding

* a C++ `std::string` is a `List Char` (`Str`); every character stands for one byte;
* `int` indices that may be negative (`-1` for "not found") are `Int`; container sizes
  are `Nat` (the `(int)` casts of sizes in the source are the identity below `2^31`);
* reading `v[i]` with `i` inside the bounds is `List.getD`; the places where the source
  indexes without a check are named in the comment of the definition;
* a C++ exception that leaves a function is a value of `Except Exception`;
* a loop whose number of passes is not bounded by its input list takes a bound as first
  argument; where the bound can be reached before the loop ends the result is `none`;
* a read `t[i]` of the parser outside the token vector is undefined behaviour; the model
  stops with the value `ReadPastEnd`;
* the disk is an association list from path to file content, together with the paths
  that cannot be opened for writing.
-/

namespace MiniDB

/-! ## Strings and characters (`utils.h`, `<cctype>`) -/

/-- A C++ `std::string`, as its sequence of characters. -/
abbrev Str := List Char

/-- C `isspace` in the "C" locale: space, `\t`, `\n`, `\v`, `\f`, `\r`. -/
def isspace (c : Char) : Bool :=
  decide (c.toNat = 32) || (decide (9 ≤ c.toNat) && decide (c.toNat ≤ 13))

/-- C `isdigit`: the ten decimal digits `'0'` .. `'9'` (codes 48 .. 57). -/
def isdigit (c : Char) : Bool :=
  decide (48 ≤ c.toNat) && decide (c.toNat ≤ 57)

/-- `toUpper` of `utils.h`: `toupper` on every character (ASCII letters only). -/
def toUpper (s : Str) : Str := s.map Char.toUpper

/-- `toLower` of `utils.h`: `tolower` on every character (ASCII letters only). -/
def toLower (s : Str) : Str := s.map Char.toLower

/-- `trim` of `utils.h`: `start` skips the leading white space; an all-blank string gives
`""`; otherwise `end` walks back from the last character over trailing white space
(it stops at `start`, which is not white space) and the substring between is returned. -/
def trim (s : Str) : Str :=
  let fromStart := s.dropWhile isspace
  if fromStart.isEmpty then []
  else (fromStart.reverse.dropWhile isspace).reverse

/-- `isNumberString` of `utils.h`: false on the empty string; the scan starts at
index 1 when the first character is `'-'` and the string is longer than one
character, else at index 0; every scanned character must be a digit. -/
def isNumberString (s : Str) : Bool :=
  if s.isEmpty then false
  else
    let i : Nat := if s.head? = some '-' && decide (s.length > 1) then 1 else 0
    (s.drop i).all isdigit

/-! ## Decimal text and integer conversion (`<string>`, `<istream>`, `<ostream>`) -/

/-- The exceptions the program can raise: `std::invalid_argument` and
`std::out_of_range` (from `stoll`/`stoi` and from `vector::at`). -/
inductive Exception where
  | invalid_argument
  | out_of_range
  deriving DecidableEq, Repr

/-- Digits of `n`, most significant first, pushed in front of `acc`; `fuel` bounds the
number of digits and `n + 1` always suffices. -/
def natToDecAux : Nat → Nat → Str → Str
  | 0, _, acc => acc
  | fuel + 1, n, acc =>
    let acc1 := Char.ofNat (48 + n % 10) :: acc
    if n / 10 = 0 then acc1 else natToDecAux fuel (n / 10) acc1

/-- What `out << n` writes for a non-negative integer: its decimal digits. -/
def natToDec (n : Nat) : Str := natToDecAux (n + 1) n []

/-- The number a string of decimal digits denotes. -/
def decValue (ds : Str) : Nat := ds.foldl (fun a c => 10 * a + (c.toNat - 48)) 0

/-- The scan that `strtoll`, `strtol` and `operator>>(int&)` share: skip leading
white space, take an optional sign, then the longest run of digits. `none` when there
is no digit; otherwise the exact value and the unread rest. -/
def scanInteger (s : Str) : Option (Int × Str) :=
  let s1 := s.dropWhile isspace
  let neg : Bool := s1.head? = some '-'
  let s2 := match s1 with
    | '-' :: r => r
    | '+' :: r => r
    | _ => s1
  let ds := s2.takeWhile isdigit
  if ds.isEmpty then none
  else some (if neg then -(decValue ds : Int) else (decValue ds : Int), s2.dropWhile isdigit)

/-- `std::stoll`: `invalid_argument` when no number can be read, `out_of_range` when
the value does not fit `long long` (64 bits, two's complement). -/
def stoll (s : Str) : Except Exception Int :=
  match scanInteger s with
  | none => .error .invalid_argument
  | some (v, _) =>
    if v < -(2 : Int) ^ 63 ∨ (2 : Int) ^ 63 ≤ v then .error .out_of_range else .ok v

/-- `std::stoi`: as `stoll`, with the range of a 32-bit `int`. -/
def stoi (s : Str) : Except Exception Int :=
  match scanInteger s with
  | none => .error .invalid_argument
  | some (v, _) =>
    if v < -(2 : Int) ^ 31 ∨ (2 : Int) ^ 31 ≤ v then .error .out_of_range else .ok v

/-- `in >> c` for `int c`: fails (`none`) when no number can be read or when it does
not fit an `int`; otherwise the value and the unread rest of the stream. -/
def readInt (s : Str) : Option (Int × Str) :=
  match scanInteger s with
  | none => none
  | some (v, rest) =>
    if v < -(2 : Int) ^ 31 ∨ (2 : Int) ^ 31 ≤ v then none else some (v, rest)

deriving instance DecidableEq for Except

/-! ## The WHERE predicate of the executor (`main.cpp`) -/

/-- A row of a `TableDynamic`: `vector<string>`. -/
abbrev Row := List Str

/-- `checkWhere` of `main.cpp`. An index outside the row gives `false`. When cell and
literal are both number strings they are converted with `stoll` (which may throw) and
compared under `=`, `!=`, `>`, `<=`, `>=`; there is no case for `<`, which falls
through to the final `return false`. Otherwise only `=` compares, on the strings. -/
def checkWhere (row : Row) (colIdx : Int) (op val : Str) : Except Exception Bool :=
  if colIdx < 0 ∨ colIdx ≥ (row.length : Int) then .ok false
  else
    let cell := row.getD colIdx.toNat []
    let cellNum := isNumberString cell
    let valNum := isNumberString val
    if cellNum && valNum then do
      let a ← stoll cell
      let b ← stoll val
      if op = "=".toList then pure (decide (a = b))
      else if op = "!=".toList then pure (decide (a ≠ b))
      else if op = ">".toList then pure (decide (a > b))
      else if op = "<=".toList then pure (decide (a ≤ b))
      else if op = ">=".toList then pure (decide (a ≥ b))
      else pure false
    else
      if op = "=".toList then .ok (decide (cell = val)) else .ok false

/-! ## The Filter row test (`operators.h`) -/

/-- The body of the `while` loop of `Filter::next` in `operators.h`, for one child row
`r`: the value of `ok` (`false` when the loop `continue`s on an index outside the
row). Number strings are compared under `=`, `>`, `<` only; an exception of `stoll` is
caught and gives `false`. -/
def Filter.accepts (colIdx : Int) (op val : Str) (r : Row) : Bool :=
  if colIdx < 0 ∨ colIdx ≥ (r.length : Int) then false
  else
    let cell := r.getD colIdx.toNat []
    let cellNum := isNumberString cell
    let valNum := isNumberString val
    if cellNum && valNum then
      match stoll cell, stoll val with
      | .ok a, .ok b =>
        if op = "=".toList then decide (a = b)
        else if op = ">".toList then decide (a > b)
        else if op = "<".toList then decide (a < b)
        else false
      | _, _ => false
    else
      if op = "=".toList then decide (cell = val) else false

/-! ## The disk -/

/-- The file system as the program meets it: the files (path and content) and the
paths on which opening a file for writing fails (a directory of the path does not
exist, as for `./db/a/b.txt`; the name is not permitted; ...). A path occurs at most
once in the files built by `Disk.write`; `Disk.read` takes the first occurrence. -/
structure Disk where
  files : List (Str × Str)
  unwritable : List Str
  deriving DecidableEq, Repr

/-- A file system without files, on which every path can be opened for writing. -/
def Disk.empty : Disk := { files := [], unwritable := [] }

/-- A file system that holds the given files, on which every path can be opened for
writing. -/
def Disk.ofFiles (files : List (Str × Str)) : Disk := { files := files, unwritable := [] }

/-- The content of the file at `path`, `none` when there is no such file
(`ifstream::is_open` is false). -/
def Disk.read (d : Disk) (path : Str) : Option Str :=
  (d.files.find? (fun e => e.1 = path)).map (fun e => e.2)

/-- `fs::exists(path)`. -/
def Disk.hasFile (d : Disk) (path : Str) : Bool := (d.read path).isSome

/-- `ofstream out(path); out.is_open()`: whether the file at `path` can be opened for
writing. -/
def Disk.opensForWriting (d : Disk) (path : Str) : Bool := decide (path ∉ d.unwritable)

/-- What an `ofstream` that is open on `path` leaves when `content` has been written
through it: the file is created or replaced. -/
def Disk.write (d : Disk) (path content : Str) : Disk :=
  { d with files := (path, content) :: d.files.filter (fun e => e.1 ≠ path) }

/-- `fs::remove(path)`. -/
def Disk.remove (d : Disk) (path : Str) : Disk :=
  { d with files := d.files.filter (fun e => e.1 ≠ path) }

/-! ## Tables (`db.h`) -/

/-- `struct TableSchema`: column names and column types, two parallel vectors. -/
structure TableSchema where
  names : List Str
  types : List Str
  deriving DecidableEq, Repr

/-- `class TableDynamic`: name, schema and rows (`folder_` is the constant `"./db/"`). -/
structure TableDynamic where
  name_ : Str
  schema_ : TableSchema
  rows_ : List Row
  deriving DecidableEq, Repr

/-- The storage directory `folder_`. -/
def folder : Str := "./db/".toList

/-- `TableDynamic(const string& name)`: empty schema, no rows. -/
def TableDynamic.new (name : Str) : TableDynamic :=
  { name_ := name, schema_ := { names := [], types := [] }, rows_ := [] }

/-- `filepath()`: `folder_ + name_ + ".txt"`. -/
def TableDynamic.filepath (t : TableDynamic) : Str := folder ++ t.name_ ++ ".txt".toList

/-- `setSchema`: for every index of `s.names`, the lower-cased name and `s.types[i]`
(read without a bounds check in the source; `s.types` is as long as `s.names` at every
call site). -/
def TableDynamic.setSchema (t : TableDynamic) (s : TableSchema) : TableDynamic :=
  { t with schema_ :=
      { names := (List.range s.names.length).map (fun i => toLower (s.names.getD i []))
        types := (List.range s.names.length).map (fun i => s.types.getD i []) } }

/-- The loop of `columnIndex`: the first index, counted from `i`, whose name is `want`,
or `-1`. -/
def columnIndexFrom (want : Str) : List Str → Int → Int
  | [], _ => -1
  | n :: ns, i => if n = want then i else columnIndexFrom want ns (i + 1)

/-- `columnIndex(col)`: the index of the first column named `toLower(trim(col))`,
or `-1`. -/
def TableDynamic.columnIndex (t : TableDynamic) (col : Str) : Int :=
  columnIndexFrom (toLower (trim col)) t.schema_.names 0

/-- `rowCount()`. -/
def TableDynamic.rowCount (t : TableDynamic) : Nat := t.rows_.length

/-- `getRow(idx)`, that is `rows_.at(idx)`: `out_of_range` outside `[0, rowCount)`. -/
def TableDynamic.getRow (t : TableDynamic) (idx : Int) : Except Exception Row :=
  if 0 ≤ idx ∧ idx < (t.rows_.length : Int) then .ok (t.rows_.getD idx.toNat [])
  else .error .out_of_range

/-- The text `save()` writes: the column count, one `name type` line per column
(`schema_.types[i]` is read without a bounds check; both vectors have the same length
in every table the class builds), and one line per row: its 1-based number, then
`,` and the cell for every cell. -/
def TableDynamic.fileText (t : TableDynamic) : Str :=
  let coloums := t.schema_.names.length
  natToDec coloums ++ ['\n'] ++
  ((List.range coloums).map (fun i =>
      t.schema_.names.getD i [] ++ [' '] ++ t.schema_.types.getD i [] ++ ['\n'])).flatten ++
  ((List.range t.rows_.length).map (fun i =>
      natToDec (i + 1) ++ ((t.rows_.getD i []).map (fun v => ',' :: v)).flatten ++ ['\n'])).flatten

/-- `save()`: the file of the table is opened for writing; when that fails
(`!out.is_open()`) `save` returns and nothing is written; otherwise the whole file is
rewritten. (`ensure_dir` before it creates the storage directory and nothing else.) -/
def TableDynamic.save (t : TableDynamic) (d : Disk) : Disk :=
  if d.opensForWriting t.filepath then d.write t.filepath t.fileText else d

/-- Successive `getline` calls on the rest of a stream: `cur` is the line being
read. A final line without `\n` is still returned; at the end of the input, with
nothing pending, `getline` fails and the sequence ends. -/
def getlinesAux : Str → Str → List Str
  | [], cur => if cur.isEmpty then [] else [cur]
  | c :: rest, cur =>
    if c = '\n' then cur :: getlinesAux rest [] else getlinesAux rest (cur ++ [c])

/-- The lines that successive `getline(in, line)` calls return until one fails. -/
def getlines (s : Str) : List Str := getlinesAux s []

/-- `ss >> word`: skip white space, then take the characters up to the next white
space; the word (empty when the extraction fails) and the unread rest. -/
def readWord (s : Str) : Str × Str :=
  let s1 := s.dropWhile isspace
  (s1.takeWhile (fun c => !isspace c), s1.dropWhile (fun c => !isspace c))

/-- The column loop of `load()`: `k` more column lines are wanted from `lines`. Each
line gives `name` and `type` by `ss >> name >> type`; the name is stored lower-cased.
When `getline` fails before `k` lines were read, `load` returns: the second component
is `none`. Otherwise it is the lines left for the row loop. -/
def loadColumns : Nat → List Str → TableSchema → TableSchema × Option (List Str)
  | 0, ls, sch => (sch, some ls)
  | _ + 1, [], sch => (sch, none)
  | k + 1, line :: ls, sch =>
    let w1 := readWord line
    let w2 := readWord w1.2
    loadColumns k ls { names := sch.names ++ [toLower w1.1], types := sch.types ++ [w2.1] }

/-- The character loop of the row part of `load()`: a `,` closes the field `cur`;
after the last character `cur` is added only when it is not empty. -/
def splitFieldsAux : Str → Str → List Str → List Str
  | [], cur, fields => if cur.isEmpty then fields else fields ++ [cur]
  | ch :: rest, cur, fields =>
    if ch = ',' then splitFieldsAux rest [] (fields ++ [cur])
    else splitFieldsAux rest (cur ++ [ch]) fields

/-- The fields of one row line. -/
def splitFields (line : Str) : List Str := splitFieldsAux line [] []

/-- One pass of the row loop of `load()` for a table of `c` columns: an empty line is
skipped; a line with at least `1 + c` fields gives the row `fields[1] .. fields[c]`;
any other line gives no row. -/
def loadRow (c : Int) (line : Str) : Option Row :=
  if line.isEmpty then none
  else
    let fields := splitFields line
    if (fields.length : Int) ≥ 1 + c then some ((fields.drop 1).take c.toNat) else none

/-- `load()`: the rows are cleared first. A missing file, or a file that does not
start with an `int`, leaves the schema as it was. Otherwise the rest of the count
line is skipped, the schema is rebuilt from the next `c` lines (`load` returns early,
with the columns read so far and no rows, when there are fewer), and every remaining
line is passed through `loadRow`. -/
def TableDynamic.load (t : TableDynamic) (d : Disk) : TableDynamic :=
  let t0 := { t with rows_ := [] }
  match d.read t.filepath with
  | none => t0
  | some text =>
    match readInt text with
    | none => t0
    | some (c, rest) =>
      let ls := (getlines rest).drop 1
      match loadColumns c.toNat ls { names := [], types := [] } with
      | (sch, none) => { t0 with schema_ := sch }
      | (sch, some rowLines) => { t0 with schema_ := sch, rows_ := rowLines.filterMap (loadRow c) }

/-- `insertRow(vals)`: `rows_.push_back(vals)` and `save()`; there is no check of the
number of values. -/
def TableDynamic.insertRow (t : TableDynamic) (vals : Row) (d : Disk) : TableDynamic × Disk :=
  let t1 := { t with rows_ := t.rows_ ++ [vals] }
  (t1, t1.save d)

/-- `deleteRows(pred)`: every row equal to `pred` is counted, every other row is kept
in `remain`, in order; the file is rewritten when the count is positive. Returns the
count. -/
def TableDynamic.deleteRows (t : TableDynamic) (pred : Row) (d : Disk) :
    Nat × TableDynamic × Disk :=
  let acc := t.rows_.foldl
    (fun (a : List Row × Nat) row => if row = pred then (a.1, a.2 + 1) else (a.1 ++ [row], a.2))
    ([], 0)
  let t1 := { t with rows_ := acc.1 }
  (acc.2, t1, if acc.2 > 0 then t1.save d else d)

/-! ## The catalog (`db.h`) -/

/-- `class Catalog`: the map `tables_` from key to table, as an association list in
which a key occurs at most once. -/
structure Catalog where
  tables_ : List (Str × TableDynamic)
  deriving DecidableEq, Repr

/-- `tables_.find(key)`: the table stored under `key`. -/
def Catalog.find? (c : Catalog) (key : Str) : Option TableDynamic :=
  (c.tables_.find? (fun e => e.1 = key)).map (fun e => e.2)

/-- Assignment through the pointer that `get` returned: the entry under `key` now
holds `t`. -/
def Catalog.store (c : Catalog) (key : Str) (t : TableDynamic) : Catalog :=
  { tables_ := c.tables_.map (fun e => if e.1 = key then (key, t) else e) }

/-- `has(name)`: the key is in `tables_`, or the file of the key exists. -/
def Catalog.has (c : Catalog) (d : Disk) (name : Str) : Bool :=
  let key := toLower (trim name)
  if (c.find? key).isSome then true
  else d.hasFile (folder ++ key ++ ".txt".toList)

/-- `get(name)`: the entry of the key when there is one; otherwise, when the file of
the key exists, a new table is loaded from it and added to `tables_`; otherwise
`nullptr`. The result is the key under which the returned table is stored (`none` for
`nullptr`) and the catalog after the call. -/
def Catalog.get (c : Catalog) (d : Disk) (name : Str) : Option Str × Catalog :=
  let key := toLower (trim name)
  if (c.find? key).isSome then (some key, c)
  else if d.hasFile (folder ++ key ++ ".txt".toList) then
    let t := (TableDynamic.new key).load d
    (some key, { tables_ := (key, t) :: c.tables_ })
  else (none, c)

/-- `create(name, schema)`: fails when `has(key)`; otherwise a table with the schema
is saved and added to `tables_`. -/
def Catalog.create (c : Catalog) (d : Disk) (name : Str) (schema : TableSchema) :
    Bool × Catalog × Disk :=
  let key := toLower (trim name)
  if c.has d key then (false, c, d)
  else
    let t := (TableDynamic.new key).setSchema schema
    (true, { tables_ := (key, t) :: c.tables_ }, t.save d)

/-- `drop(name)`: the entry of the key is erased; the result is whether the file of
the key existed (it is removed). -/
def Catalog.drop (c : Catalog) (d : Disk) (name : Str) : Bool × Catalog × Disk :=
  let key := toLower (trim name)
  let c1 : Catalog := { tables_ := c.tables_.filter (fun e => e.1 ≠ key) }
  let path := folder ++ key ++ ".txt".toList
  if d.hasFile path then (true, c1, d.remove path) else (false, c1, d)

/-- `registerExisting(name)`: when `has(key)` is false, a table named by the key is
loaded (there is no file, so it stays empty) and added to `tables_`; otherwise nothing
happens. -/
def Catalog.registerExisting (c : Catalog) (d : Disk) (name : Str) : Catalog :=
  let key := toLower (trim name)
  if c.has d key then c
  else { tables_ := (key, (TableDynamic.new key).load d) :: c.tables_ }

/-! ## The command executor (`main.cpp`) -/

/-- The command descriptor `class Parse` of `parser.h`, as the executor reads it
through its getters. -/
structure Parse where
  cmd_ : Str
  table_ : Str
  cols_ : List Str
  vals_ : List Str
  whereCol_ : Str
  whereOp_ : Str
  whereVal_ : Str
  setCol_ : Str
  setVal_ : Str
  valid_ : Bool
  deriving DecidableEq, Repr

/-- The two messages `validateInsert` leaves in `err`: "column count mismatch", and
"value V not INT for column N" with the value and the column name. -/
inductive InsertError where
  | columnCountMismatch
  | notInt (value column : Str)
  deriving DecidableEq, Repr

/-- `validateInsert` of `main.cpp`: the number of values must be the number of column
names; then the first index whose type is `"INT"` and whose value is not a number
string gives the second error. -/
def validateInsert (schema : TableSchema) (vals : List Str) : Except InsertError Unit :=
  if schema.names.length ≠ vals.length then .error .columnCountMismatch
  else
    match (List.range vals.length).find?
        (fun i => decide (schema.types.getD i [] = "INT".toList) && !isNumberString (vals.getD i [])) with
    | some i => .error (.notInt (vals.getD i []) (schema.names.getD i []))
    | none => .ok ()

/-- `schemaFromCreateCols` of `main.cpp`: `name:TYPE` entries; without a `:` the type
is `STRING`; a type other than `INT` and `STRING` becomes `STRING`. -/
def schemaFromCreateCols (cols : List Str) : TableSchema :=
  cols.foldl (fun (s : TableSchema) ct =>
    if ct.contains ':' then
      let n := toLower (trim (ct.takeWhile (fun ch => ch ≠ ':')))
      let tp0 := toUpper (trim ((ct.dropWhile (fun ch => ch ≠ ':')).drop 1))
      let tp := if tp0 ≠ "INT".toList ∧ tp0 ≠ "STRING".toList then "STRING".toList else tp0
      { names := s.names ++ [n], types := s.types ++ [tp] }
    else
      { names := s.names ++ [toLower (trim ct)], types := s.types ++ ["STRING".toList] })
    { names := [], types := [] }

/-- What `executeParse` prints, one constructor per message of the source; the
arguments are the values the message shows. -/
inductive Output where
  /-- "Error: table already exists" -/
  | createExists
  /-- "CREATE: no columns" -/
  | createNoColumns
  /-- "[OK] Created " and the table name -/
  | created (tname : Str)
  /-- "Failed to create" -/
  | createFailed
  /-- "INSERT: table not found" -/
  | insertTableNotFound
  /-- "INSERT validation: " and the error of `validateInsert` -/
  | insertValidation (err : InsertError)
  /-- "[OK] Inserted into " and the table name -/
  | inserted (tname : Str)
  /-- "SELECT: table not found" -/
  | selectTableNotFound
  /-- "SELECT: unknown column " and the column -/
  | selectUnknownColumn (col : Str)
  /-- "SELECT: unknown WHERE column" -/
  | selectUnknownWhereColumn
  /-- the header line: the selected column names -/
  | selectHeader (names : List Str)
  /-- one result line: the selected cells of a row -/
  | selectRow (cells : List Str)
  /-- "UPDATE: table not found" -/
  | updateTableNotFound
  /-- "UPDATE: unknown column" -/
  | updateUnknownColumn
  /-- "UPDATE: type mismatch" -/
  | updateTypeMismatch
  /-- "UPDATE: unknown WHERE col" -/
  | updateUnknownWhereCol
  /-- "[OK] UPDATE changed: " and the count -/
  | updateChanged (changed : Nat)
  /-- "DELETE: table not found" -/
  | deleteTableNotFound
  /-- "DELETE: unknown WHERE col" -/
  | deleteUnknownWhereCol
  /-- "[OK] DELETE removed: " and the count -/
  | deleteRemoved (removed : Nat)
  /-- "DROP: syntax error" -/
  | dropSyntaxError
  /-- "Table T dropped successfully." -/
  | dropped (tname : Str)
  /-- "DROP: table T not found or already dropped." -/
  | dropNotFound (tname : Str)
  /-- "Unsupported command: " and the command -/
  | unsupported (cmd : Str)
  deriving DecidableEq, Repr

/-- The messages with which `executeParse` rejects an INSERT, UPDATE or DELETE: table
not found, the two validation errors of INSERT (column count, value not INT), unknown
SET column, type mismatch of UPDATE, unknown WHERE column. -/
def Output.isRejection : Output → Bool
  | .insertTableNotFound => true
  | .insertValidation _ => true
  | .updateTableNotFound => true
  | .updateUnknownColumn => true
  | .updateTypeMismatch => true
  | .updateUnknownWhereCol => true
  | .deleteTableNotFound => true
  | .deleteUnknownWhereCol => true
  | _ => false

/-- The process state the executor works on: the global `CATALOG` and the disk. -/
structure World where
  catalog : Catalog
  disk : Disk
  deriving DecidableEq, Repr

/-- How a call of `executeParse` ends: what it printed, in order, and the exception
that left it, if any (`main` catches it and prints "Error: ..."). -/
structure Outcome where
  printed : List Output
  raised : Option Exception
  deriving DecidableEq, Repr

/-- The test `whereIdx == -1 || checkWhere(row, whereIdx, whereOp, whereVal)` of the
UPDATE and DELETE loops. -/
def rowSelected (whereIdx : Int) (whereOp whereVal : Str) (row : Row) : Except Exception Bool :=
  if whereIdx = -1 then .ok true else checkWhere row whereIdx whereOp whereVal

/-- The row loop of UPDATE, `for (r = 0; r < t->rowCount(); r++)`, from counter `r`
with `rows` and `changed` as they stand; the first argument bounds the number of
passes (`rowCount()` passes are all the loop can make from `r = 0`). A selected row
gets `setVal` at `targetIdx` and is written back. An exception of `checkWhere` ends
the loop with the rows changed so far. -/
def updateLoop (whereIdx : Int) (whereOp whereVal : Str) (targetIdx : Nat) (setVal : Str) :
    Nat → Nat → List Row → Nat → List Row × Nat × Option Exception
  | 0, _, rows, changed => (rows, changed, none)
  | k + 1, r, rows, changed =>
    if r < rows.length then
      let row := rows.getD r []
      match rowSelected whereIdx whereOp whereVal row with
      | .error e => (rows, changed, some e)
      | .ok true =>
        updateLoop whereIdx whereOp whereVal targetIdx setVal k (r + 1)
          (rows.set r (row.set targetIdx setVal)) (changed + 1)
      | .ok false =>
        updateLoop whereIdx whereOp whereVal targetIdx setVal k (r + 1) rows changed
    else (rows, changed, none)

/-- The row loop of DELETE, `for (r = rowCount() - 1; r >= 0; r--)`; the first
argument is `r + 1`. `getRow(r)` throws when `r` is no longer an index of the table;
a selected row is passed to `deleteRows`, which removes every row equal to it and
saves. -/
def deleteLoop (whereIdx : Int) (whereOp whereVal : Str) :
    Nat → TableDynamic → Disk → Nat → TableDynamic × Disk × Nat × Option Exception
  | 0, t, d, removed => (t, d, removed, none)
  | r + 1, t, d, removed =>
    match t.getRow (r : Int) with
    | .error e => (t, d, removed, some e)
    | .ok row =>
      match rowSelected whereIdx whereOp whereVal row with
      | .error e => (t, d, removed, some e)
      | .ok true =>
        let res := t.deleteRows row d
        deleteLoop whereIdx whereOp whereVal r res.2.1 res.2.2 (removed + 1)
      | .ok false => deleteLoop whereIdx whereOp whereVal r t d removed

/-- The row loop of SELECT: the lines printed for the rows from the list, and the
exception of `checkWhere` that stops it, if any. -/
def selectLoop (whereIdx : Int) (whereOp whereVal : Str) (selIdx : List Int) :
    List Row → List Output × Option Exception
  | [] => ([], none)
  | row :: rest =>
    match (if whereIdx ≠ -1 then checkWhere row whereIdx whereOp whereVal else .ok true) with
    | .error e => ([], some e)
    | .ok false => selectLoop whereIdx whereOp whereVal selIdx rest
    | .ok true =>
      let res := selectLoop whereIdx whereOp whereVal selIdx rest
      (Output.selectRow (selIdx.map (fun i => row.getD i.toNat [])) :: res.1, res.2)

/-- The column list of SELECT: `*` gives every index; otherwise every name is looked
up, and the first unknown name is the error. -/
def selectIndices (t : TableDynamic) (sel : List Str) : Except Str (List Int) :=
  if sel = ["*".toList] then
    .ok ((List.range t.schema_.names.length).map (fun i => (i : Int)))
  else
    sel.foldl (fun (acc : Except Str (List Int)) col =>
      match acc with
      | .error e => .error e
      | .ok idxs =>
        let idx := t.columnIndex col
        if idx < 0 then .error col else .ok (idxs ++ [idx])) (.ok [])

/-- The CREATE branch of `executeParse`. -/
def executeCreate (p : Parse) (w : World) : World × Outcome :=
  let tname := p.table_
  if w.catalog.has w.disk tname then (w, { printed := [.createExists], raised := none })
  else
    let s := schemaFromCreateCols p.cols_
    if s.names.isEmpty then (w, { printed := [.createNoColumns], raised := none })
    else
      let res := w.catalog.create w.disk tname s
      ({ catalog := res.2.1, disk := res.2.2 },
        { printed := [if res.1 then .created tname else .createFailed], raised := none })

/-- The INSERT branch of `executeParse`: the table must exist; `get` may load it from
its file; the values are validated against its schema; a valid row is appended and
the table saved. (Here and in the branches below `get` cannot return `nullptr` once
`has` has succeeded; the two `none` cases stand for that impossible result.) -/
def executeInsert (p : Parse) (w : World) : World × Outcome :=
  let tname := p.table_
  if !w.catalog.has w.disk tname then (w, { printed := [.insertTableNotFound], raised := none })
  else
    match w.catalog.get w.disk tname with
    | (none, c1) => ({ w with catalog := c1 }, { printed := [], raised := none })
    | (some key, c1) =>
      match c1.find? key with
      | none => ({ w with catalog := c1 }, { printed := [], raised := none })
      | some t =>
        match validateInsert t.schema_ p.vals_ with
        | .error err =>
          ({ w with catalog := c1 }, { printed := [.insertValidation err], raised := none })
        | .ok _ =>
          let res := t.insertRow p.vals_ w.disk
          ({ catalog := c1.store key res.1, disk := res.2 },
            { printed := [.inserted tname], raised := none })

/-- The WHERE column of SELECT, UPDATE and DELETE: `-1` without a WHERE clause;
`none` when the column is unknown. -/
def whereIndex (t : TableDynamic) (p : Parse) : Option Int :=
  if p.whereCol_.isEmpty then some (-1)
  else
    let idx := t.columnIndex p.whereCol_
    if idx < 0 then none else some idx

/-- The SELECT branch of `executeParse`: the table is reloaded from its file, the
columns and the WHERE column are resolved, the header is printed and then every row
that passes the WHERE test. -/
def executeSelect (p : Parse) (w : World) : World × Outcome :=
  let tname := p.table_
  if !w.catalog.has w.disk tname then (w, { printed := [.selectTableNotFound], raised := none })
  else
    match w.catalog.get w.disk tname with
    | (none, c1) => ({ w with catalog := c1 }, { printed := [], raised := none })
    | (some key, c1) =>
      match c1.find? key with
      | none => ({ w with catalog := c1 }, { printed := [], raised := none })
      | some t0 =>
        let t := t0.load w.disk
        let w1 : World := { w with catalog := c1.store key t }
        match selectIndices t p.cols_ with
        | .error col => (w1, { printed := [.selectUnknownColumn col], raised := none })
        | .ok selIdx =>
          match whereIndex t p with
          | none => (w1, { printed := [.selectUnknownWhereColumn], raised := none })
          | some whereIdx =>
            let val := if p.whereCol_.isEmpty then [] else p.whereVal_
            let op := if p.whereCol_.isEmpty then [] else p.whereOp_
            let header := Output.selectHeader (selIdx.map (fun i => t.schema_.names.getD i.toNat []))
            let res := selectLoop whereIdx op val selIdx t.rows_
            (w1, { printed := header :: res.1, raised := res.2 })

/-- The UPDATE branch of `executeParse`: the table is reloaded from its file; the SET
column must exist and an `INT` column takes only a number string; the WHERE column
must exist; then the row loop runs and the table is saved when a row changed. When
`checkWhere` throws, the rows changed so far stay in memory and nothing is saved or
printed. -/
def executeUpdate (p : Parse) (w : World) : World × Outcome :=
  let tname := p.table_
  if !w.catalog.has w.disk tname then (w, { printed := [.updateTableNotFound], raised := none })
  else
    match w.catalog.get w.disk tname with
    | (none, c1) => ({ w with catalog := c1 }, { printed := [], raised := none })
    | (some key, c1) =>
      match c1.find? key with
      | none => ({ w with catalog := c1 }, { printed := [], raised := none })
      | some t0 =>
        let t := t0.load w.disk
        let w1 : World := { w with catalog := c1.store key t }
        let targetIdx := t.columnIndex p.setCol_
        if targetIdx < 0 then (w1, { printed := [.updateUnknownColumn], raised := none })
        else if t.schema_.types.getD targetIdx.toNat [] = "INT".toList ∧
            isNumberString p.setVal_ = false then
          (w1, { printed := [.updateTypeMismatch], raised := none })
        else
          match whereIndex t p with
          | none => (w1, { printed := [.updateUnknownWhereCol], raised := none })
          | some whereIdx =>
            let val := if p.whereCol_.isEmpty then [] else p.whereVal_
            let op := if p.whereCol_.isEmpty then [] else p.whereOp_
            let res := updateLoop whereIdx op val targetIdx.toNat p.setVal_
              t.rowCount 0 t.rows_ 0
            let t1 := { t with rows_ := res.1 }
            match res.2.2 with
            | some e => ({ w with catalog := c1.store key t1 }, { printed := [], raised := some e })
            | none =>
              ({ catalog := c1.store key t1,
                 disk := if res.2.1 > 0 then t1.save w.disk else w.disk },
                { printed := [.updateChanged res.2.1], raised := none })

/-- The DELETE branch of `executeParse`: the table is reloaded from its file, the
WHERE column is resolved, the row loop runs from the last index down, and the table
is saved once more when a row was selected. When `getRow` or `checkWhere` throws, what
the loop did so far stays and nothing is printed. -/
def executeDelete (p : Parse) (w : World) : World × Outcome :=
  let tname := p.table_
  if !w.catalog.has w.disk tname then (w, { printed := [.deleteTableNotFound], raised := none })
  else
    match w.catalog.get w.disk tname with
    | (none, c1) => ({ w with catalog := c1 }, { printed := [], raised := none })
    | (some key, c1) =>
      match c1.find? key with
      | none => ({ w with catalog := c1 }, { printed := [], raised := none })
      | some t0 =>
        let t := t0.load w.disk
        let w1 : World := { w with catalog := c1.store key t }
        match whereIndex t p with
        | none => (w1, { printed := [.deleteUnknownWhereCol], raised := none })
        | some whereIdx =>
          let val := if p.whereCol_.isEmpty then [] else p.whereVal_
          let op := if p.whereCol_.isEmpty then [] else p.whereOp_
          let res := deleteLoop whereIdx op val t.rowCount t w.disk 0
          match res.2.2.2 with
          | some e =>
            ({ catalog := c1.store key res.1, disk := res.2.1 }, { printed := [], raised := some e })
          | none =>
            ({ catalog := c1.store key res.1,
               disk := if res.2.2.1 > 0 then res.1.save res.2.1 else res.2.1 },
              { printed := [.deleteRemoved res.2.2.1], raised := none })

/-- The DROP branch of `executeParse`. -/
def executeDrop (p : Parse) (w : World) : World × Outcome :=
  if !p.valid_ then (w, { printed := [.dropSyntaxError], raised := none })
  else
    let res := w.catalog.drop w.disk p.table_
    ({ catalog := res.2.1, disk := res.2.2 },
      { printed := [if res.1 then .dropped p.table_ else .dropNotFound p.table_], raised := none })

/-- `executeParse` of `main.cpp`: one branch per command word. -/
def executeParse (p : Parse) (w : World) : World × Outcome :=
  if p.cmd_ = "CREATE".toList then executeCreate p w
  else if p.cmd_ = "INSERT".toList then executeInsert p w
  else if p.cmd_ = "SELECT".toList then executeSelect p w
  else if p.cmd_ = "UPDATE".toList then executeUpdate p w
  else if p.cmd_ = "DELETE".toList then executeDelete p w
  else if p.cmd_ = "DROP".toList then executeDrop p w
  else (w, { printed := [.unsupported p.cmd_], raised := none })

/-! ## The iterator operators over a `TableDynamic` (`operators.h`) -/

/-- `class TableScan`: the table it reads, the cursor `idx_` and the row `current_`. -/
structure TableScan where
  table_ : TableDynamic
  idx_ : Int
  current_ : Row
  deriving DecidableEq, Repr

/-- `TableScan(t)`: the cursor starts at `-1`. -/
def TableScan.new (t : TableDynamic) : TableScan := { table_ := t, idx_ := -1, current_ := [] }

/-- `open()`: the cursor is reset and the table reloaded from its file. -/
def TableScan.open (s : TableScan) (d : Disk) : TableScan :=
  { s with idx_ := -1, table_ := s.table_.load d }

/-- `next()`: the cursor advances; inside the table the row is copied to `current_`
(`idx_` is never below `-1`, so `getRow` is called inside the bounds). -/
def TableScan.next (s : TableScan) : Bool × TableScan :=
  let i := s.idx_ + 1
  if i < (s.table_.rowCount : Int) then
    (true, { s with idx_ := i, current_ := s.table_.rows_.getD i.toNat [] })
  else (false, { s with idx_ := i })

/-- `getRow()` of the scan. -/
def TableScan.getRow (s : TableScan) : Row := s.current_

/-- `class Filter` above a `TableScan` child. -/
structure Filter where
  child_ : TableScan
  colIdx_ : Int
  op_ : Str
  val_ : Str
  current_ : Row
  deriving DecidableEq, Repr

/-- `Filter(child, colIdx, op, val)`. -/
def Filter.new (child : TableScan) (colIdx : Int) (op val : Str) : Filter :=
  { child_ := child, colIdx_ := colIdx, op_ := op, val_ := val, current_ := [] }

/-- `open()` of the filter: opens the child. -/
def Filter.open (f : Filter) (d : Disk) : Filter := { f with child_ := f.child_.open d }

/-- The loop `while (child_->next())` of `Filter::next`; the first argument bounds the
number of passes. The first child row that `Filter.accepts` becomes `current_` and
the result is `true`; when the child is exhausted the result is `false`. -/
def Filter.nextLoop : Nat → Filter → Bool × Filter
  | 0, f => (false, f)
  | k + 1, f =>
    match f.child_.next with
    | (true, c) =>
      let r := c.getRow
      if Filter.accepts f.colIdx_ f.op_ f.val_ r then (true, { f with child_ := c, current_ := r })
      else Filter.nextLoop k { f with child_ := c }
    | (false, c) => (false, { f with child_ := c })

/-- `next()` of the filter. The loop makes at most one pass per row the child has not
visited yet, and one more that finds the child exhausted. -/
def Filter.next (f : Filter) : Bool × Filter :=
  Filter.nextLoop (f.child_.table_.rowCount - (f.child_.idx_ + 1).toNat + 1) f

/-- `getRow()` of the filter. -/
def Filter.getRow (f : Filter) : Row := f.current_

/-- The consumer loop `while (op.next()) use(op.getRow())`: the rows obtained, in
order; the first argument bounds the number of calls of `next`. -/
def Filter.drainLoop : Nat → Filter → List Row
  | 0, _ => []
  | k + 1, f =>
    match f.next with
    | (true, f1) => f1.getRow :: Filter.drainLoop k f1
    | (false, _) => []

/-- All rows a filter yields until `next()` returns `false`: every `true` consumes a
row of the table, so `rowCount + 1` calls are enough. -/
def Filter.drain (f : Filter) : List Row :=
  Filter.drainLoop (f.child_.table_.rowCount + 1) f

/-! ## The typed prototype pipeline (`Source.cpp`) -/

namespace Proto

/-- `enum DataType`. -/
inductive DataType where
  | INT
  | STRING
  deriving DecidableEq, Repr

/-- `class Value`: the tag, the `int` and the string. -/
structure Value where
  type : DataType
  intVal : Int
  strVal : Str
  deriving DecidableEq, Repr

/-- `Value(int v)`. -/
def Value.ofInt (v : Int) : Value := { type := .INT, intVal := v, strVal := [] }

/-- `Value(string s)`; the source leaves `intVal` unset, and never reads it for a
`STRING` value. -/
def Value.ofString (s : Str) : Value := { type := .STRING, intVal := 0, strVal := s }

/-- `class Column`. -/
structure Column where
  name : Str
  type : DataType
  deriving DecidableEq, Repr

/-- `class Row`. -/
structure Row where
  values : List Value
  deriving DecidableEq, Repr

/-- `class Table`. -/
structure Table where
  name : Str
  columns : List Column
  rows : List Row
  deriving DecidableEq, Repr

/-- `Table::addColumn`. -/
def Table.addColumn (t : Table) (colName : Str) (type : DataType) : Table :=
  { t with columns := t.columns ++ [{ name := colName, type := type }] }

/-- `Table::insertRow`: when the number of values is not the number of columns it
prints "Error: row size mismatch" and returns; otherwise the row is appended. The
second component says whether the error was printed. -/
def Table.insertRow (t : Table) (vals : List Value) : Table × Bool :=
  if vals.length ≠ t.columns.length then (t, true)
  else ({ t with rows := t.rows ++ [{ values := vals }] }, false)

/-- The loop of `Table::columnIndex`, counting from `i`. -/
def columnIndexFrom (colName : Str) : List Column → Int → Int
  | [], _ => -1
  | c :: cs, i => if c.name = colName then i else columnIndexFrom colName cs (i + 1)

/-- `Table::columnIndex`: exact match of the name, or `-1`. -/
def Table.columnIndex (t : Table) (colName : Str) : Int := columnIndexFrom colName t.columns 0

/-- `class TableScan` of the prototype. -/
structure TableScan where
  table : Table
  idx : Int
  deriving DecidableEq, Repr

/-- `open()`. -/
def TableScan.open (s : TableScan) : TableScan := { s with idx := -1 }

/-- `next()`: `return ++idx < table.rows.size();` (`idx` is never below `-1`, so the
comparison is one of non-negative numbers). -/
def TableScan.next (s : TableScan) : Bool × TableScan :=
  (decide (s.idx + 1 < (s.table.rows.length : Int)), { s with idx := s.idx + 1 })

/-- `getRow()`: `table.rows[idx]`, read without a check; called after a `next()`
that returned `true`. -/
def TableScan.getRow (s : TableScan) : Row := s.table.rows.getD s.idx.toNat { values := [] }

/-- `class Filter` of the prototype, above a scan. -/
structure Filter where
  child : TableScan
  colIdx : Int
  op : Str
  val : Str
  current : Row
  deriving DecidableEq, Repr

/-- The constructor of `Filter`: the column is looked up by name; an unknown column
throws `runtime_error` (`none`). -/
def Filter.new (child : TableScan) (colName op val : Str) : Option Filter :=
  let colIdx := child.table.columnIndex colName
  if colIdx = -1 then none
  else some { child := child, colIdx := colIdx, op := op, val := val, current := { values := [] } }

/-- The body of the loop of `Filter::next` in `Source.cpp` for one row: the value of
`match`. An `INT` value is compared with `stoi(val)` (which may throw) under `=`, `>`,
`<`; a `STRING` value only under `=`. `r.values[colIdx]` is read without a check. -/
def Filter.accepts (colIdx : Int) (op val : Str) (r : Row) : Except Exception Bool :=
  let v := r.values.getD colIdx.toNat (Value.ofInt 0)
  if v.type = DataType.INT then do
    let x := v.intVal
    let y ← stoi val
    if op = "=".toList then pure (decide (x = y))
    else if op = ">".toList then pure (decide (x > y))
    else if op = "<".toList then pure (decide (x < y))
    else pure false
  else
    if op = "=".toList then .ok (decide (v.strVal = val)) else .ok false

/-- The loop `while (child->next())` of the prototype `Filter::next`; the first
argument bounds the number of passes. -/
def Filter.nextLoop : Nat → Filter → Except Exception (Bool × Filter)
  | 0, f => .ok (false, f)
  | k + 1, f =>
    match f.child.next with
    | (true, c) =>
      let r := c.getRow
      match Filter.accepts f.colIdx f.op f.val r with
      | .error e => .error e
      | .ok true => .ok (true, { f with child := c, current := r })
      | .ok false => Filter.nextLoop k { f with child := c }
    | (false, c) => .ok (false, { f with child := c })

/-- `next()` of the prototype filter. -/
def Filter.next (f : Filter) : Except Exception (Bool × Filter) :=
  Filter.nextLoop (f.child.table.rows.length - (f.child.idx + 1).toNat + 1) f

/-- The consumer loop `while (op.next()) use(op.getRow())` of `main` in
`Source.cpp`: the rows obtained, or the exception that ends it. -/
def Filter.drainLoop : Nat → Filter → Except Exception (List Row)
  | 0, _ => .ok []
  | k + 1, f =>
    match Filter.next f with
    | .error e => .error e
    | .ok (true, f1) =>
      match Filter.drainLoop k f1 with
      | .error e => .error e
      | .ok rest => .ok (f1.current :: rest)
    | .ok (false, _) => .ok []

/-- `open()` of the prototype filter: opens the child. -/
def Filter.open (f : Filter) : Filter := { f with child := f.child.open }

/-- All rows the prototype filter yields until `next()` returns `false`. -/
def Filter.drain (f : Filter) : Except Exception (List Row) :=
  Filter.drainLoop (f.child.table.rows.length + 1) f

end Proto

/-- The scan after `k` further calls of `next()`. -/
def TableScan.nextN : Nat → TableScan → TableScan
  | 0, s => s
  | k + 1, s => (TableScan.nextN k s).next.2

/-- The prototype scan after `k` further calls of `next()`. -/
def Proto.TableScan.nextN : Nat → Proto.TableScan → Proto.TableScan
  | 0, s => s
  | k + 1, s => (Proto.TableScan.nextN k s).next.2

/-! ## The operator interface and `Projection` (`operators.h`) -/

/-- What a parent operator calls on its child through the abstract `class Operator`:
`open()`, `next()` and `getRow()`, for a child whose state has type `σ`. -/
structure Operator (σ : Type) where
  open_ : σ → Disk → σ
  next : σ → Bool × σ
  getRow : σ → Row

/-- The scan as an `Operator`. -/
def TableScan.operator : Operator TableScan :=
  { open_ := TableScan.open, next := TableScan.next, getRow := TableScan.getRow }

/-- The filter as an `Operator`. -/
def Filter.operator : Operator Filter :=
  { open_ := Filter.open, next := Filter.next, getRow := Filter.getRow }

/-- `class Projection` above a child of state type `σ`. -/
structure Projection (σ : Type) where
  child_ : σ
  idxs_ : List Int
  current_ : Row
  deriving DecidableEq, Repr

/-- `Projection(child, idxs)`. -/
def Projection.new {σ : Type} (child : σ) (idxs : List Int) : Projection σ :=
  { child_ := child, idxs_ := idxs, current_ := [] }

/-- `open()` of the projection: opens the child. -/
def Projection.open {σ : Type} (ops : Operator σ) (p : Projection σ) (d : Disk) :
    Projection σ :=
  { p with child_ := ops.open_ p.child_ d }

/-- `next()` of the projection: `false` when the child has no further row; otherwise
the child row `r` gives, for every index `i` of `idxs_` in order, the cell `r[i]` when
`i` is inside the row and the empty string when it is not. -/
def Projection.next {σ : Type} (ops : Operator σ) (p : Projection σ) : Bool × Projection σ :=
  match ops.next p.child_ with
  | (false, c) => (false, { p with child_ := c })
  | (true, c) =>
    let r := ops.getRow c
    let out := p.idxs_.map
      (fun i => if 0 ≤ i ∧ i < (r.length : Int) then r.getD i.toNat [] else [])
    (true, { p with child_ := c, current_ := out })

/-- `getRow()` of the projection. -/
def Projection.getRow {σ : Type} (p : Projection σ) : Row := p.current_

/-- The projection as an `Operator`. -/
def Projection.operator {σ : Type} (ops : Operator σ) : Operator (Projection σ) :=
  { open_ := Projection.open ops, next := Projection.next ops, getRow := Projection.getRow }

/-- The consumer loop `while (op.next()) use(op.getRow())` on any operator: the rows
obtained, in order, once `next()` has returned `false`; `none` when the bound on the
number of calls (the first argument) is reached before that. -/
def Operator.drainLoop {σ : Type} (ops : Operator σ) : Nat → σ → Option (List Row)
  | 0, _ => none
  | k + 1, s =>
    match ops.next s with
    | (false, _) => some []
    | (true, s1) =>
      match Operator.drainLoop ops k s1 with
      | none => none
      | some rest => some (ops.getRow s1 :: rest)

/-! ## The operator interface, `Projection` and `UpdateOperator` of the prototype (`Source.cpp`) -/

/-- What a parent operator of the prototype calls on its child through `class
Operator`: `open()`, `next()` (which may end in an exception), `getRow()` and
`updateRow(newRow)`. -/
structure Proto.Operator (σ : Type) where
  open_ : σ → σ
  next : σ → Except Exception (Bool × σ)
  getRow : σ → Proto.Row
  updateRow : σ → Proto.Row → σ

/-- `TableScan::updateRow`: `table.rows[idx] = newRow`, written without a check;
called after a `next()` that returned `true`. -/
def Proto.TableScan.updateRow (s : Proto.TableScan) (newRow : Proto.Row) : Proto.TableScan :=
  { s with table := { s.table with rows := s.table.rows.set s.idx.toNat newRow } }

/-- The prototype scan as an operator. -/
def Proto.TableScan.operator : Proto.Operator Proto.TableScan :=
  { open_ := Proto.TableScan.open
    next := fun s => .ok s.next
    getRow := Proto.TableScan.getRow
    updateRow := Proto.TableScan.updateRow }

/-- `getRow()` of the prototype filter. -/
def Proto.Filter.getRow (f : Proto.Filter) : Proto.Row := f.current

/-- `Filter::updateRow`: passed on to the child. -/
def Proto.Filter.updateRow (f : Proto.Filter) (newRow : Proto.Row) : Proto.Filter :=
  { f with child := f.child.updateRow newRow }

/-- The prototype filter as an operator. -/
def Proto.Filter.operator : Proto.Operator Proto.Filter :=
  { open_ := Proto.Filter.open
    next := Proto.Filter.next
    getRow := Proto.Filter.getRow
    updateRow := Proto.Filter.updateRow }

/-- `class Projection` of the prototype above a child of state type `σ`. -/
structure Proto.Projection (σ : Type) where
  child : σ
  colIdx : List Int
  current : Proto.Row
  deriving DecidableEq, Repr

/-- The loop of the constructor of `Projection`: every column name is looked up in the
table; the first unknown name throws `runtime_error` (`none`). -/
def Proto.Projection.lookup (t : Proto.Table) : List Str → Option (List Int)
  | [] => some []
  | c :: cs =>
    let idx := t.columnIndex c
    if idx = -1 then none
    else
      match Proto.Projection.lookup t cs with
      | none => none
      | some rest => some (idx :: rest)

/-- `Projection(child, t, cols)`. -/
def Proto.Projection.new {σ : Type} (child : σ) (t : Proto.Table) (cols : List Str) :
    Option (Proto.Projection σ) :=
  match Proto.Projection.lookup t cols with
  | none => none
  | some idxs => some { child := child, colIdx := idxs, current := { values := [] } }

/-- `next()` of the prototype projection: `false` when the child has no further row;
otherwise the values `r.values[idx]` of the child row, for every index of `colIdx` in
order (read without a check). -/
def Proto.Projection.next {σ : Type} (ops : Proto.Operator σ) (p : Proto.Projection σ) :
    Except Exception (Bool × Proto.Projection σ) :=
  match ops.next p.child with
  | .error e => .error e
  | .ok (false, c) => .ok (false, { p with child := c })
  | .ok (true, c) =>
    let r := ops.getRow c
    let out := p.colIdx.map (fun idx => r.values.getD idx.toNat (Proto.Value.ofInt 0))
    .ok (true, { p with child := c, current := { values := out } })

/-- `getRow()` of the prototype projection. -/
def Proto.Projection.getRow {σ : Type} (p : Proto.Projection σ) : Proto.Row := p.current

/-- The prototype projection as an operator; `updateRow` is not overridden, so it is
the empty default of `class Operator`. -/
def Proto.Projection.operator {σ : Type} (ops : Proto.Operator σ) :
    Proto.Operator (Proto.Projection σ) :=
  { open_ := fun p => { p with child := ops.open_ p.child }
    next := Proto.Projection.next ops
    getRow := Proto.Projection.getRow
    updateRow := fun p _ => p }

/-- The consumer loop `while (op.next()) use(op.getRow())` of `main` in `Source.cpp`
on any operator: the rows obtained once `next()` has returned `false`, or the exception
that ended the loop; `none` when the bound on the number of calls is reached first. -/
def Proto.Operator.drainLoop {σ : Type} (ops : Proto.Operator σ) :
    Nat → σ → Option (Except Exception (List Proto.Row))
  | 0, _ => none
  | k + 1, s =>
    match ops.next s with
    | .error e => some (.error e)
    | .ok (false, _) => some (.ok [])
    | .ok (true, s1) =>
      match Proto.Operator.drainLoop ops k s1 with
      | none => none
      | some (.error e) => some (.error e)
      | some (.ok rest) => some (.ok (ops.getRow s1 :: rest))

/-- `class UpdateOperator` above a child of state type `σ`. -/
structure Proto.UpdateOperator (σ : Type) where
  child : σ
  targetIdx : Int
  newVal : Proto.Value
  deriving DecidableEq, Repr

/-- `UpdateOperator(child, t, targetCol, newVal)`: an unknown column throws
`runtime_error` (`none`). -/
def Proto.UpdateOperator.new {σ : Type} (child : σ) (t : Proto.Table) (targetCol : Str)
    (newVal : Proto.Value) : Option (Proto.UpdateOperator σ) :=
  let targetIdx := t.columnIndex targetCol
  if targetIdx = -1 then none
  else some { child := child, targetIdx := targetIdx, newVal := newVal }

/-- `next()` of the update operator, `while (child->next()) { ... } return false;`:
every row the child yields gets `newVal` at `targetIdx` (`r.values[targetIdx]`, written
without a check) and is handed back with `updateRow`. The first argument bounds the
number of passes; `none` when it is reached before the child returned `false`. An
exception of the child ends the call. -/
def Proto.UpdateOperator.next {σ : Type} (ops : Proto.Operator σ) :
    Nat → Proto.UpdateOperator σ → Option (Except Exception (Bool × Proto.UpdateOperator σ))
  | 0, _ => none
  | k + 1, u =>
    match ops.next u.child with
    | .error e => some (.error e)
    | .ok (false, c) => some (.ok (false, { u with child := c }))
    | .ok (true, c) =>
      let r := ops.getRow c
      let r1 : Proto.Row := { values := r.values.set u.targetIdx.toNat u.newVal }
      Proto.UpdateOperator.next ops k { u with child := ops.updateRow c r1 }

/-- `getRow()` of the update operator: always the empty row. -/
def Proto.UpdateOperator.getRow {σ : Type} (_u : Proto.UpdateOperator σ) : Proto.Row :=
  { values := [] }

/-! ## Counting the fields of a row line, in the words of the specification -/

/-- The comma-separated fields of a line as a reader counts them: the pieces between
consecutive commas, so that a line with `k` commas has `k + 1` fields, some of which may
be empty. (Library `splitOn`, not taken from the source; compared with `splitFields`.) -/
def commaFields (line : Str) : List Str := line.splitOn ','

/-- The comma-separated fields without an empty field after the last comma. (Not taken
from the source; compared with `splitFields`.) -/
def countedFields (line : Str) : List Str :=
  if (commaFields line).getLast? = some [] then (commaFields line).dropLast
  else commaFields line

/-! ## The parser (`parser.h`) and the command loop of `main` -/

/-- `Parse::reset()`: the descriptor with every field cleared. -/
def Parse.reset : Parse :=
  { cmd_ := [], table_ := [], cols_ := [], vals_ := [], whereCol_ := [], whereOp_ := [],
    whereVal_ := [], setCol_ := [], setVal_ := [], valid_ := false }

/-- The special characters of `tokenize`: `(`, `)`, `,`, `=`, `<`, `>`, `!`. -/
def isSpecialChar (ch : Char) : Bool :=
  ch = '(' || ch = ')' || ch = ',' || ch = '=' || ch = '<' || ch = '>' || ch = '!'

/-- The character loop of `tokenize`, from the characters not yet visited. The flag is
set when the previous pass took two characters (`++i` after `<=`, `>=`, `!=`, `==`), so
that this character is skipped. A special character closes the token `current` and is a
token itself, together with a following `=` for `<`, `>`, `!`, `=`; white space closes
`current`; any other character is added to it. After the last character a non-empty
`current` is the last token. -/
def tokenizeAux : Str → Bool → Str → List Str → List Str
  | [], _, current, tok => if current.isEmpty then tok else tok ++ [current]
  | _ :: rest, true, current, tok => tokenizeAux rest false current tok
  | ch :: rest, false, current, tok =>
    if isSpecialChar ch then
      let tok1 := if current.isEmpty then tok else tok ++ [current]
      if (ch = '<' ∨ ch = '>' ∨ ch = '!' ∨ ch = '=') ∧ rest.head? = some '=' then
        tokenizeAux rest true [] (tok1 ++ [[ch, '=']])
      else tokenizeAux rest false [] (tok1 ++ [[ch]])
    else if isspace ch then
      tokenizeAux rest false [] (if current.isEmpty then tok else tok ++ [current])
    else tokenizeAux rest false (current ++ [ch]) tok

/-- `Parse::tokenize(q)`: one trailing `;` is removed, then the character loop runs. -/
def Parse.tokenize (q : Str) : List Str :=
  let s := if q.getLast? = some ';' then q.dropLast else q
  tokenizeAux s false [] []

/-- Undefined behaviour of the parser: the token vector, of `size` tokens, was read with
`t[index]` at an index that is not below `size`. -/
structure ReadPastEnd where
  index : Nat
  size : Nat
  deriving DecidableEq, Repr

/-- A read `t[i]` that no loop condition guards: the token, or the report of a read past
the end of the vector. -/
def tokenAt (t : List Str) (i : Nat) : Except ReadPastEnd Str :=
  match t[i]? with
  | some s => .ok s
  | none => .error { index := i, size := t.length }

/-- The first index `i` with `start ≤ i < t.size()` whose token satisfies `test`, as the
search loops of the parser find it (`t[i]` is read under the loop condition). -/
def findToken (t : List Str) (start : Nat) (test : Str → Bool) : Option Nat :=
  (List.range t.length).find? (fun i => decide (start ≤ i) && test (t.getD i []))

/-- The tokens `t[i]` for `lo ≤ i < hi`, in order (`hi` is an index of `t` wherever the
parser runs such a loop). -/
def tokensBetween (t : List Str) (lo hi : Nat) : List Str :=
  ((List.range hi).filter (fun i => decide (lo ≤ i))).map (fun i => t.getD i [])

/-- The loop of `parseCreate` over `parts`, two entries at a time: `name:TYPE` with the
name lower-cased and the type upper-cased, a type other than `INT` and `STRING` becoming
`STRING`. `parts` has an even number of entries. -/
def createCols : List Str → List Str
  | name :: type :: rest =>
    let n := toLower (trim name)
    let tp0 := toUpper (trim type)
    let tp := if tp0 ≠ "INT".toList ∧ tp0 ≠ "STRING".toList then "STRING".toList else tp0
    (n ++ ":".toList ++ tp) :: createCols rest
  | _ => []

/-- `parseCreate(t)`: `CREATE TABLE name ( col TYPE, col TYPE )`. `open` is the first
`(` from index 3, `close` the last `)` of the whole vector. -/
def Parse.parseCreate (p : Parse) (t : List Str) : Except ReadPastEnd Parse := do
  if t.length < 5 then return p
  let t1 ← tokenAt t 1
  if toUpper t1 ≠ "TABLE".toList then return p
  let t2 ← tokenAt t 2
  let p1 := { p with table_ := toLower (trim t2) }
  match findToken t 3 (fun s => s = "(".toList),
      (List.range t.length).reverse.find? (fun i => t.getD i [] = ")".toList) with
  | some opn, some close =>
    if close ≤ opn then return p1
    let parts := (tokensBetween t (opn + 1) close).filter (fun s => s ≠ ",".toList)
    if parts.length % 2 ≠ 0 then return p1
    return { p1 with cols_ := createCols parts, valid_ := true, cmd_ := "CREATE".toList }
  | _, _ => return p1

/-- `parseInsert(t)`: `INSERT INTO table VALUES (val1,val2)`. `vpos` is the first
`VALUES` from index 3, `open` the first `(` after it, `close` the first `)` after `open`
(searched from index 0 when there is no `(`, after which the function returns). -/
def Parse.parseInsert (p : Parse) (t : List Str) : Except ReadPastEnd Parse := do
  if t.length < 4 then return p
  let t1 ← tokenAt t 1
  if toUpper t1 ≠ "INTO".toList then return p
  let t2 ← tokenAt t 2
  let p1 := { p with table_ := toLower (trim t2) }
  match findToken t 3 (fun s => toUpper s = "VALUES".toList) with
  | none => return p1
  | some vpos =>
    match findToken t (vpos + 1) (fun s => s = "(".toList) with
    | none => return p1
    | some opn =>
      match findToken t (opn + 1) (fun s => s = ")".toList) with
      | none => return p1
      | some close =>
        let vals := ((tokensBetween t (opn + 1) close).filter (fun s => s ≠ ",".toList)).map trim
        return { p1 with vals_ := vals, valid_ := true, cmd_ := "INSERT".toList }

/-- `parseSelect(t)`: `from` is the first `FROM` from index 1; the columns are the
tokens before it other than `,`, `(` and `)`; a `WHERE` right after the table name needs
three more tokens. -/
def Parse.parseSelect (p : Parse) (t : List Str) : Except ReadPastEnd Parse := do
  if t.length < 4 then return p
  match findToken t 1 (fun s => toUpper s = "FROM".toList) with
  | none => return p
  | some from_ =>
    if from_ + 1 ≥ t.length then return p
    let cols := ((tokensBetween t 1 from_).filter
      (fun s => s ≠ ",".toList ∧ s ≠ "(".toList ∧ s ≠ ")".toList)).map (fun s => toLower (trim s))
    let tn ← tokenAt t (from_ + 1)
    let p1 := { p with cols_ := cols, table_ := toLower (trim tn) }
    if from_ + 2 < t.length then
      let tw ← tokenAt t (from_ + 2)
      if toUpper tw = "WHERE".toList then
        if from_ + 5 + 1 ≤ t.length then
          let a ← tokenAt t (from_ + 3)
          let b ← tokenAt t (from_ + 4)
          let c ← tokenAt t (from_ + 5)
          return { p1 with
            whereCol_ := toLower (trim a), whereOp_ := trim b, whereVal_ := trim c,
            valid_ := true, cmd_ := "SELECT".toList }
        else return p1
    return { p1 with valid_ := true, cmd_ := "SELECT".toList }

/-- `parseUpdate(t)`: `UPDATE table SET col = val`, and a `WHERE` at index 6 needs the
vector to hold at least 10 tokens. -/
def Parse.parseUpdate (p : Parse) (t : List Str) : Except ReadPastEnd Parse := do
  if t.length < 5 then return p
  let t1 ← tokenAt t 1
  let p1 := { p with table_ := toLower (trim t1) }
  let t2 ← tokenAt t 2
  if toUpper t2 ≠ "SET".toList then return p1
  if t.length < 6 then return p1
  let t3 ← tokenAt t 3
  let p2 := { p1 with setCol_ := toLower (trim t3) }
  let t4 ← tokenAt t 4
  if t4 ≠ "=".toList then return p2
  let t5 ← tokenAt t 5
  let p3 := { p2 with setVal_ := trim t5 }
  if t.length > 6 then
    let t6 ← tokenAt t 6
    if toUpper t6 = "WHERE".toList then
      if t.length ≥ 10 then
        let a ← tokenAt t 7
        let b ← tokenAt t 8
        let c ← tokenAt t 9
        return { p3 with
          whereCol_ := toLower (trim a), whereOp_ := trim b, whereVal_ := trim c,
          valid_ := true, cmd_ := "UPDATE".toList }
      else return p3
  return { p3 with valid_ := true, cmd_ := "UPDATE".toList }

/-- `parseDelete(t)`: `DELETE FROM table`, and after a `WHERE` at index 3 the test is
`t.size() >= 6`, followed by the reads `t[4]`, `t[5]` and `t[6]`. -/
def Parse.parseDelete (p : Parse) (t : List Str) : Except ReadPastEnd Parse := do
  if t.length < 3 then return p
  let t1 ← tokenAt t 1
  if toUpper t1 ≠ "FROM".toList then return p
  let t2 ← tokenAt t 2
  let p1 := { p with table_ := toLower (trim t2) }
  if t.length > 3 then
    let t3 ← tokenAt t 3
    if toUpper t3 = "WHERE".toList then
      if t.length ≥ 6 then
        let a ← tokenAt t 4
        let b ← tokenAt t 5
        let c ← tokenAt t 6
        return { p1 with
          whereCol_ := toLower (trim a), whereOp_ := trim b, whereVal_ := trim c,
          valid_ := true, cmd_ := "DELETE".toList }
      else return p1
  return { p1 with valid_ := true, cmd_ := "DELETE".toList }

/-- `parseDrop(t)`: `DROP TABLE name`. -/
def Parse.parseDrop (p : Parse) (t : List Str) : Except ReadPastEnd Parse := do
  if t.length < 3 then return p
  let t1 ← tokenAt t 1
  if toUpper t1 ≠ "TABLE".toList then return p
  let t2 ← tokenAt t 2
  return { p with table_ := toLower (trim t2), valid_ := true, cmd_ := "DROP".toList }

/-- `Parse::parse(query)`: reset, tokenize, and one parse function by the first token,
upper-cased; any other first token leaves the descriptor cleared. -/
def Parse.parse (query : Str) : Except ReadPastEnd Parse :=
  let tok := Parse.tokenize query
  if tok.isEmpty then .ok Parse.reset
  else
    let first := toUpper (tok.getD 0 [])
    if first = "CREATE".toList then Parse.parseCreate Parse.reset tok
    else if first = "INSERT".toList then Parse.parseInsert Parse.reset tok
    else if first = "SELECT".toList then Parse.parseSelect Parse.reset tok
    else if first = "UPDATE".toList then Parse.parseUpdate Parse.reset tok
    else if first = "DELETE".toList then Parse.parseDelete Parse.reset tok
    else if first = "DROP".toList then Parse.parseDrop Parse.reset tok
    else .ok Parse.reset

/-- The command loop of `main` on the input lines: an empty line is skipped, `EXIT` (in
any case) ends the loop, a line whose descriptor is not valid is answered with the usage
text and skipped, every other line is executed on the state the previous one left (an
exception of `executeParse` is caught and the loop goes on). A read past the end of the
token vector ends the model. -/
def runQueries : List Str → World → Except ReadPastEnd World
  | [], w => .ok w
  | line :: rest, w =>
    if line.isEmpty then runQueries rest w
    else if toUpper line = "EXIT".toList then .ok w
    else
      match Parse.parse line with
      | .error e => .error e
      | .ok p => if p.valid_ then runQueries rest (executeParse p w).1 else runQueries rest w

/-! ## Example inputs -/

/-- The table `students` as `main` of `Source.cpp` builds it: columns `name` (STRING)
and `age` (INT), rows (Ali, 18), (Omar, 22), (Sara, 25), (Mona, 19). -/
def Proto.students : Proto.Table :=
  let t0 : Proto.Table := { name := "students".toList, columns := [], rows := [] }
  let t1 := (t0.addColumn "name".toList .STRING).addColumn "age".toList .INT
  let t2 := (t1.insertRow [.ofString "Ali".toList, .ofInt 18]).1
  let t3 := (t2.insertRow [.ofString "Omar".toList, .ofInt 22]).1
  let t4 := (t3.insertRow [.ofString "Sara".toList, .ofInt 25]).1
  (t4.insertRow [.ofString "Mona".toList, .ofInt 19]).1

/-- The same table as a `TableDynamic` named `t`, with `rows` for its rows. -/
def peopleTable (rows : List Row) : TableDynamic :=
  { name_ := "t".toList
    schema_ := { names := ["name".toList, "age".toList], types := ["STRING".toList, "INT".toList] }
    rows_ := rows }

/-- The four rows of `students`, as strings. -/
def studentRows : List Row :=
  [["Ali".toList, "18".toList], ["Omar".toList, "22".toList], ["Sara".toList, "25".toList],
   ["Mona".toList, "19".toList]]

/-- A world that holds one table, in the catalog under its name and saved on disk. -/
def World.ofTable (t : TableDynamic) : World :=
  { catalog := { tables_ := [(t.name_, t)] }, disk := t.save Disk.empty }

/-- The descriptor of `INSERT INTO table VALUES (vals)`. -/
def Parse.insert (table : Str) (vals : List Str) : Parse :=
  { Parse.reset with
    cmd_ := "INSERT".toList, table_ := table, vals_ := vals, valid_ := true }

/-- The descriptor of `UPDATE table SET setCol = setVal WHERE whereCol whereOp whereVal`. -/
def Parse.update (table setCol setVal whereCol whereOp whereVal : Str) : Parse :=
  { Parse.reset with
    cmd_ := "UPDATE".toList, table_ := table, setCol_ := setCol, setVal_ := setVal,
    whereCol_ := whereCol, whereOp_ := whereOp, whereVal_ := whereVal, valid_ := true }

/-- The descriptor of `DELETE FROM table WHERE whereCol whereOp whereVal`. -/
def Parse.delete (table whereCol whereOp whereVal : Str) : Parse :=
  { Parse.reset with
    cmd_ := "DELETE".toList, table_ := table,
    whereCol_ := whereCol, whereOp_ := whereOp, whereVal_ := whereVal, valid_ := true }

/-- The descriptor of `CREATE TABLE table (...)` with the columns as `name:TYPE`. -/
def Parse.create (table : Str) (cols : List Str) : Parse :=
  { Parse.reset with
    cmd_ := "CREATE".toList, table_ := table, cols_ := cols, valid_ := true }

/-- The state at program start with an empty storage directory. -/
def World.empty : World := { catalog := { tables_ := [] }, disk := Disk.empty }

/-- The command loop of `main` on descriptors: every command is executed on the state
the previous one left (an exception is caught by `main` and the loop goes on). -/
def runCommands (ps : List Parse) (w : World) : World :=
  ps.foldl (fun w1 p => (executeParse p w1).1) w

/-- The plan of `WHERE age > 20` on `students` in `operators.h`: a filter above a scan,
opened on a disk that holds the saved table. -/
def studentsOver20 : Filter :=
  (Filter.new (TableScan.new (peopleTable studentRows)) 1 ">".toList "20".toList).open
    ((peopleTable studentRows).save Disk.empty)

/-- The filter `Filter filt(&scan, students, "age", ">", "20")` of `main` in
`Source.cpp`, opened. -/
def Proto.studentsOver20 : Proto.Filter :=
  { child := { table := Proto.students, idx := -1 }
    colIdx := 1
    op := ">".toList
    val := "20".toList
    current := { values := [] } }

/-- A table file with a two-column header whose only row line is `1,a,`. -/
def trailingCommaFile : Str := "2\nname STRING\nage INT\n1,a,\n".toList

/-- A table file with a two-column header and row lines of every kind: a full line, a
blank line, a line with too few fields, a line with one field too many, and a line that
ends in a comma. -/
def mixedRowsFile : Str :=
  "2\nname STRING\nage INT\n1,Ali,18\n\n2,Omar\n3,Sara,25,x\n4,z,\n".toList

/-- Four input lines: a table with an `INT` column `age`, one row, an UPDATE whose SET
literal is the token `,`, and a DELETE that matches no row. -/
def commaLiteralQueries : List Str :=
  ["CREATE TABLE t (name STRING, age INT)".toList,
   "INSERT INTO t VALUES (a,5)".toList,
   "UPDATE t SET name = ,".toList,
   "DELETE FROM t WHERE name = zzz".toList]

/-- Five commands on the table `t`: two INSERTs, an INSERT with one value too few (which
is rejected), an UPDATE and a DELETE. -/
def rowLengthCommands : List Parse :=
  [Parse.insert "t".toList ["Ali".toList, "18".toList],
   Parse.insert "t".toList ["Omar".toList, "22".toList],
   Parse.insert "t".toList ["x".toList],
   Parse.update "t".toList "age".toList "30".toList "name".toList "=".toList "Ali".toList,
   Parse.delete "t".toList "age".toList ">".toList "25".toList]

/-- The table `students` under the name `a/b`, whose file would be `./db/a/b.txt`. -/
def slashTable : TableDynamic :=
  { name_ := "a/b".toList, schema_ := (peopleTable []).schema_, rows_ := studentRows }

/-- A file system whose storage directory is empty: it has no directory `./db/a/`, so
the path `./db/a/b.txt` cannot be opened for writing. -/
def flatDisk : Disk := { files := [], unwritable := ["./db/a/b.txt".toList] }

/-! ## Theorems -/

/-- The characters `isdigit` accepts are exactly the ten decimal digits. -/
theorem isdigit_iff (c : Char) : isdigit c = true ↔ c ∈ "0123456789".toList := by
  constructor
  · intro h
    simp only [isdigit, Bool.and_eq_true, decide_eq_true_eq] at h
    obtain ⟨h1, h2⟩ := h
    have hc : c = Char.ofNat c.toNat := by simp [Char.ofNat_toNat]
    rw [hc]
    generalize c.toNat = n at h1 h2
    interval_cases n <;> decide
  · intro h
    simp only [String.toList, List.mem_cons, List.mem_singleton] at h
    rcases h with h | h | h | h | h | h | h | h | h | h | h
    all_goals first | (subst h; decide) | simp at h

theorem isNumberString_iff (s : Str) :
    isNumberString s = true ↔
      ∃ ds : Str, ds ≠ [] ∧ (∀ c ∈ ds, isdigit c = true) ∧ (s = ds ∨ s = '-' :: ds) := by
  constructor
  · intro h
    cases s with
    | nil => simp [isNumberString] at h
    | cons a t =>
      simp only [isNumberString, List.isEmpty_cons, Bool.false_eq_true, if_false,
        List.head?_cons, List.length_cons] at h
      by_cases ha : a = '-' ∧ t ≠ []
      · obtain ⟨ha, ht⟩ := ha
        subst ha
        have hl : t.length + 1 > 1 := by
          have := List.length_pos.mpr ht
          omega
        simp [hl] at h
        exact ⟨t, ht, fun c hc => h c hc, Or.inr rfl⟩
      · have hi : ((decide (some a = some '-') && decide (t.length + 1 > 1)) = true) = False := by
          simp only [eq_iff_iff, iff_false, Bool.and_eq_true, decide_eq_true_eq, Option.some.injEq]
          rintro ⟨h1, h2⟩
          apply ha
          refine ⟨h1, ?_⟩
          intro ht
          subst ht
          simp at h2
        simp only [hi, if_false, List.drop_zero, List.all_eq_true] at h
        exact ⟨a :: t, by simp, h, Or.inl rfl⟩
  · rintro ⟨ds, hne, hd, hs | hs⟩ <;> subst hs
    · cases s with
      | nil => exact absurd rfl hne
      | cons a t =>
        have ha : a ≠ '-' := by
          intro h
          have := hd a (by simp)
          subst h
          simp [isdigit] at this
        simp only [isNumberString, List.isEmpty_cons, Bool.false_eq_true, if_false,
          List.head?_cons, Option.some.injEq, ha, decide_False, Bool.false_and, List.drop_zero,
          List.all_eq_true]
        exact hd
    · have hl : ds.length + 1 > 1 := by
        have := List.length_pos.mpr hne
        omega
      simp [isNumberString, hl]
      exact hd

/-- C2: `isNumberString s` holds exactly when `s` is a non-empty string of decimal
digits, optionally preceded by a single `-`; the strings "", "-", "--5", "5-" and "1a"
are not number strings, and "0", "-5" and "007" are. -/
theorem C2_isNumberString_classification :
    (∀ s : Str, isNumberString s = true ↔
      ∃ ds : Str, ds ≠ [] ∧ (∀ c ∈ ds, c ∈ "0123456789".toList) ∧ (s = ds ∨ s = '-' :: ds)) ∧
    isNumberString "".toList = false ∧ isNumberString "-".toList = false ∧
    isNumberString "--5".toList = false ∧ isNumberString "5-".toList = false ∧
    isNumberString "1a".toList = false ∧ isNumberString "0".toList = true ∧
    isNumberString "-5".toList = true ∧ isNumberString "007".toList = true := by
  refine ⟨fun s => ?_, by decide, by decide, by decide, by decide, by decide, by decide,
    by decide, by decide⟩
  rw [isNumberString_iff]
  constructor
  · rintro ⟨ds, h1, h2, h3⟩
    exact ⟨ds, h1, fun c hc => (isdigit_iff c).mp (h2 c hc), h3⟩
  · rintro ⟨ds, h1, h2, h3⟩
    exact ⟨ds, h1, fun c hc => (isdigit_iff c).mpr (h2 c hc), h3⟩

/-- C3 (the code at the failing input): for the row (Ali, 17) and the test
`age < 18` the executor predicate `checkWhere` answers `false`, although 17 is below
18; and under `<` it never answers `true`, whatever the row, the column and the
literal. The Filter row test of `operators.h` accepts the same row. -/
theorem C3_checkWhere_less_than_unmatched :
    checkWhere ["Ali".toList, "17".toList] 1 "<".toList "18".toList = .ok false ∧
    Filter.accepts 1 "<".toList "18".toList ["Ali".toList, "17".toList] = true ∧
    (∀ (row : Row) (colIdx : Int) (val : Str),
      checkWhere row colIdx "<".toList val ≠ .ok true) := by
  refine ⟨by decide, by decide, ?_⟩
  intro row colIdx val
  unfold checkWhere
  split
  · simp
  · dsimp only
    split
    · cases h1 : stoll (row.getD colIdx.toNat []) with
      | error e => simp [bind, Except.bind]
      | ok a =>
        cases h2 : stoll val with
        | error e => simp [bind, Except.bind]
        | ok b =>
          have e1 : ("<".toList = "=".toList) = False := by decide
          have e2 : ("<".toList = "!=".toList) = False := by decide
          have e3 : ("<".toList = ">".toList) = False := by decide
          have e4 : ("<".toList = "<=".toList) = False := by decide
          have e5 : ("<".toList = ">=".toList) = False := by decide
          simp only [bind, Except.bind, e1, e2, e3, e4, e5, if_false, pure, Except.pure]
          simp
    · have e1 : ("<".toList = "=".toList) = False := by decide
      simp only [e1, if_false]
      simp

/-- C4 (the code at the failing inputs): with the cell "18" the Filter row test of
`operators.h` rejects the row under `<= 20`, `>= 18` and `!= 20`, three comparisons
that hold on the integers and that `checkWhere` accepts; under these three operators
it rejects every row. The prototype filter of `Source.cpp` rejects `<= 20` as
well. -/
theorem C4_filter_rejects_le_ge_ne :
    Filter.accepts 1 "<=".toList "20".toList ["Ali".toList, "18".toList] = false ∧
    Filter.accepts 1 ">=".toList "18".toList ["Ali".toList, "18".toList] = false ∧
    Filter.accepts 1 "!=".toList "20".toList ["Ali".toList, "18".toList] = false ∧
    checkWhere ["Ali".toList, "18".toList] 1 "<=".toList "20".toList = .ok true ∧
    checkWhere ["Ali".toList, "18".toList] 1 ">=".toList "18".toList = .ok true ∧
    checkWhere ["Ali".toList, "18".toList] 1 "!=".toList "20".toList = .ok true ∧
    Proto.Filter.accepts 1 "<=".toList "20".toList
      { values := [Proto.Value.ofString "Ali".toList, Proto.Value.ofInt 18] } = .ok false ∧
    (∀ (colIdx : Int) (val : Str) (r : Row),
      Filter.accepts colIdx "<=".toList val r = false ∧
      Filter.accepts colIdx ">=".toList val r = false ∧
      Filter.accepts colIdx "!=".toList val r = false) := by
  refine ⟨by decide, by decide, by decide, by decide, by decide, by decide, by decide, ?_⟩
  intro colIdx val r
  have e1 : ("<=".toList = "=".toList) = False := by decide
  have e2 : ("<=".toList = ">".toList) = False := by decide
  have e3 : ("<=".toList = "<".toList) = False := by decide
  have e4 : (">=".toList = "=".toList) = False := by decide
  have e5 : (">=".toList = ">".toList) = False := by decide
  have e6 : (">=".toList = "<".toList) = False := by decide
  have e7 : ("!=".toList = "=".toList) = False := by decide
  have e8 : ("!=".toList = ">".toList) = False := by decide
  have e9 : ("!=".toList = "<".toList) = False := by decide
  refine ⟨?_, ?_, ?_⟩ <;>
  · unfold Filter.accepts
    simp only [e1, e2, e3, e4, e5, e6, e7, e8, e9, if_false]
    split
    · rfl
    · split
      · split <;> rfl
      · rfl

/-- C5: when the cell at the column index or the literal is not a number string,
`checkWhere` returns, without an exception, and the Filter row test gives, `true`
exactly when the operator is `=` and the cell is the same string as the literal; under
every other operator both give `false`. -/
theorem C5_non_numeric_only_equality (row : Row) (colIdx : Int) (op val cell : Str)
    (hidx : 0 ≤ colIdx) (hcell : row.get? colIdx.toNat = some cell)
    (hnum : ¬ (isNumberString cell = true ∧ isNumberString val = true)) :
    checkWhere row colIdx op val = .ok (decide (op = "=".toList ∧ cell = val)) ∧
    Filter.accepts colIdx op val row = decide (op = "=".toList ∧ cell = val) := by
  have hlt : colIdx.toNat < row.length := by
    rw [List.get?_eq_some] at hcell
    exact hcell.1
  have hget : row.getD colIdx.toNat [] = cell := by
    rw [List.getD_eq_getElem?_getD, ← List.get?_eq_getElem?, hcell]
    rfl
  have hrange : ¬ (colIdx < 0 ∨ colIdx ≥ (row.length : Int)) := by omega
  have hb : (isNumberString cell && isNumberString val) = false := by
    rw [Bool.and_eq_false_iff]
    by_cases h1 : isNumberString cell = true
    · right
      by_cases h2 : isNumberString val = true
      · exact absurd ⟨h1, h2⟩ hnum
      · simpa using h2
    · left
      simpa using h1
  constructor
  · unfold checkWhere
    simp only [hrange, if_false, hget, hb, Bool.false_eq_true]
    by_cases hop : op = "=".toList
    · subst hop
      simp
    · have hop1 : ¬ op = ['='] := hop
      simp [hop1]
  · unfold Filter.accepts
    simp only [hrange, if_false, hget, hb, Bool.false_eq_true]
    by_cases hop : op = "=".toList
    · subst hop
      simp
    · have hop1 : ¬ op = ['='] := hop
      simp [hop1]

/-- Witness for C5: the cell "Sara" is not a number string; `name = Sara` matches and
nothing else is needed. -/
theorem C5_non_numeric_only_equality_witness :
    checkWhere ["Sara".toList, "25".toList] 0 "=".toList "Sara".toList
        = .ok (decide ("=".toList = "=".toList ∧ "Sara".toList = "Sara".toList)) ∧
    Filter.accepts 0 "=".toList "Sara".toList ["Sara".toList, "25".toList]
        = decide ("=".toList = "=".toList ∧ "Sara".toList = "Sara".toList) :=
  C5_non_numeric_only_equality ["Sara".toList, "25".toList] 0 "=".toList "Sara".toList
    "Sara".toList (by decide) (by decide) (by decide)

/-- A row list filtered, seen through its first accepted row. -/
theorem filter_eq_of_dropWhile {α : Type} (p : α → Bool) (l : List α) :
    (l.dropWhile (fun x => !p x) = [] → l.filter p = []) ∧
    (∀ r rest, l.dropWhile (fun x => !p x) = r :: rest → l.filter p = r :: rest.filter p) := by
  induction l with
  | nil => simp
  | cons a t ih =>
    by_cases ha : p a = true
    · simp [List.dropWhile, List.filter, ha]
    · have ha1 : p a = false := by simpa using ha
      simp only [List.dropWhile, List.filter, ha1, Bool.not_false]
      exact ih

/-- One call of the filter loop, started before row `i` with enough passes left: when
no row from `i` on is accepted it returns `false`; otherwise it returns `true` with
the first accepted row as `current_` and the cursor on that row. -/
theorem Filter.nextLoop_spec (l : List Row) :
    ∀ (i k : Nat) (f : Filter), f.child_.table_.rows_.drop i = l →
      f.child_.idx_ = (i : Int) - 1 → l.length + 1 ≤ k →
      (l.dropWhile (fun r => !Filter.accepts f.colIdx_ f.op_ f.val_ r) = [] →
        ∃ f1, Filter.nextLoop k f = (false, f1)) ∧
      (∀ r rest, l.dropWhile (fun r => !Filter.accepts f.colIdx_ f.op_ f.val_ r) = r :: rest →
        ∃ f1, Filter.nextLoop k f = (true, f1) ∧ f1.current_ = r ∧
          f1.child_.table_ = f.child_.table_ ∧ f1.colIdx_ = f.colIdx_ ∧ f1.op_ = f.op_ ∧
          f1.val_ = f.val_ ∧
          f1.child_.idx_ = ((f.child_.table_.rows_.length - rest.length : Nat) : Int) - 1 ∧
          f1.child_.table_.rows_.drop (f.child_.table_.rows_.length - rest.length) = rest) := by
  induction l with
  | nil =>
    intro i k f hdrop hidx hk
    have hlen : f.child_.table_.rows_.length ≤ i := List.drop_eq_nil_iff.mp hdrop
    obtain ⟨k1, rfl⟩ : ∃ k1, k = k1 + 1 := ⟨k - 1, by simp at hk; omega⟩
    constructor
    · intro _
      have hnot : ¬ (f.child_.idx_ + 1 < (f.child_.table_.rowCount : Int)) := by
        simp only [TableDynamic.rowCount]
        omega
      refine ⟨{ f with child_ := { f.child_ with idx_ := f.child_.idx_ + 1 } }, ?_⟩
      simp only [Filter.nextLoop, TableScan.next, hnot, if_false]
    · intro r rest h
      simp at h
  | cons a t ih =>
    intro i k f hdrop hidx hk
    obtain ⟨k1, rfl⟩ : ∃ k1, k = k1 + 1 := ⟨k - 1, by simp at hk; omega⟩
    have hi : i < f.child_.table_.rows_.length := by
      by_contra hcon
      have : f.child_.table_.rows_.drop i = [] := List.drop_eq_nil_iff.mpr (by omega)
      rw [this] at hdrop
      exact absurd hdrop (by simp)
    have hlt : f.child_.idx_ + 1 < (f.child_.table_.rowCount : Int) := by
      simp only [TableDynamic.rowCount]
      omega
    have hnat : (f.child_.idx_ + 1).toNat = i := by omega
    have hget : f.child_.table_.rows_.getD i [] = a := by
      have h1 : f.child_.table_.rows_.drop i = f.child_.table_.rows_[i] ::
          f.child_.table_.rows_.drop (i + 1) := List.drop_eq_getElem_cons hi
      rw [h1] at hdrop
      rw [List.getD_eq_getElem _ _ hi]
      exact (List.cons.inj hdrop).1
    have htail : f.child_.table_.rows_.drop (i + 1) = t := by
      have h1 : f.child_.table_.rows_.drop i = f.child_.table_.rows_[i] ::
          f.child_.table_.rows_.drop (i + 1) := List.drop_eq_getElem_cons hi
      rw [h1] at hdrop
      exact (List.cons.inj hdrop).2
    have hlenEq : f.child_.table_.rows_.length - t.length = i + 1 := by
      have := congrArg List.length htail
      simp only [List.length_drop] at this
      omega
    by_cases hacc : Filter.accepts f.colIdx_ f.op_ f.val_ a = true
    · constructor
      · intro h
        simp [List.dropWhile, hacc] at h
      · intro r rest h
        simp only [List.dropWhile, hacc, Bool.not_true] at h
        obtain ⟨h1, h2⟩ := List.cons.inj h
        subst h1
        subst h2
        refine ⟨{ f with child_ := { f.child_ with idx_ := f.child_.idx_ + 1, current_ := a },
                         current_ := a }, ?_, ?_⟩
        · simp only [Filter.nextLoop, TableScan.next, hlt, if_true, TableScan.getRow, hnat,
            hget, hacc]
        · refine ⟨rfl, rfl, rfl, rfl, rfl, ?_, ?_⟩
          · simp only [hlenEq]
            omega
          · simp only [hlenEq]
            exact htail
    · have hacc1 : Filter.accepts f.colIdx_ f.op_ f.val_ a = false := by simpa using hacc
      have hstep : Filter.nextLoop (k1 + 1) f = Filter.nextLoop k1
          { f with child_ := { f.child_ with idx_ := f.child_.idx_ + 1, current_ := a } } := by
        simp only [Filter.nextLoop, TableScan.next, hlt, if_true, TableScan.getRow, hnat,
          hget, hacc1, Bool.false_eq_true, if_false]
      have hih := ih (i + 1) k1
        { f with child_ := { f.child_ with idx_ := f.child_.idx_ + 1, current_ := a } }
        htail (by simp only; push_cast; omega) (by simp only [List.length_cons] at hk; omega)
      rw [hstep]
      simp only [List.dropWhile, hacc1, Bool.not_false]
      exact hih

/-- The rows a filter yields, started before row `i`, are the accepted rows from `i`
on, in order. -/
theorem Filter.drainLoop_spec :
    ∀ (n : Nat) (l : List Row) (i k : Nat) (f : Filter), l.length = n →
      f.child_.table_.rows_.drop i = l → f.child_.idx_ = (i : Int) - 1 → l.length + 1 ≤ k →
      Filter.drainLoop k f = l.filter (fun r => Filter.accepts f.colIdx_ f.op_ f.val_ r) := by
  intro n
  induction n using Nat.strong_induction_on with
  | _ n ih =>
    intro l i k f hn hdrop hidx hk
    obtain ⟨k1, rfl⟩ : ∃ k1, k = k1 + 1 := ⟨k - 1, by omega⟩
    have hfuel : l.length + 1 ≤
        f.child_.table_.rowCount - (f.child_.idx_ + 1).toNat + 1 := by
      have h1 : (f.child_.idx_ + 1).toNat = i := by omega
      have h2 := congrArg List.length hdrop
      simp only [List.length_drop] at h2
      simp only [TableDynamic.rowCount, h1]
      omega
    have hspec := Filter.nextLoop_spec l i _ f hdrop hidx hfuel
    have hfilt := filter_eq_of_dropWhile (fun r => Filter.accepts f.colIdx_ f.op_ f.val_ r) l
    cases hdw : l.dropWhile (fun r => !Filter.accepts f.colIdx_ f.op_ f.val_ r) with
    | nil =>
      obtain ⟨f1, hf1⟩ := hspec.1 hdw
      rw [hfilt.1 hdw]
      simp only [Filter.drainLoop, Filter.next, hf1]
    | cons r rest =>
      obtain ⟨f1, hf1, hcur, htab, hc, ho, hv, hidx1, hdrop1⟩ := hspec.2 r rest hdw
      rw [hfilt.2 r rest hdw]
      have hsuf : (r :: rest).length ≤ l.length := by
        rw [← hdw]
        exact List.IsSuffix.length_le (List.dropWhile_suffix _)
      simp only [List.length_cons] at hsuf
      have hrec := ih rest.length (by omega) rest
        (f.child_.table_.rows_.length - rest.length) k1 f1 rfl hdrop1
        hidx1 (by omega)
      simp only [Filter.drainLoop, Filter.next, hf1, Filter.getRow, hcur, hrec, hc, ho, hv]

/-- A filter above a scan, once opened, yields exactly the rows of the (reloaded)
table that its row test accepts, in table order. -/
theorem Filter.drain_open (t : TableDynamic) (colIdx : Int) (op val : Str) (d : Disk) :
    ((Filter.new (TableScan.new t) colIdx op val).open d).drain
      = (t.load d).rows_.filter (fun r => Filter.accepts colIdx op val r) := by
  unfold Filter.drain
  have h := Filter.drainLoop_spec (t.load d).rows_.length (t.load d).rows_ 0
    ((t.load d).rows_.length + 1) ((Filter.new (TableScan.new t) colIdx op val).open d) rfl
    (by simp [Filter.open, Filter.new, TableScan.open, TableScan.new])
    (by simp [Filter.open, Filter.new, TableScan.open, TableScan.new]) (le_refl _)
  simpa [Filter.open, Filter.new, TableScan.open, TableScan.new, TableDynamic.rowCount] using h

/-- C6 (the code at the failing input): above a scan of the four `students` rows,
`Filter(age > 20)` yields (Omar, 22), (Sara, 25), as the specification says, but
`Filter(age <= 20)` yields no row although (Ali, 18) and (Mona, 19) satisfy the
comparison, and so do `Filter(age >= 20)` and `Filter(age != 18)`; the prototype
filter of `Source.cpp` behaves the same way. -/
theorem C6_filter_scan_misses_le_rows :
    ((Filter.new (TableScan.new (peopleTable studentRows)) 1 ">".toList "20".toList).open
        ((peopleTable studentRows).save Disk.empty)).drain
      = [["Omar".toList, "22".toList], ["Sara".toList, "25".toList]] ∧
    ((Filter.new (TableScan.new (peopleTable studentRows)) 1 "<=".toList "20".toList).open
        ((peopleTable studentRows).save Disk.empty)).drain = [] ∧
    ((Filter.new (TableScan.new (peopleTable studentRows)) 1 ">=".toList "20".toList).open
        ((peopleTable studentRows).save Disk.empty)).drain = [] ∧
    ((Filter.new (TableScan.new (peopleTable studentRows)) 1 "!=".toList "18".toList).open
        ((peopleTable studentRows).save Disk.empty)).drain = [] ∧
    (Proto.Filter.new { table := Proto.students, idx := -1 } "age".toList ">".toList
        "20".toList).map (fun f => f.open.drain)
      = some (.ok [{ values := [.ofString "Omar".toList, .ofInt 22] },
                   { values := [.ofString "Sara".toList, .ofInt 25] }]) ∧
    (Proto.Filter.new { table := Proto.students, idx := -1 } "age".toList "<=".toList
        "20".toList).map (fun f => f.open.drain) = some (.ok []) := by
  refine ⟨?_, ?_, ?_, ?_, ?_, ?_⟩
  all_goals decide

/-- Reading the entry that `store` has just written. -/
theorem Catalog.find?_store (c : Catalog) (key : Str) (t0 t : TableDynamic)
    (h : c.find? key = some t0) : (c.store key t).find? key = some t := by
  obtain ⟨l⟩ := c
  simp only [Catalog.find?, Catalog.store] at h ⊢
  induction l with
  | nil => simp at h
  | cons e rest ih =>
    by_cases he : e.1 = key
    · simp [List.find?, he]
    · have he1 : decide (e.1 = key) = false := by simpa using he
      simp only [List.map_cons, he, if_false, List.find?, he1]
      simp only [List.find?, he1] at h
      exact ih h

/-- After a successful `get`, `has` holds. -/
theorem Catalog.has_of_get (c c1 : Catalog) (d : Disk) (name key : Str)
    (h : c.get d name = (some key, c1)) : c.has d name = true := by
  unfold Catalog.get at h
  unfold Catalog.has
  by_cases h1 : (c.find? (toLower (trim name))).isSome = true
  · simp only [h1, if_true]
  · simp only [h1, if_false] at h ⊢
    by_cases h2 : d.hasFile (folder ++ toLower (trim name) ++ ".txt".toList) = true
    · exact h2
    · rw [if_neg h2] at h
      exact absurd (congrArg Prod.fst h) (by simp)

/-- What `validateInsert` answers, by cases on the values. -/
theorem validateInsert_spec (schema : TableSchema) (vals : List Str) :
    (schema.names.length ≠ vals.length →
      validateInsert schema vals = .error .columnCountMismatch) ∧
    (schema.names.length = vals.length →
      (∃ i, i < vals.length ∧ schema.types.getD i [] = "INT".toList ∧
        isNumberString (vals.getD i []) = false) →
      ∃ v col, validateInsert schema vals = .error (.notInt v col)) ∧
    (schema.names.length = vals.length →
      (∀ i, i < vals.length → schema.types.getD i [] = "INT".toList →
        isNumberString (vals.getD i []) = true) →
      validateInsert schema vals = .ok ()) := by
  refine ⟨?_, ?_, ?_⟩
  · intro h
    simp [validateInsert, h]
  · intro h ⟨i, hi, hty, hnum⟩
    unfold validateInsert
    simp only [h, ne_eq, not_true_eq_false, if_false]
    cases hf : (List.range vals.length).find?
        (fun i => decide (schema.types.getD i [] = "INT".toList) &&
          !isNumberString (vals.getD i [])) with
    | some j => exact ⟨_, _, rfl⟩
    | none =>
      rw [List.find?_eq_none] at hf
      have := hf i (List.mem_range.mpr hi)
      rw [hty, hnum] at this
      exact absurd rfl this
  · intro h hall
    unfold validateInsert
    simp only [h, ne_eq, not_true_eq_false, if_false]
    cases hf : (List.range vals.length).find?
        (fun i => decide (schema.types.getD i [] = "INT".toList) &&
          !isNumberString (vals.getD i [])) with
    | none => rfl
    | some j =>
      have hp := List.find?_some hf
      have hm := List.mem_of_find?_eq_some hf
      simp only [Bool.and_eq_true, decide_eq_true_eq, Bool.not_eq_true'] at hp
      have := hall j (List.mem_range.mp hm) hp.1
      rw [hp.2] at this
      exact absurd this (by simp)

/-- C7: an INSERT run by the executor on a table `t` (as `get` hands it over, stored
under `key`). With a number of values other than the number of columns it prints the
column-count error and leaves table and disk as they were; with the right number of
values but a non-number string for some `INT` column it prints the type error and
leaves table and disk as they were; otherwise it reports success and the table is `t`
with the values appended as its last row, saved to disk. -/
theorem C7_insert_validation (p : Parse) (w : World) (key : Str) (c1 : Catalog)
    (t : TableDynamic) (hcmd : p.cmd_ = "INSERT".toList)
    (hget : w.catalog.get w.disk p.table_ = (some key, c1)) (ht : c1.find? key = some t) :
    (p.vals_.length ≠ t.schema_.names.length →
      (executeParse p w).2 = { printed := [.insertValidation .columnCountMismatch], raised := none } ∧
      (executeParse p w).1.catalog.find? key = some t ∧ (executeParse p w).1.disk = w.disk) ∧
    (p.vals_.length = t.schema_.names.length →
      (∃ i, i < p.vals_.length ∧ t.schema_.types.getD i [] = "INT".toList ∧
        isNumberString (p.vals_.getD i []) = false) →
      (∃ v col, (executeParse p w).2 =
        { printed := [.insertValidation (.notInt v col)], raised := none }) ∧
      (executeParse p w).1.catalog.find? key = some t ∧ (executeParse p w).1.disk = w.disk) ∧
    (p.vals_.length = t.schema_.names.length →
      (∀ i, i < p.vals_.length → t.schema_.types.getD i [] = "INT".toList →
        isNumberString (p.vals_.getD i []) = true) →
      (executeParse p w).2 = { printed := [.inserted p.table_], raised := none } ∧
      (executeParse p w).1.catalog.find? key = some { t with rows_ := t.rows_ ++ [p.vals_] } ∧
      (executeParse p w).1.disk = TableDynamic.save { t with rows_ := t.rows_ ++ [p.vals_] } w.disk) := by
  have hhas := Catalog.has_of_get _ _ _ _ _ hget
  have hne : ("INSERT".toList = "CREATE".toList) = False := by decide
  have hexec : executeParse p w = executeInsert p w := by
    simp only [executeParse, hcmd, hne, if_false, if_true]
  have hv := validateInsert_spec t.schema_ p.vals_
  rw [hexec]
  refine ⟨?_, ?_, ?_⟩
  · intro hlen
    have h1 := hv.1 (fun h => hlen h.symm)
    have hres : executeInsert p w = ({ w with catalog := c1 },
        { printed := [.insertValidation .columnCountMismatch], raised := none }) := by
      simp only [executeInsert, hhas, Bool.not_true, Bool.false_eq_true, if_false, hget, ht, h1]
    rw [hres]
    exact ⟨rfl, ht, rfl⟩
  · intro hlen hex
    obtain ⟨v, col, h1⟩ := hv.2.1 hlen.symm hex
    have hres : executeInsert p w = ({ w with catalog := c1 },
        { printed := [.insertValidation (.notInt v col)], raised := none }) := by
      simp only [executeInsert, hhas, Bool.not_true, Bool.false_eq_true, if_false, hget, ht, h1]
    rw [hres]
    exact ⟨⟨v, col, rfl⟩, ht, rfl⟩
  · intro hlen hall
    have h1 := hv.2.2 hlen.symm hall
    have hres : executeInsert p w =
        ({ catalog := c1.store key { t with rows_ := t.rows_ ++ [p.vals_] },
           disk := TableDynamic.save { t with rows_ := t.rows_ ++ [p.vals_] } w.disk },
         { printed := [.inserted p.table_], raised := none }) := by
      simp only [executeInsert, hhas, Bool.not_true, Bool.false_eq_true, if_false, hget, ht, h1,
        TableDynamic.insertRow]
    rw [hres]
    exact ⟨rfl, Catalog.find?_store _ _ _ _ ht, rfl⟩

/-- Witness for C7: on the table `t(name STRING, age INT)` holding (Ali, 18), the
command `INSERT INTO t VALUES (Omar, 22)` meets the premises, and the third case gives
the table with (Omar, 22) as its last row. -/
theorem C7_insert_validation_witness :
    (executeParse (Parse.insert "t".toList ["Omar".toList, "22".toList])
      (World.ofTable (peopleTable [["Ali".toList, "18".toList]]))).1.catalog.find? "t".toList
      = some (peopleTable [["Ali".toList, "18".toList], ["Omar".toList, "22".toList]]) :=
  ((C7_insert_validation (Parse.insert "t".toList ["Omar".toList, "22".toList])
    (World.ofTable (peopleTable [["Ali".toList, "18".toList]])) "t".toList
    (World.ofTable (peopleTable [["Ali".toList, "18".toList]])).catalog
    (peopleTable [["Ali".toList, "18".toList]]) (by decide) (by decide) (by decide)).2.2
      (by decide) (by decide)).2.1

/-- C8 (counterexample): the table `t(name, age)` has two columns; `insertRow` with
the single value "x" raises no error and changes the rows. -/
theorem C8_insertRow_unchecked_counterexample :
    ["x".toList].length ≠ (peopleTable []).schema_.names.length ∧
    ((peopleTable []).insertRow ["x".toList] Disk.empty).1.rows_ ≠ (peopleTable []).rows_ ∧
    ((peopleTable []).insertRow ["x".toList] Disk.empty).1.rows_ = [["x".toList]] := by
  decide

/-- C8 (amended): `Table::insertRow` of `Source.cpp` reports the row-size error and
leaves the table as it was when the number of values is not the number of columns, and
otherwise appends the values as the last row; `TableDynamic::insertRow` of `db.h` makes
no check: it always appends the values as the last row and saves the table. For the
engine the length check is the one `validateInsert` makes in the executor. -/
theorem C8_insertRow_amended :
    (∀ (t : Proto.Table) (vals : List Proto.Value),
      (vals.length ≠ t.columns.length → t.insertRow vals = (t, true)) ∧
      (vals.length = t.columns.length →
        t.insertRow vals = ({ t with rows := t.rows ++ [{ values := vals }] }, false))) ∧
    (∀ (t : TableDynamic) (vals : Row) (d : Disk),
      (t.insertRow vals d).1 = { t with rows_ := t.rows_ ++ [vals] } ∧
      (t.insertRow vals d).2 = TableDynamic.save { t with rows_ := t.rows_ ++ [vals] } d) ∧
    (∀ (schema : TableSchema) (vals : List Str), schema.names.length ≠ vals.length →
      validateInsert schema vals = .error .columnCountMismatch) := by
  refine ⟨fun t vals => ⟨fun h => ?_, fun h => ?_⟩, fun t vals d => ⟨rfl, rfl⟩,
    fun schema vals h => (validateInsert_spec schema vals).1 h⟩
  · simp [Proto.Table.insertRow, h]
  · simp [Proto.Table.insertRow, h]

/-- Witness for C8 (amended): a single value for the two-column prototype table
`students` is refused. -/
theorem C8_insertRow_amended_witness :
    Proto.students.insertRow [Proto.Value.ofString "Zed".toList] = (Proto.students, true) :=
  (C8_insertRow_amended.1 Proto.students [Proto.Value.ofString "Zed".toList]).1 (by decide)

/-- C9 (the code at the failing input): the table `t(name STRING, age INT)` with the
four `students` rows is what CREATE and four INSERTs build. On it
`UPDATE t SET age = 30 WHERE name = Sara` reports 1 and changes the row of Sara only,
but `UPDATE t SET age = 30 WHERE age < 20` reports 0 and changes nothing, although
(Ali, 18) and (Mona, 19) satisfy the WHERE clause. -/
theorem C9_update_less_than_changes_nothing :
    runCommands [Parse.create "t".toList ["name:STRING".toList, "age:INT".toList],
        Parse.insert "t".toList ["Ali".toList, "18".toList],
        Parse.insert "t".toList ["Omar".toList, "22".toList],
        Parse.insert "t".toList ["Sara".toList, "25".toList],
        Parse.insert "t".toList ["Mona".toList, "19".toList]] World.empty
      = World.ofTable (peopleTable studentRows) ∧
    executeParse (Parse.update "t".toList "age".toList "30".toList "name".toList "=".toList
        "Sara".toList) (World.ofTable (peopleTable studentRows))
      = (World.ofTable (peopleTable
          [["Ali".toList, "18".toList], ["Omar".toList, "22".toList],
           ["Sara".toList, "30".toList], ["Mona".toList, "19".toList]]),
         { printed := [.updateChanged 1], raised := none }) ∧
    executeParse (Parse.update "t".toList "age".toList "30".toList "age".toList "<".toList
        "20".toList) (World.ofTable (peopleTable studentRows))
      = (World.ofTable (peopleTable studentRows),
         { printed := [.updateChanged 0], raised := none }) := by
  refine ⟨?_, ?_, ?_⟩ <;> decide

/-- C10 (the code at the failing input): the table holds (a, 1), (b, 1), (b, 1), as
CREATE and three INSERTs build it, and every row satisfies `age = 1`.
`DELETE FROM t WHERE age = 1` removes the two equal rows in its first pass, then
`getRow(1)` throws `out_of_range`: the command ends with the exception, prints
nothing, and the row (a, 1) stays in the table and in its file. -/
theorem C10_delete_duplicates_leaves_matching_row :
    runCommands [Parse.create "t".toList ["name:STRING".toList, "age:INT".toList],
        Parse.insert "t".toList ["a".toList, "1".toList],
        Parse.insert "t".toList ["b".toList, "1".toList],
        Parse.insert "t".toList ["b".toList, "1".toList]] World.empty
      = World.ofTable (peopleTable
          [["a".toList, "1".toList], ["b".toList, "1".toList], ["b".toList, "1".toList]]) ∧
    executeParse (Parse.delete "t".toList "age".toList "=".toList "1".toList)
        (World.ofTable (peopleTable
          [["a".toList, "1".toList], ["b".toList, "1".toList], ["b".toList, "1".toList]]))
      = (World.ofTable (peopleTable [["a".toList, "1".toList]]),
         { printed := [], raised := some .out_of_range }) ∧
    checkWhere ["a".toList, "1".toList] 1 "=".toList "1".toList = .ok true := by
  refine ⟨?_, ?_, ?_⟩ <;> decide

/-- A digit is none of the characters the file format gives a meaning to. -/
theorem isdigit_facts (c : Char) (h : isdigit c = true) :
    isspace c = false ∧ c ≠ '-' ∧ c ≠ '+' ∧ c ≠ ',' ∧ c ≠ '\n' := by
  simp only [isdigit, Bool.and_eq_true, decide_eq_true_eq] at h
  refine ⟨?_, ?_, ?_, ?_, ?_⟩
  · simp only [isspace, Bool.or_eq_false_iff, Bool.and_eq_false_iff, decide_eq_false_iff_not]
    omega
  all_goals
    intro hc
    subst hc
    revert h
    decide

/-- The character written for a digit value is a digit with that value. -/
theorem digitChar_facts (m : Nat) (h : m < 10) :
    isdigit (Char.ofNat (48 + m)) = true ∧ (Char.ofNat (48 + m)).toNat - 48 = m := by
  interval_cases m <;> decide

/-- The value of a digit string extended by one digit. -/
theorem decValue_append_singleton (ds : Str) (c : Char) :
    decValue (ds ++ [c]) = 10 * decValue ds + (c.toNat - 48) := by
  simp [decValue, List.foldl_append]

/-- With enough fuel, `natToDecAux` puts in front of `acc` a non-empty digit string
that denotes `n`. -/
theorem natToDecAux_spec : ∀ (fuel n : Nat) (acc : Str), n < fuel →
    ∃ ds : Str, natToDecAux fuel n acc = ds ++ acc ∧ ds ≠ [] ∧
      (∀ c ∈ ds, isdigit c = true) ∧ decValue ds = n := by
  intro fuel
  induction fuel with
  | zero => intro n acc h; omega
  | succ k ih =>
    intro n acc h
    have hd := digitChar_facts (n % 10) (Nat.mod_lt _ (by decide))
    by_cases h0 : n / 10 = 0
    · refine ⟨[Char.ofNat (48 + n % 10)], ?_, by simp, ?_, ?_⟩
      · simp [natToDecAux, h0]
      · intro c hc
        simp only [List.mem_singleton] at hc
        rw [hc]
        exact hd.1
      · simp only [decValue, List.foldl_cons, List.foldl_nil, hd.2]
        omega
    · obtain ⟨ds, h1, _, h3, h4⟩ := ih (n / 10) (Char.ofNat (48 + n % 10) :: acc) (by omega)
      refine ⟨ds ++ [Char.ofNat (48 + n % 10)], ?_, by simp, ?_, ?_⟩
      · simp only [natToDecAux, h0, if_false, h1]
        simp
      · intro c hc
        rcases List.mem_append.mp hc with hc | hc
        · exact h3 c hc
        · simp only [List.mem_singleton] at hc
          rw [hc]
          exact hd.1
      · rw [decValue_append_singleton, h4, hd.2]
        omega

/-- The decimal text of `n` is a non-empty digit string that denotes `n`. -/
theorem natToDec_spec (n : Nat) :
    natToDec n ≠ [] ∧ (∀ c ∈ natToDec n, isdigit c = true) ∧ decValue (natToDec n) = n := by
  obtain ⟨ds, h1, h2, h3, h4⟩ := natToDecAux_spec (n + 1) n [] (by omega)
  have : natToDec n = ds := by simp [natToDec, h1]
  rw [this]
  exact ⟨h2, h3, h4⟩

/-- `takeWhile` stops at the first character outside the predicate. -/
theorem takeWhile_append_stop {p : Char → Bool} (l : Str) (c : Char) (rest : Str)
    (hl : ∀ x ∈ l, p x = true) (hc : p c = false) :
    (l ++ c :: rest).takeWhile p = l ∧ (l ++ c :: rest).dropWhile p = c :: rest := by
  induction l with
  | nil => simp [List.takeWhile, List.dropWhile, hc]
  | cons a t ih =>
    have ha := hl a (by simp)
    have ih1 := ih (fun x hx => hl x (by simp [hx]))
    simp [List.takeWhile, List.dropWhile, ha, ih1.1, ih1.2]

/-- `takeWhile` on a list that lies inside the predicate. -/
theorem takeWhile_all {p : Char → Bool} (l : Str) (hl : ∀ x ∈ l, p x = true) :
    l.takeWhile p = l ∧ l.dropWhile p = [] := by
  induction l with
  | nil => simp
  | cons a t ih =>
    have ha := hl a (by simp)
    have ih1 := ih (fun x hx => hl x (by simp [hx]))
    simp [List.takeWhile, List.dropWhile, ha, ih1.1, ih1.2]

/-- Reading back the decimal text of a number below `2^31` that is followed by a line
end. -/
theorem readInt_natToDec (n : Nat) (rest : Str) (hn : n < 2 ^ 31) :
    readInt (natToDec n ++ '\n' :: rest) = some ((n : Int), '\n' :: rest) := by
  obtain ⟨hne, hdig, hval⟩ := natToDec_spec n
  cases hds : natToDec n with
  | nil => exact absurd hds hne
  | cons a t =>
    rw [hds] at hdig hval
    have ha := hdig a (by simp)
    obtain ⟨hsp, hm, hp, _, _⟩ := isdigit_facts a ha
    have hnl : isdigit '\n' = false := by decide
    have htw := takeWhile_append_stop (a :: t) '\n' rest hdig hnl
    have hscan : scanInteger (a :: t ++ '\n' :: rest) = some ((n : Int), '\n' :: rest) := by
      unfold scanInteger
      have h1 : (a :: t ++ '\n' :: rest).dropWhile isspace = a :: (t ++ '\n' :: rest) := by
        simp [List.dropWhile, hsp]
      simp only [h1, List.head?_cons]
      have h2 : (match a :: (t ++ '\n' :: rest) with
          | '-' :: r => r
          | '+' :: r => r
          | _ => a :: (t ++ '\n' :: rest)) = a :: (t ++ '\n' :: rest) := by
        split
        · rename_i heq
          exact absurd (List.cons.inj heq).1 hm
        · rename_i heq
          exact absurd (List.cons.inj heq).1 hp
        · rfl
      rw [h2]
      have h3 : a :: (t ++ '\n' :: rest) = (a :: t) ++ '\n' :: rest := rfl
      rw [h3, htw.1, htw.2]
      have h4 : decide (some a = some '-') = false := by simpa using hm
      simp [h4, hval, hm]
    unfold readInt
    rw [hscan]
    have : ¬ ((n : Int) < -(2 : Int) ^ 31 ∨ (2 : Int) ^ 31 ≤ (n : Int)) := by
      have : (n : Int) < 2 ^ 31 := by exact_mod_cast hn
      omega
    simp only [this, if_false]

/-- A line without `\n`, followed by `\n`, is the next line `getline` returns. -/
theorem getlinesAux_line (l rest cur : Str) (hl : ∀ c ∈ l, c ≠ '\n') :
    getlinesAux (l ++ '\n' :: rest) cur = (cur ++ l) :: getlinesAux rest [] := by
  induction l generalizing cur with
  | nil => simp [getlinesAux]
  | cons a t ih =>
    have ha : a ≠ '\n' := hl a (by simp)
    have := ih (cur ++ [a]) (fun c hc => hl c (by simp [hc]))
    simp [getlinesAux, ha, this]
/-- `ss >> name >> type` on a line `name type` written by `save`. -/
theorem readWord_header_line (nm ty : Str) (hne : nm ≠ [])
    (hnm : ∀ c ∈ nm, isspace c = false) (hty : ∀ c ∈ ty, isspace c = false) :
    (readWord (nm ++ [' '] ++ ty)).1 = nm ∧
    (readWord (readWord (nm ++ [' '] ++ ty)).2).1 = ty := by
  have hsp : isspace ' ' = true := by decide
  have hnm1 : ∀ c ∈ nm, (fun c => !isspace c) c = true := by
    intro c hc
    simp [hnm c hc]
  have hty1 : ∀ c ∈ ty, (fun c => !isspace c) c = true := by
    intro c hc
    simp [hty c hc]
  have hstop : (fun c => !isspace c) ' ' = false := by simp [hsp]
  have hdw : (nm ++ [' '] ++ ty).dropWhile isspace = nm ++ ' ' :: ty := by
    cases nm with
    | nil => exact absurd rfl hne
    | cons a t =>
      have := hnm a (by simp)
      simp [List.dropWhile, this]
  have h1 := takeWhile_append_stop (p := fun c => !isspace c) nm ' ' ty hnm1 hstop
  have hdw2 : (' ' :: ty).dropWhile isspace = ty := by
    cases ty with
    | nil => simp [List.dropWhile, hsp]
    | cons a t =>
      have := hty a (by simp)
      simp [List.dropWhile, hsp, this]
  have h2 := takeWhile_all (p := fun c => !isspace c) ty hty1
  unfold readWord
  simp only [hdw, h1.1, h1.2, hdw2, h2.1, and_self]

/-- The index loop over a non-empty list, unrolled once. -/
theorem range_map_cons {β : Type} (n : Nat) (f : Nat → β) :
    (List.range (n + 1)).map f = f 0 :: (List.range n).map (fun i => f (i + 1)) := by
  rw [List.range_succ_eq_map, List.map_cons, List.map_map]
  rfl

/-- The column loop of `load` reads back the column lines that `save` wrote. -/
theorem loadColumns_header : ∀ (names types : List Str), names.length = types.length →
    (∀ n ∈ names, n ≠ [] ∧ ∀ c ∈ n, isspace c = false) →
    (∀ ty ∈ types, ∀ c ∈ ty, isspace c = false) →
    ∀ (rest : Str) (sch : TableSchema),
      loadColumns names.length
        (getlinesAux (((List.range names.length).map (fun i =>
          names.getD i [] ++ [' '] ++ types.getD i [] ++ ['\n'])).flatten ++ rest) []) sch
      = ({ names := sch.names ++ names.map toLower, types := sch.types ++ types },
          some (getlinesAux rest [])) := by
  intro names
  induction names with
  | nil =>
    intro types hlen _ _ rest sch
    have : types = [] := List.length_eq_zero.mp hlen.symm
    subst this
    simp [loadColumns]
  | cons a as ih =>
    intro types hlen hn ht rest sch
    cases types with
    | nil => simp at hlen
    | cons ty tys =>
      have hlen1 : as.length = tys.length := by simpa using hlen
      have hna := hn a (by simp)
      have hta := ht ty (by simp)
      have hline : ∀ c ∈ a ++ [' '] ++ ty, c ≠ '\n' := by
        intro c hc hcn
        subst hcn
        simp only [List.append_assoc, List.mem_append, List.mem_singleton] at hc
        rcases hc with hc | hc | hc
        · have := hna.2 _ hc
          revert this
          decide
        · revert hc
          decide
        · have := hta _ hc
          revert this
          decide
      have hw := readWord_header_line a ty hna.1 hna.2 hta
      have htext : ((List.range (a :: as).length).map (fun i =>
            (a :: as).getD i [] ++ [' '] ++ (ty :: tys).getD i [] ++ ['\n'])).flatten ++ rest
          = (a ++ [' '] ++ ty) ++ '\n' :: (((List.range as.length).map (fun i =>
            as.getD i [] ++ [' '] ++ tys.getD i [] ++ ['\n'])).flatten ++ rest) := by
        rw [List.length_cons, range_map_cons]
        simp
      rw [htext, getlinesAux_line _ _ _ hline]
      simp only [List.length_cons, List.nil_append, loadColumns, hw.1, hw.2]
      rw [ih tys hlen1 (fun n hn1 => hn n (by simp [hn1])) (fun t ht1 => ht t (by simp [ht1]))]
      simp

/-- A field without `,` is read into `cur`. -/
theorem splitFieldsAux_field (v rest cur : Str) (fields : List Str) (hv : ∀ c ∈ v, c ≠ ',') :
    splitFieldsAux (v ++ rest) cur fields = splitFieldsAux rest (cur ++ v) fields := by
  induction v generalizing cur with
  | nil => simp
  | cons a t ih =>
    have ha : a ≠ ',' := hv a (by simp)
    have := ih (cur ++ [a]) (fun c hc => hv c (by simp [hc]))
    simp [splitFieldsAux, ha, this]

/-- The cells `,v1,v2,...` of a row line are read back as fields: the pending field
`cur` is closed by the first comma, and the last cell is added when it is not empty. -/
theorem splitFieldsAux_cells : ∀ (r : Row) (cur : Str) (fields : List Str),
    (∀ v ∈ r, ∀ c ∈ v, c ≠ ',') → r ≠ [] → r.getLast? ≠ some [] →
    splitFieldsAux ((r.map (fun v => ',' :: v)).flatten) cur fields = fields ++ [cur] ++ r := by
  intro r
  induction r with
  | nil => intro cur fields _ h; exact absurd rfl h
  | cons v vs ih =>
    intro cur fields hv _ hlast
    have hv1 := hv v (by simp)
    have hstep : splitFieldsAux (((v :: vs).map (fun v => ',' :: v)).flatten) cur fields
        = splitFieldsAux ((vs.map (fun v => ',' :: v)).flatten) v (fields ++ [cur]) := by
      have h1 := splitFieldsAux_field v ((vs.map (fun v => ',' :: v)).flatten) []
        (fields ++ [cur]) hv1
      simp only [List.nil_append] at h1
      simp only [List.map_cons, List.flatten_cons, List.cons_append, splitFieldsAux, if_true]
      exact h1
    rw [hstep]
    cases vs with
    | nil =>
      have hvne : v ≠ [] := by
        intro h
        subst h
        simp at hlast
      have : v.isEmpty = false := by
        cases v with
        | nil => exact absurd rfl hvne
        | cons _ _ => rfl
      simp [splitFieldsAux, this]
    | cons v2 vs2 =>
      have hlast2 : (v2 :: vs2).getLast? ≠ some [] := by
        simpa [List.getLast?_cons_cons] using hlast
      rw [ih v (fields ++ [cur]) (fun x hx => hv x (by simp [hx])) (by simp) hlast2]
      simp

/-- A row line that `save` wrote is read back as its row. -/
theorem loadRow_line (n k : Nat) (r : Row) (hlen : r.length = n)
    (hv : ∀ v ∈ r, ∀ c ∈ v, c ≠ ',') (hlast : r.getLast? ≠ some []) :
    loadRow (n : Int) (natToDec k ++ (r.map (fun v => ',' :: v)).flatten) = some r := by
  obtain ⟨hne, hdig, _⟩ := natToDec_spec k
  have hnocomma : ∀ c ∈ natToDec k, c ≠ ',' := fun c hc => (isdigit_facts c (hdig c hc)).2.2.2.1
  have hfields : splitFields (natToDec k ++ (r.map (fun v => ',' :: v)).flatten)
      = natToDec k :: r := by
    unfold splitFields
    rw [splitFieldsAux_field _ _ _ _ hnocomma]
    by_cases hr : r = []
    · subst hr
      have : (natToDec k).isEmpty = false := by
        cases h : natToDec k with
        | nil => exact absurd h hne
        | cons _ _ => rfl
      simp [splitFieldsAux, this]
    · rw [splitFieldsAux_cells r _ _ hv hr hlast]
      simp
  have hline : (natToDec k ++ (r.map (fun v => ',' :: v)).flatten).isEmpty = false := by
    cases h : natToDec k with
    | nil => exact absurd h hne
    | cons _ _ => rfl
  unfold loadRow
  simp only [hline, Bool.false_eq_true, if_false, hfields, List.length_cons, List.drop_succ_cons,
    List.drop_zero, Int.toNat_ofNat]
  have hge : ((r.length + 1 : Nat) : Int) ≥ 1 + (n : Int) := by
    rw [hlen]
    push_cast
    omega
  rw [if_pos hge, ← hlen, List.take_length]

/-- The row loop of `load` reads back the row lines that `save` wrote, numbered from
`k`. -/
theorem loadRows_body (n : Nat) : ∀ (rows : List Row) (k : Nat),
    (∀ r ∈ rows, r.length = n ∧ (∀ v ∈ r, ∀ c ∈ v, c ≠ ',' ∧ c ≠ '\n') ∧ r.getLast? ≠ some []) →
    (getlinesAux (((List.range rows.length).map (fun i =>
        natToDec (i + k) ++ ((rows.getD i []).map (fun v => ',' :: v)).flatten ++ ['\n'])).flatten)
      []).filterMap (loadRow (n : Int)) = rows := by
  intro rows
  induction rows with
  | nil => intro k _; simp [getlinesAux]
  | cons r rs ih =>
    intro k h
    obtain ⟨hlen, hcells, hlast⟩ := h r (by simp)
    obtain ⟨_, hdig, _⟩ := natToDec_spec k
    have hline : ∀ c ∈ natToDec k ++ (r.map (fun v => ',' :: v)).flatten, c ≠ '\n' := by
      intro c hc
      rcases List.mem_append.mp hc with hc | hc
      · exact (isdigit_facts c (hdig c hc)).2.2.2.2
      · simp only [List.mem_flatten, List.mem_map] at hc
        obtain ⟨l, ⟨v, hv, rfl⟩, hcl⟩ := hc
        rcases List.mem_cons.mp hcl with hcl | hcl
        · rw [hcl]
          decide
        · exact (hcells v hv c hcl).2
    have htext : ((List.range (r :: rs).length).map (fun i =>
          natToDec (i + k) ++ (((r :: rs).getD i []).map (fun v => ',' :: v)).flatten ++ ['\n'])).flatten
        = (natToDec k ++ (r.map (fun v => ',' :: v)).flatten) ++ '\n' ::
          (((List.range rs.length).map (fun i =>
            natToDec (i + (k + 1)) ++ ((rs.getD i []).map (fun v => ',' :: v)).flatten ++ ['\n'])).flatten) := by
      rw [List.length_cons, range_map_cons]
      have : ∀ i, i + 1 + k = i + (k + 1) := fun i => by omega
      simp [this]
    rw [htext, getlinesAux_line _ _ _ hline]
    simp only [List.nil_append, List.filterMap_cons,
      loadRow_line n k r hlen (fun v hv c hc => (hcells v hv c hc).1) hlast]
    rw [ih (k + 1) (fun r1 hr1 => h r1 (by simp [hr1]))]

/-- A file just written is read back. -/
theorem Disk.read_write (d : Disk) (path content : Str) :
    (d.write path content).read path = some content := by
  simp [Disk.read, Disk.write, List.find?]

/-- Loading the file that `save` wrote for a table `t` gives `t` back, into any table
object of the same name, when: the file of the table can be opened for writing; names
and types are equally many and fewer than `2^31`; every name is non-empty, free of white
space and lower-case; every type is free of white space; every row has one cell per
column, no cell holds `,` or a line end, and the last cell of a row is not empty. -/
theorem save_load_roundtrip (t t1 : TableDynamic) (d : Disk) (hname : t1.name_ = t.name_)
    (hopen : d.opensForWriting t.filepath = true)
    (hlen : t.schema_.names.length = t.schema_.types.length)
    (hcols : t.schema_.names.length < 2 ^ 31)
    (hnames : ∀ n ∈ t.schema_.names, n ≠ [] ∧ (∀ c ∈ n, isspace c = false) ∧ toLower n = n)
    (htypes : ∀ ty ∈ t.schema_.types, ∀ c ∈ ty, isspace c = false)
    (hrows : ∀ r ∈ t.rows_, r.length = t.schema_.names.length ∧
      (∀ v ∈ r, ∀ c ∈ v, c ≠ ',' ∧ c ≠ '\n') ∧ r.getLast? ≠ some []) :
    t1.load (t.save d) = t := by
  obtain ⟨name, ⟨names, types⟩, rows⟩ := t
  obtain ⟨name1, schema1, rows1⟩ := t1
  simp only at hname hlen hcols hnames htypes hrows
  subst hname
  have hread : Disk.read (TableDynamic.save ⟨name1, ⟨names, types⟩, rows⟩ d)
      (TableDynamic.filepath ⟨name1, schema1, rows1⟩)
      = some (TableDynamic.fileText ⟨name1, ⟨names, types⟩, rows⟩) := by
    simp only [TableDynamic.save, hopen, if_true]
    simp only [TableDynamic.filepath]
    exact Disk.read_write _ _ _
  have htext : TableDynamic.fileText ⟨name1, ⟨names, types⟩, rows⟩
      = natToDec names.length ++ '\n' ::
        (((List.range names.length).map (fun i =>
            names.getD i [] ++ [' '] ++ types.getD i [] ++ ['\n'])).flatten ++
         ((List.range rows.length).map (fun i =>
            natToDec (i + 1) ++ ((rows.getD i []).map (fun v => ',' :: v)).flatten ++
              ['\n'])).flatten) := by
    simp [TableDynamic.fileText]
  have hint := readInt_natToDec names.length
    (((List.range names.length).map (fun i =>
        names.getD i [] ++ [' '] ++ types.getD i [] ++ ['\n'])).flatten ++
     ((List.range rows.length).map (fun i =>
        natToDec (i + 1) ++ ((rows.getD i []).map (fun v => ',' :: v)).flatten ++
          ['\n'])).flatten) hcols
  have hcolsLoad := loadColumns_header names types hlen
    (fun n hn => ⟨(hnames n hn).1, (hnames n hn).2.1⟩) htypes
    (((List.range rows.length).map (fun i =>
        natToDec (i + 1) ++ ((rows.getD i []).map (fun v => ',' :: v)).flatten ++
          ['\n'])).flatten) { names := [], types := [] }
  have hrowsLoad := loadRows_body names.length rows 1 hrows
  have hlower : names.map toLower = names := by
    have : ∀ n ∈ names, toLower n = id n := fun n hn => (hnames n hn).2.2
    rw [List.map_congr_left this, List.map_id]
  unfold TableDynamic.load
  simp only [hread, htext, hint, getlines, getlinesAux, if_true, List.drop_succ_cons,
    List.drop_zero, Int.toNat_ofNat, hcolsLoad, List.nil_append, hlower, hrowsLoad]

/-- C1 (counterexample): a cell that holds a comma, and a row whose last cell is
empty, are not reproduced: after `save()` and `load()` the row ("a,b", "1") is
("a", "b"), and the row ("a", "") is gone. -/
theorem C1_roundtrip_counterexample :
    ((peopleTable [["a,b".toList, "1".toList]]).load
        ((peopleTable [["a,b".toList, "1".toList]]).save Disk.empty)).rows_
      = [["a".toList, "b".toList]] ∧
    (peopleTable [["a,b".toList, "1".toList]]).load
        ((peopleTable [["a,b".toList, "1".toList]]).save Disk.empty)
      ≠ peopleTable [["a,b".toList, "1".toList]] ∧
    ((peopleTable [["a".toList, "".toList]]).load
        ((peopleTable [["a".toList, "".toList]]).save Disk.empty)).rows_ = [] := by
  decide

/-- C1 (amended): `save()` followed by `load()` gives back the same table (name,
schema and rows, in order) for every `TableDynamic` whose file can be opened for
writing (`save()` returns without writing when it cannot), whose names and types are
equally many (fewer than `2^31`), whose column names are non-empty, lower-case and free
of white space, whose column types are free of white space, and whose rows all have one
cell per column, no `,` and no line end inside a cell, and a non-empty last cell. -/
theorem C1_save_load_roundtrip (t : TableDynamic) (d : Disk)
    (hopen : d.opensForWriting t.filepath = true)
    (hlen : t.schema_.names.length = t.schema_.types.length)
    (hcols : t.schema_.names.length < 2 ^ 31)
    (hnames : ∀ n ∈ t.schema_.names, n ≠ [] ∧ (∀ c ∈ n, isspace c = false) ∧ toLower n = n)
    (htypes : ∀ ty ∈ t.schema_.types, ∀ c ∈ ty, isspace c = false)
    (hrows : ∀ r ∈ t.rows_, r.length = t.schema_.names.length ∧
      (∀ v ∈ r, ∀ c ∈ v, c ≠ ',' ∧ c ≠ '\n') ∧ r.getLast? ≠ some []) :
    t.load (t.save d) = t :=
  save_load_roundtrip t t d rfl hopen hlen hcols hnames htypes hrows

/-- Witness for C1 (amended): the table `students` meets the premises. -/
theorem C1_save_load_roundtrip_witness :
    (peopleTable studentRows).load ((peopleTable studentRows).save Disk.empty)
      = peopleTable studentRows :=
  C1_save_load_roundtrip (peopleTable studentRows) Disk.empty (by decide) (by decide)
    (by decide) (by decide) (by decide) (by decide)

/-- The accumulator loop of `deleteRows`: the rows kept and the number counted. -/
theorem deleteRows_foldl (pred : Row) : ∀ (rows : List Row) (acc : List Row) (n : Nat),
    rows.foldl
      (fun (a : List Row × Nat) row => if row = pred then (a.1, a.2 + 1) else (a.1 ++ [row], a.2))
      (acc, n)
    = (acc ++ rows.filter (fun r => decide (r ≠ pred)), n + rows.count pred) := by
  intro rows
  induction rows with
  | nil => intro acc n; simp
  | cons r rs ih =>
    intro acc n
    by_cases h : r = pred
    · subst h
      simp only [List.foldl_cons, if_true, ih, List.filter_cons, ne_eq, not_true_eq_false,
        decide_False, Bool.false_eq_true, if_false, List.count_cons_self]
      congr 1
      omega
    · have hc : List.count pred (r :: rs) = List.count pred rs := by
        rw [List.count_cons]
        simp [h]
      simp only [List.foldl_cons, h, if_false, ih, List.filter_cons, ne_eq, not_false_eq_true,
        decide_True, if_true, hc]
      simp

/-- The length of a list splits into the entries equal to `p` and the others. -/
theorem count_add_filter_ne (p : Row) (rows : List Row) :
    rows.count p + (rows.filter (fun r => decide (r ≠ p))).length = rows.length := by
  induction rows with
  | nil => simp
  | cons r rs ih =>
    by_cases h : r = p
    · subst h
      simp only [List.count_cons_self, List.filter_cons, ne_eq, not_true_eq_false, decide_False,
        Bool.false_eq_true, if_false, List.length_cons]
      simp only [ne_eq] at ih
      omega
    · have hc : List.count p (r :: rs) = List.count p rs := by
        rw [List.count_cons]
        simp [h]
      rw [hc]
      simp only [List.filter_cons, ne_eq, h, not_false_eq_true, decide_True, if_true,
        List.length_cons]
      simp only [ne_eq] at ih
      omega

/-- What `deleteRows` returns and leaves, in closed form. -/
theorem TableDynamic.deleteRows_eq (t : TableDynamic) (p : Row) (d : Disk) :
    t.deleteRows p d =
      (t.rows_.count p, { t with rows_ := t.rows_.filter (fun r => decide (r ≠ p)) },
        if t.rows_.count p > 0 then
          TableDynamic.save { t with rows_ := t.rows_.filter (fun r => decide (r ≠ p)) } d
        else d) := by
  unfold TableDynamic.deleteRows
  simp only [deleteRows_foldl, List.nil_append, Nat.zero_add]

/-- C14: `deleteRows(p)` leaves exactly the rows different from `p`, in their
original order, with name and schema untouched; it returns the number of rows equal to
`p`; the returned count plus the new row count is the old row count; and the table is
saved when the count is positive, while with a count of 0 the disk is left as it
was. -/
theorem C14_deleteRows_spec (t : TableDynamic) (p : Row) (d : Disk) :
    (t.deleteRows p d).2.1 = { t with rows_ := t.rows_.filter (fun r => decide (r ≠ p)) } ∧
    (t.deleteRows p d).1 = t.rows_.count p ∧
    (t.deleteRows p d).1 + (t.deleteRows p d).2.1.rowCount = t.rowCount ∧
    (t.deleteRows p d).2.2 =
      (if (t.deleteRows p d).1 > 0 then (t.deleteRows p d).2.1.save d else d) := by
  rw [TableDynamic.deleteRows_eq]
  refine ⟨rfl, rfl, ?_, rfl⟩
  simp only [TableDynamic.rowCount]
  exact count_add_filter_ne p t.rows_

/-- C11 (the code at the failing input): the table holds (b, 1), (b, 1), (a, 2), as
CREATE and three INSERTs build it. `DELETE FROM t WHERE age = 1` leaves (a, 2) alone,
so two rows are removed (`deleteRows` itself returns 2), but the status line reports
1: the loop counts one per pass in which a row is selected. -/
theorem C11_delete_count_undercounts_duplicates :
    runCommands [Parse.create "t".toList ["name:STRING".toList, "age:INT".toList],
        Parse.insert "t".toList ["b".toList, "1".toList],
        Parse.insert "t".toList ["b".toList, "1".toList],
        Parse.insert "t".toList ["a".toList, "2".toList]] World.empty
      = World.ofTable (peopleTable
          [["b".toList, "1".toList], ["b".toList, "1".toList], ["a".toList, "2".toList]]) ∧
    executeParse (Parse.delete "t".toList "age".toList "=".toList "1".toList)
        (World.ofTable (peopleTable
          [["b".toList, "1".toList], ["b".toList, "1".toList], ["a".toList, "2".toList]]))
      = (World.ofTable (peopleTable [["a".toList, "2".toList]]),
         { printed := [.deleteRemoved 1], raised := none }) ∧
    (peopleTable
      [["b".toList, "1".toList], ["b".toList, "1".toList], ["a".toList, "2".toList]]).rowCount
      - (peopleTable [["a".toList, "2".toList]]).rowCount = 2 ∧
    ((peopleTable
      [["b".toList, "1".toList], ["b".toList, "1".toList], ["a".toList, "2".toList]]).deleteRows
        ["b".toList, "1".toList] Disk.empty).1 = 2 := by
  refine ⟨?_, ?_, ?_, ?_⟩ <;> decide

/-- C12 (the code at the failing input): the table holds the row (b, 1) twice, as
CREATE and two INSERTs build it. `DELETE FROM t`, without a WHERE clause, selects every
row without calling `checkWhere`. The loop starts at `r = 1`: `deleteRows` removes both
rows; in the next pass `getRow(0)` is called on the empty table and throws
`out_of_range`, which leaves `executeParse`. -/
theorem C12_delete_getRow_out_of_range :
    runCommands [Parse.create "t".toList ["name:STRING".toList, "age:INT".toList],
        Parse.insert "t".toList ["b".toList, "1".toList],
        Parse.insert "t".toList ["b".toList, "1".toList]] World.empty
      = World.ofTable (peopleTable [["b".toList, "1".toList], ["b".toList, "1".toList]]) ∧
    deleteLoop (-1) [] [] 2
        (peopleTable [["b".toList, "1".toList], ["b".toList, "1".toList]])
        ((peopleTable [["b".toList, "1".toList], ["b".toList, "1".toList]]).save Disk.empty) 0
      = deleteLoop (-1) [] [] 1 (peopleTable []) ((peopleTable []).save Disk.empty) 1 ∧
    (peopleTable []).rowCount = 0 ∧
    (peopleTable []).getRow 0 = .error .out_of_range ∧
    executeParse (Parse.delete "t".toList [] [] [])
        (World.ofTable (peopleTable [["b".toList, "1".toList], ["b".toList, "1".toList]]))
      = (World.ofTable (peopleTable []), { printed := [], raised := some .out_of_range }) := by
  refine ⟨?_, ?_, ?_, ?_, ?_⟩ <;> decide

/-- Lower-casing a character does not change whether it is white space, and doing it
twice is doing it once. -/
theorem toLower_char_facts (c : Char) :
    isspace c.toLower = isspace c ∧ c.toLower.toLower = c.toLower := by
  by_cases h : c.toNat ≥ 65 ∧ c.toNat ≤ 90
  · have hlow : c.toLower = Char.ofNat (c.toNat + 32) := by
      simp only [Char.toLower, h, and_self, if_true]
    have hsp : isspace c = false := by
      simp only [isspace, Bool.or_eq_false_iff, Bool.and_eq_false_iff, decide_eq_false_iff_not]
      omega
    rw [hlow, hsp]
    obtain ⟨h1, h2⟩ := h
    generalize c.toNat = n at h1 h2
    interval_cases n <;> decide
  · have hlow : c.toLower = c := by
      simp only [Char.toLower, h, if_false]
    rw [hlow, hlow]
    exact ⟨rfl, rfl⟩

/-- `toLower` twice is `toLower` once. -/
theorem toLower_idem (s : Str) : toLower (toLower s) = toLower s := by
  simp only [toLower, List.map_map]
  apply List.map_congr_left
  intro c _
  exact (toLower_char_facts c).2

/-- Skipping leading white space commutes with lower-casing. -/
theorem dropWhile_isspace_toLower (s : Str) :
    (toLower s).dropWhile isspace = toLower (s.dropWhile isspace) := by
  induction s with
  | nil => rfl
  | cons a t ih =>
    have ha := (toLower_char_facts a).1
    by_cases hs : isspace a = true
    · simp only [toLower, List.map_cons, List.dropWhile, ha, hs]
      exact ih
    · have hs1 : isspace a = false := by simpa using hs
      simp only [toLower, List.map_cons, List.dropWhile, ha, hs1]

/-- `trim` commutes with `toLower`. -/
theorem trim_toLower (s : Str) : trim (toLower s) = toLower (trim s) := by
  unfold trim
  simp only [dropWhile_isspace_toLower]
  by_cases h : (s.dropWhile isspace).isEmpty = true
  · have h1 : (toLower (s.dropWhile isspace)).isEmpty = true := by
      simpa [toLower] using h
    simp only [h, h1, if_true]
    rfl
  · have h1 : ¬ (toLower (s.dropWhile isspace)).isEmpty = true := by
      simpa [toLower] using h
    simp only [h, h1, if_false]
    have hrev : (toLower (s.dropWhile isspace)).reverse = toLower (s.dropWhile isspace).reverse := by
      simp [toLower]
    rw [hrev, dropWhile_isspace_toLower]
    simp [toLower]

/-- A list that does not start with white space is left alone by the skip. -/
theorem dropWhile_isspace_of_head (a : Char) (t : Str) (h : isspace a = false) :
    (a :: t).dropWhile isspace = a :: t := by
  simp [List.dropWhile, h]

/-- What the skip of leading white space leaves is empty or starts with a character
that is not white space. -/
theorem dropWhile_isspace_head (s : Str) :
    s.dropWhile isspace = [] ∨ ∃ a t, s.dropWhile isspace = a :: t ∧ isspace a = false := by
  induction s with
  | nil => left; rfl
  | cons a t ih =>
    by_cases hs : isspace a = true
    · simp only [List.dropWhile, hs]
      exact ih
    · have hs1 : isspace a = false := by simpa using hs
      right
      exact ⟨a, t, by simp [List.dropWhile, hs1], hs1⟩

/-- The shape of a trimmed string: empty, or with a first and a last character that
are not white space. -/
theorem trim_shape (s : Str) :
    trim s = [] ∨ ∃ a t b u, trim s = a :: t ∧ isspace a = false ∧
      (trim s).reverse = b :: u ∧ isspace b = false := by
  unfold trim
  rcases dropWhile_isspace_head s with h | ⟨a, t, h, ha⟩
  · left
    simp [h]
  · right
    simp only [h, List.isEmpty_cons, Bool.false_eq_true, if_false, List.reverse_reverse]
    rcases dropWhile_isspace_head (a :: t).reverse with h2 | ⟨b, u, h2, hb⟩
    · exfalso
      rw [List.dropWhile_eq_nil_iff] at h2
      have := h2 a (by simp)
      rw [ha] at this
      exact absurd this (by simp)
    · have hsuf : (b :: u) <:+ (a :: t).reverse := by
        rw [← h2]
        exact List.dropWhile_suffix _
      obtain ⟨pre, hpre⟩ := hsuf
      have hrev : a :: t = (b :: u).reverse ++ pre.reverse := by
        have := congrArg List.reverse hpre
        simp only [List.reverse_append, List.reverse_reverse] at this
        exact this.symm
      have hhead : ∃ t2, (b :: u).reverse = a :: t2 := by
        cases hbu : (b :: u).reverse with
        | nil => simp at hbu
        | cons x t2 =>
          rw [hbu] at hrev
          simp only [List.cons_append, List.cons.injEq] at hrev
          exact ⟨t2, by rw [hrev.1]⟩
      obtain ⟨t2, ht2⟩ := hhead
      exact ⟨a, t2, b, u, by rw [h2, ht2], ha, h2, hb⟩

/-- `trim` twice is `trim` once. -/
theorem trim_idem (s : Str) : trim (trim s) = trim s := by
  rcases trim_shape s with h | ⟨a, t, b, u, h1, ha, h2, hb⟩
  · rw [h]
    rfl
  · generalize trim s = x at h1 h2
    have hd : x.dropWhile isspace = x := by
      rw [h1]
      exact dropWhile_isspace_of_head a t ha
    have hd2 : x.reverse.dropWhile isspace = x.reverse := by
      rw [h2]
      exact dropWhile_isspace_of_head b u hb
    have hne : x.isEmpty = false := by
      rw [h1]
      rfl
    unfold trim
    simp only [hd, hne, Bool.false_eq_true, if_false, hd2, List.reverse_reverse]

/-- The key of a key is the key: normalising a table name twice changes nothing. -/
theorem key_idem (name : Str) : toLower (trim (toLower (trim name))) = toLower (trim name) := by
  rw [trim_toLower, trim_idem, toLower_idem]

/-- Leading white space in front of a string is skipped with the string's own. -/
theorem dropWhile_isspace_append_left (pre s : Str) (hpre : ∀ ch ∈ pre, isspace ch = true) :
    (pre ++ s).dropWhile isspace = s.dropWhile isspace := by
  induction pre with
  | nil => rfl
  | cons a t ih =>
    have ha := hpre a (by simp)
    simp only [List.cons_append, List.dropWhile, ha]
    exact ih (fun ch hch => hpre ch (by simp [hch]))

/-- The skip stops inside the first part when that part is not all white space. -/
theorem dropWhile_isspace_append_right (s post : Str) (a : Char) (t : Str)
    (h : s.dropWhile isspace = a :: t) :
    (s ++ post).dropWhile isspace = a :: t ++ post := by
  induction s with
  | nil => simp at h
  | cons x xs ih =>
    by_cases hx : isspace x = true
    · simp only [List.dropWhile, hx] at h
      simp only [List.cons_append, List.dropWhile, hx]
      exact ih h
    · have hx1 : isspace x = false := by simpa using hx
      simp only [List.dropWhile, hx1] at h
      simp only [List.cons_append, List.dropWhile, hx1]
      obtain ⟨h1, h2⟩ := List.cons.inj h
      subst h1
      subst h2
      rfl

/-- White space around a string does not change what `trim` returns. -/
theorem trim_surrounded (pre s post : Str) (hpre : ∀ ch ∈ pre, isspace ch = true)
    (hpost : ∀ ch ∈ post, isspace ch = true) : trim (pre ++ s ++ post) = trim s := by
  have hpostr : ∀ ch ∈ post.reverse, isspace ch = true := fun ch hch =>
    hpost ch (List.mem_reverse.mp hch)
  unfold trim
  rw [List.append_assoc, dropWhile_isspace_append_left pre (s ++ post) hpre]
  rcases dropWhile_isspace_head s with h | ⟨a, t, h, _⟩
  · have hall : ∀ ch ∈ s ++ post, isspace ch = true := by
      intro ch hch
      rcases List.mem_append.mp hch with h1 | h1
      · exact (List.dropWhile_eq_nil_iff.mp h) ch h1
      · exact hpost ch h1
    have h2 : (s ++ post).dropWhile isspace = [] := List.dropWhile_eq_nil_iff.mpr hall
    simp [h, h2]
  · rw [dropWhile_isspace_append_right s post a t h, h]
    simp only [List.cons_append, List.isEmpty_cons, Bool.false_eq_true, if_false]
    have hrev : (a :: (t ++ post)).reverse = post.reverse ++ (a :: t).reverse := by
      simp
    rw [hrev, dropWhile_isspace_append_left post.reverse (a :: t).reverse hpostr]

/-- An association list has an entry under a key exactly when `find?` succeeds. -/
theorem find?_isSome_iff {β : Type} (l : List (Str × β)) (k : Str) :
    (l.find? (fun e => e.1 = k)).isSome = true ↔ ∃ v, (k, v) ∈ l := by
  rw [List.find?_isSome]
  constructor
  · rintro ⟨⟨k1, v⟩, hm, hk⟩
    simp only [decide_eq_true_eq] at hk
    subst hk
    exact ⟨v, hm⟩
  · rintro ⟨v, hm⟩
    exact ⟨(k, v), hm, by simp⟩

/-- `has` in terms of the entries of the map and the files of the disk. -/
theorem Catalog.has_iff (c : Catalog) (d : Disk) (name : Str) :
    c.has d name = true ↔
      ((∃ t, (toLower (trim name), t) ∈ c.tables_) ∨
       (∃ content, (folder ++ toLower (trim name) ++ ".txt".toList, content) ∈ d.files)) := by
  have h1 : (c.find? (toLower (trim name))).isSome = true ↔
      ∃ t, (toLower (trim name), t) ∈ c.tables_ := by
    simp only [Catalog.find?, Option.isSome_map']
    exact find?_isSome_iff _ _
  have h2 : d.hasFile (folder ++ toLower (trim name) ++ ".txt".toList) = true ↔
      ∃ content, (folder ++ toLower (trim name) ++ ".txt".toList, content) ∈ d.files := by
    simp only [Disk.hasFile, Disk.read, Option.isSome_map']
    exact find?_isSome_iff _ _
  unfold Catalog.has
  by_cases hm : (c.find? (toLower (trim name))).isSome = true
  · simp only [hm, if_true, true_iff]
    exact Or.inl (h1.mp hm)
  · simp only [hm, if_false, Bool.false_eq_true]
    rw [h2]
    constructor
    · exact Or.inr
    · rintro (h | h)
      · exact absurd (h1.mpr h) hm
      · exact h

/-- `has` depends on the name through its key only. -/
theorem Catalog.has_congr (c : Catalog) (d : Disk) (a b : Str)
    (h : toLower (trim a) = toLower (trim b)) : c.has d a = c.has d b := by
  unfold Catalog.has
  rw [h]

/-- C17: `has(name)` is true exactly when the map has an entry under the lower-cased,
trimmed name or the disk has the file of that key; hence names with the same letters
up to case, and a name with white space put around it, get the same answer. -/
theorem C17_has_spec :
    (∀ (c : Catalog) (d : Disk) (name : Str), c.has d name = true ↔
      ((∃ t, (toLower (trim name), t) ∈ c.tables_) ∨
       (∃ content, (folder ++ toLower (trim name) ++ ".txt".toList, content) ∈ d.files))) ∧
    (∀ (c : Catalog) (d : Disk) (a b : Str), toLower a = toLower b → c.has d a = c.has d b) ∧
    (∀ (c : Catalog) (d : Disk) (name pre post : Str), (∀ ch ∈ pre, isspace ch = true) →
      (∀ ch ∈ post, isspace ch = true) → c.has d (pre ++ name ++ post) = c.has d name) := by
  refine ⟨Catalog.has_iff, ?_, ?_⟩
  · intro c d a b h
    apply Catalog.has_congr
    rw [← trim_toLower, ← trim_toLower, h]
  · intro c d name pre post hpre hpost
    apply Catalog.has_congr
    rw [trim_surrounded pre name post hpre hpost]

/-- Witness for C17: with the table `t` in the catalog, `has` answers the same for
"T" as for "t", and for " t " as for "t". -/
theorem C17_has_spec_witness :
    (World.ofTable (peopleTable [])).catalog.has Disk.empty "T".toList
      = (World.ofTable (peopleTable [])).catalog.has Disk.empty "t".toList ∧
    (World.ofTable (peopleTable [])).catalog.has Disk.empty (" ".toList ++ "t".toList ++ " ".toList)
      = (World.ofTable (peopleTable [])).catalog.has Disk.empty "t".toList :=
  ⟨C17_has_spec.2.1 _ Disk.empty "T".toList "t".toList (by decide),
   C17_has_spec.2.2 _ Disk.empty "t".toList " ".toList " ".toList (by decide) (by decide)⟩

/-- `create` fails and changes nothing when `has(name)` holds. -/
theorem Catalog.create_of_has (c : Catalog) (d : Disk) (name : Str) (schema : TableSchema)
    (h : c.has d name = true) : c.create d name schema = (false, c, d) := by
  have hk : c.has d (toLower (trim name)) = true := by
    rw [Catalog.has_congr c d (toLower (trim name)) name (key_idem name)]
    exact h
  unfold Catalog.create
  simp only [hk, if_true]

/-- After a successful `create` the name is known to `has`. -/
theorem Catalog.has_after_create (c : Catalog) (d : Disk) (name : Str) (schema : TableSchema)
    (h : (c.create d name schema).1 = true) :
    (c.create d name schema).2.1.has (c.create d name schema).2.2 name = true := by
  unfold Catalog.create at h ⊢
  by_cases hk : c.has d (toLower (trim name)) = true
  · simp [hk] at h
  · simp only [hk, if_false]
    rw [Catalog.has_iff]
    left
    exact ⟨(TableDynamic.new (toLower (trim name))).setSchema schema, List.mem_cons_self _ _⟩

/-- C18: when `has(name)` is true, `create(name, schema)` returns failure and leaves
the map and the disk, hence the existing file, exactly as they were; in particular
after a successful `create` a second `create` of the same name, with any schema,
fails and leaves what the first call stored. -/
theorem C18_create_existing_fails :
    (∀ (c : Catalog) (d : Disk) (name : Str) (schema : TableSchema), c.has d name = true →
      c.create d name schema = (false, c, d)) ∧
    (∀ (c : Catalog) (d : Disk) (name : Str) (s1 s2 : TableSchema),
      (c.create d name s1).1 = true →
      Catalog.create (c.create d name s1).2.1 (c.create d name s1).2.2 name s2
        = (false, (c.create d name s1).2.1, (c.create d name s1).2.2)) := by
  refine ⟨Catalog.create_of_has, ?_⟩
  intro c d name s1 s2 h
  exact Catalog.create_of_has _ _ _ _ (Catalog.has_after_create c d name s1 h)

/-- Witness for C18: on the empty store `create("t", ...)` succeeds, and a second
`create("t", ...)` fails and changes nothing. -/
theorem C18_create_existing_fails_witness :
    Catalog.create
        (Catalog.create { tables_ := [] } Disk.empty "t".toList (peopleTable []).schema_).2.1
        (Catalog.create { tables_ := [] } Disk.empty "t".toList (peopleTable []).schema_).2.2
        "t".toList { names := ["x".toList], types := ["INT".toList] }
      = (false, (World.ofTable (peopleTable [])).catalog, (World.ofTable (peopleTable [])).disk) :=
  C18_create_existing_fails.2 { tables_ := [] } Disk.empty "t".toList (peopleTable []).schema_
    { names := ["x".toList], types := ["INT".toList] } (by decide)

/-- After `drop` neither the map nor the disk knows the key, and the result says
whether the file existed. -/
theorem Catalog.drop_spec (c : Catalog) (d : Disk) (name : Str) :
    (c.drop d name).2.1.has (c.drop d name).2.2 name = false ∧
    (c.drop d name).1 = d.hasFile (folder ++ toLower (trim name) ++ ".txt".toList) ∧
    (c.drop d name).2.1.tables_ = c.tables_.filter (fun e => e.1 ≠ toLower (trim name)) := by
  have hmap : ¬ ∃ t, (toLower (trim name), t) ∈
      c.tables_.filter (fun e => decide (e.1 ≠ toLower (trim name))) := by
    rintro ⟨t, ht⟩
    have := (List.mem_filter.mp ht).2
    simp at this
  have hdisk : ¬ ∃ content, (folder ++ toLower (trim name) ++ ".txt".toList, content) ∈
      (Disk.remove d (folder ++ toLower (trim name) ++ ".txt".toList)).files := by
    rintro ⟨content, hc⟩
    have := (List.mem_filter.mp hc).2
    simp at this
  by_cases hf : d.hasFile (folder ++ toLower (trim name) ++ ".txt".toList) = true
  · have hres : c.drop d name = (true,
        { tables_ := c.tables_.filter (fun e => decide (e.1 ≠ toLower (trim name))) },
        d.remove (folder ++ toLower (trim name) ++ ".txt".toList)) := by
      unfold Catalog.drop
      exact if_pos hf
    rw [hres]
    refine ⟨?_, hf.symm, rfl⟩
    rw [Bool.eq_false_iff]
    intro hhas
    rcases (Catalog.has_iff _ _ _).mp hhas with h | h
    · exact hmap h
    · exact hdisk h
  · have hres : c.drop d name = (false,
        { tables_ := c.tables_.filter (fun e => decide (e.1 ≠ toLower (trim name))) }, d) := by
      unfold Catalog.drop
      exact if_neg hf
    rw [hres]
    refine ⟨?_, ?_, rfl⟩
    · rw [Bool.eq_false_iff]
      intro hhas
      rcases (Catalog.has_iff _ _ _).mp hhas with h | h
      · exact hmap h
      · have h2 : d.hasFile (folder ++ toLower (trim name) ++ ".txt".toList) = true := by
          simp only [Disk.hasFile, Disk.read, Option.isSome_map']
          exact (find?_isSome_iff _ _).mpr h
        exact hf h2
    · exact (Bool.eq_false_iff.mpr hf).symm

/-- C19 (the code at the failing input): `registerExisting("ghost")` on the empty
store puts an entry for `ghost` into the map, without a file; `has("ghost")` is then
true. `drop("ghost")` evicts the entry and returns `false`, that is not-found,
although an in-memory entry existed before the call. In general `drop` leaves
`has(name)` false and returns whether the file existed, whatever the map held. -/
theorem C19_drop_reports_not_found_for_memory_entry :
    Catalog.registerExisting { tables_ := [] } Disk.empty "ghost".toList
      = { tables_ := [("ghost".toList, TableDynamic.new "ghost".toList)] } ∧
    Catalog.has { tables_ := [("ghost".toList, TableDynamic.new "ghost".toList)] } Disk.empty
      "ghost".toList = true ∧
    Catalog.drop { tables_ := [("ghost".toList, TableDynamic.new "ghost".toList)] } Disk.empty
      "ghost".toList = (false, { tables_ := [] }, Disk.empty) ∧
    (∀ (c : Catalog) (d : Disk) (name : Str),
      (c.drop d name).2.1.has (c.drop d name).2.2 name = false ∧
      (c.drop d name).1 = d.hasFile (folder ++ toLower (trim name) ++ ".txt".toList)) := by
  refine ⟨by decide, by decide, by decide, ?_⟩
  intro c d name
  exact ⟨(Catalog.drop_spec c d name).1, (Catalog.drop_spec c d name).2.1⟩

/-- C20: `get(name)` returns `nullptr` exactly when `has(name)` is false; when it
succeeds, the table is in the map under the key of the name, and a second
`get(name)`, on any disk, returns the same entry and the same map: the file is not
read again. -/
theorem C20_get_spec :
    (∀ (c : Catalog) (d : Disk) (name : Str), (c.get d name).1 = none ↔ c.has d name = false) ∧
    (∀ (c : Catalog) (d : Disk) (name key : Str) (c1 : Catalog),
      c.get d name = (some key, c1) →
      key = toLower (trim name) ∧ (∃ t, c1.find? key = some t) ∧
      (∀ d2 : Disk, c1.get d2 name = (some key, c1))) := by
  constructor
  · intro c d name
    unfold Catalog.get Catalog.has
    by_cases h1 : (c.find? (toLower (trim name))).isSome = true
    · rw [if_pos h1, if_pos h1]
      simp
    · rw [if_neg h1, if_neg h1]
      by_cases h2 : d.hasFile (folder ++ toLower (trim name) ++ ".txt".toList) = true
      · rw [if_pos h2, h2]
        simp
      · rw [if_neg h2]
        simpa using h2
  · intro c d name key c1 h
    unfold Catalog.get at h
    by_cases h1 : (c.find? (toLower (trim name))).isSome = true
    · simp only [h1, if_true, Prod.mk.injEq, Option.some.injEq] at h
      obtain ⟨hk, hc⟩ := h
      subst hk
      subst hc
      refine ⟨rfl, Option.isSome_iff_exists.mp h1, ?_⟩
      intro d2
      unfold Catalog.get
      simp only [h1, if_true]
    · rw [if_neg h1] at h
      by_cases h2 : d.hasFile (folder ++ toLower (trim name) ++ ".txt".toList) = true
      · rw [if_pos h2] at h
        simp only [Prod.mk.injEq, Option.some.injEq] at h
        obtain ⟨hk, hc⟩ := h
        subst hk
        subst hc
        have hfind : Catalog.find?
            { tables_ := (toLower (trim name), (TableDynamic.new (toLower (trim name))).load d)
                :: c.tables_ } (toLower (trim name))
            = some ((TableDynamic.new (toLower (trim name))).load d) := by
          simp [Catalog.find?, List.find?]
        refine ⟨rfl, ⟨_, hfind⟩, ?_⟩
        intro d2
        unfold Catalog.get
        simp only [hfind, Option.isSome_some, if_true]
      · rw [if_neg h2] at h
        exact absurd (congrArg Prod.fst h) (by simp)

/-- Witness for C20: the table `t` is on disk only; `get("T")` loads it into the
map, and a second `get("T")`, even with the disk emptied, returns the same entry. -/
theorem C20_get_spec_witness :
    Catalog.get { tables_ := [] } ((peopleTable studentRows).save Disk.empty) "T".toList
      = (some "t".toList, (World.ofTable (peopleTable studentRows)).catalog) ∧
    (World.ofTable (peopleTable studentRows)).catalog.get Disk.empty "T".toList
      = (some "t".toList, (World.ofTable (peopleTable studentRows)).catalog) :=
  ⟨by decide,
   (C20_get_spec.2 { tables_ := [] } ((peopleTable studentRows).save Disk.empty) "T".toList "t".toList
      (World.ofTable (peopleTable studentRows)).catalog (by decide)).2.2 Disk.empty⟩

/-- The index loop over a list, with a default that is never used, is `map`. -/
theorem range_map_getD {β : Type} (f : Str → β) : ∀ (l : List Str),
    (List.range l.length).map (fun i => f (l.getD i [])) = l.map f := by
  intro l
  induction l with
  | nil => rfl
  | cons a t ih =>
    rw [List.length_cons, range_map_cons]
    simp only [List.getD_cons_zero, List.getD_cons_succ, List.map_cons]
    rw [ih]

/-- The names `setSchema` installs are the given names, lower-cased. -/
theorem TableDynamic.setSchema_names (t : TableDynamic) (s : TableSchema) :
    (t.setSchema s).schema_.names = s.names.map toLower := by
  simp only [TableDynamic.setSchema]
  exact range_map_getD toLower s.names

/-- The loop of `columnIndex`: `-1` when the name is absent; otherwise the start
index plus the position of the first occurrence. -/
theorem columnIndexFrom_spec (want : Str) : ∀ (names : List Str) (i : Int),
    (want ∉ names → columnIndexFrom want names i = -1) ∧
    (want ∈ names → ∃ k : Nat, k < names.length ∧ columnIndexFrom want names i = i + k ∧
      names.get? k = some want ∧ ∀ j, j < k → names.get? j ≠ some want) := by
  intro names
  induction names with
  | nil =>
    intro i
    exact ⟨fun _ => rfl, fun h => absurd h (by simp)⟩
  | cons n ns ih =>
    intro i
    by_cases hn : n = want
    · subst hn
      constructor
      · intro h
        exact absurd (List.mem_cons_self _ _) h
      · intro _
        refine ⟨0, by simp, by simp [columnIndexFrom], rfl, ?_⟩
        intro j hj
        omega
    · obtain ⟨ih1, ih2⟩ := ih (i + 1)
      constructor
      · intro h
        have : want ∉ ns := fun hm => h (List.mem_cons_of_mem _ hm)
        simp only [columnIndexFrom, hn, if_false]
        exact ih1 this
      · intro h
        have hm : want ∈ ns := by
          rcases List.mem_cons.mp h with h1 | h1
          · exact absurd h1.symm hn
          · exact h1
        obtain ⟨k, hk, hres, hget, hfirst⟩ := ih2 hm
        refine ⟨k + 1, by simp; omega, ?_, by simpa using hget, ?_⟩
        · simp only [columnIndexFrom, hn, if_false, hres]
          push_cast
          omega
        · intro j hj
          cases j with
          | zero =>
            simp only [List.get?_cons_zero, ne_eq, Option.some.injEq]
            exact hn
          | succ j1 =>
            simp only [List.get?_cons_succ]
            exact hfirst j1 (by omega)

/-- C16: after `setSchema(s)`, `columnIndex(col)` is `-1` or an index below the
schema length; it is `-1` exactly when no column name of `s` equals the trimmed `col`
up to letter case; and a result `k` is the 0-based index of the first column of `s`
whose name equals the trimmed `col` up to letter case. -/
theorem C16_columnIndex_spec (t : TableDynamic) (s : TableSchema) (col : Str) :
    ((t.setSchema s).columnIndex col = -1 ∨
      (0 ≤ (t.setSchema s).columnIndex col ∧
       (t.setSchema s).columnIndex col < ((t.setSchema s).schema_.names.length : Int) ∧
       (t.setSchema s).schema_.names.length = s.names.length)) ∧
    ((t.setSchema s).columnIndex col = -1 ↔
      ∀ n ∈ s.names, toLower n ≠ toLower (trim col)) ∧
    (∀ k : Nat, (t.setSchema s).columnIndex col = (k : Int) →
      (s.names.get? k).map toLower = some (toLower (trim col)) ∧
      ∀ j, j < k → (s.names.get? j).map toLower ≠ some (toLower (trim col))) := by
  have hnames := TableDynamic.setSchema_names t s
  have hspec := columnIndexFrom_spec (toLower (trim col)) (s.names.map toLower) 0
  have hmem : toLower (trim col) ∈ s.names.map toLower ↔
      ∃ n ∈ s.names, toLower n = toLower (trim col) := by
    simp [List.mem_map]
  have hidx : (t.setSchema s).columnIndex col
      = columnIndexFrom (toLower (trim col)) (s.names.map toLower) 0 := by
    simp only [TableDynamic.columnIndex, hnames]
  rw [hidx, hnames]
  by_cases hin : toLower (trim col) ∈ s.names.map toLower
  · obtain ⟨k, hk, hres, hget, hfirst⟩ := hspec.2 hin
    rw [hres]
    simp only [List.length_map] at hk
    refine ⟨Or.inr ⟨by omega, by simp only [List.length_map]; omega, by simp⟩, ?_, ?_⟩
    · constructor
      · intro h
        omega
      · intro h
        obtain ⟨n, hn, hnl⟩ := hmem.mp hin
        exact absurd hnl (h n hn)
    · intro k1 hk1
      have : k1 = k := by omega
      subst this
      simp only [List.get?_eq_getElem?, List.getElem?_map] at hget hfirst ⊢
      exact ⟨hget, hfirst⟩
  · rw [hspec.1 hin]
    refine ⟨Or.inl rfl, ?_, ?_⟩
    · constructor
      · intro _ n hn hnl
        exact hin (hmem.mpr ⟨n, hn, hnl⟩)
      · intro _
        rfl
    · intro k hk
      omega

/-- Witness for C16: with the columns `Name` and `AGE` installed, the lookup of
" Age " gives index 1, and index 1 is the first column named `age` up to case. -/
theorem C16_columnIndex_spec_witness :
    ([("Name".toList), ("AGE".toList)].get? 1).map toLower = some (toLower (trim " Age ".toList)) :=
  ((C16_columnIndex_spec (TableDynamic.new "t".toList)
    { names := ["Name".toList, "AGE".toList], types := ["STRING".toList, "INT".toList] }
    " Age ".toList).2.2 1 (by decide)).1

/-- The DELETE loop on a table none of whose rows is selected: it makes its passes
and changes nothing. -/
theorem deleteLoop_none_selected (whereIdx : Int) (whereOp whereVal : Str) :
    ∀ (n : Nat) (t : TableDynamic) (d : Disk) (removed : Nat), n ≤ t.rows_.length →
      (∀ row ∈ t.rows_, rowSelected whereIdx whereOp whereVal row = .ok false) →
      deleteLoop whereIdx whereOp whereVal n t d removed = (t, d, removed, none) := by
  intro n
  induction n with
  | zero => intro t d removed _ _; rfl
  | succ r ih =>
    intro t d removed hn hsel
    have hr : r < t.rows_.length := by omega
    have hget : t.getRow (r : Int) = .ok (t.rows_.getD r []) := by
      unfold TableDynamic.getRow
      have : 0 ≤ (r : Int) ∧ (r : Int) < (t.rows_.length : Int) := by omega
      simp only [this, and_self, if_true, Int.toNat_ofNat]
    have hmem : t.rows_.getD r [] ∈ t.rows_ := by
      rw [List.getD_eq_getElem _ _ hr]
      exact List.getElem_mem hr
    simp only [deleteLoop, hget, hsel _ hmem]
    exact ih t d removed (by omega) hsel

/-- C13 (amended): a DELETE with a WHERE clause on a known column, run by the executor
on the table `t0` (as `get` hands it over, stored under `key`), when `checkWhere`
answers `false` for every row the table has after its reload from the file: the executor
reports `removed: 0` without an exception, the disk is exactly as before (the file is
not rewritten), and the table in the catalog is the table as loaded from that file,
with its row sequence; it is `t0` itself whenever `t0` agreed with its file. -/
theorem C13_delete_no_match (p : Parse) (w : World) (key : Str) (c1 : Catalog)
    (t0 : TableDynamic) (hcmd : p.cmd_ = "DELETE".toList)
    (hget : w.catalog.get w.disk p.table_ = (some key, c1)) (ht : c1.find? key = some t0)
    (hcol : p.whereCol_ ≠ []) (hknown : 0 ≤ (t0.load w.disk).columnIndex p.whereCol_)
    (hnone : ∀ row ∈ (t0.load w.disk).rows_,
      checkWhere row ((t0.load w.disk).columnIndex p.whereCol_) p.whereOp_ p.whereVal_
        = .ok false) :
    (executeParse p w).2 = { printed := [.deleteRemoved 0], raised := none } ∧
    (executeParse p w).1.disk = w.disk ∧
    (executeParse p w).1.catalog.find? key = some (t0.load w.disk) ∧
    (t0.load w.disk = t0 → (executeParse p w).1.catalog.find? key = some t0) := by
  have hhas := Catalog.has_of_get _ _ _ _ _ hget
  have e1 : ("DELETE".toList = "CREATE".toList) = False := by decide
  have e2 : ("DELETE".toList = "INSERT".toList) = False := by decide
  have e3 : ("DELETE".toList = "SELECT".toList) = False := by decide
  have e4 : ("DELETE".toList = "UPDATE".toList) = False := by decide
  have hexec : executeParse p w = executeDelete p w := by
    simp only [executeParse, hcmd, e1, e2, e3, e4, if_false, if_true]
  have hempty : p.whereCol_.isEmpty = false := by
    cases h : p.whereCol_ with
    | nil => exact absurd h hcol
    | cons _ _ => rfl
  have hwhere : whereIndex (t0.load w.disk) p
      = some ((t0.load w.disk).columnIndex p.whereCol_) := by
    unfold whereIndex
    have : ¬ ((t0.load w.disk).columnIndex p.whereCol_ < 0) := by omega
    simp only [hempty, Bool.false_eq_true, if_false, this]
  have hsel : ∀ row ∈ (t0.load w.disk).rows_,
      rowSelected ((t0.load w.disk).columnIndex p.whereCol_) p.whereOp_ p.whereVal_ row
        = .ok false := by
    intro row hrow
    unfold rowSelected
    have : ¬ ((t0.load w.disk).columnIndex p.whereCol_ = -1) := by omega
    rw [if_neg this]
    exact hnone row hrow
  have hloop := deleteLoop_none_selected ((t0.load w.disk).columnIndex p.whereCol_)
    p.whereOp_ p.whereVal_ (t0.load w.disk).rowCount (t0.load w.disk) w.disk 0
    (le_refl _) hsel
  have hres : executeDelete p w =
      ({ catalog := c1.store key (t0.load w.disk), disk := w.disk },
       { printed := [.deleteRemoved 0], raised := none }) := by
    simp only [executeDelete, hhas, Bool.not_true, Bool.false_eq_true, if_false, hget, ht,
      hwhere, hempty, hloop, gt_iff_lt, Nat.lt_irrefl]
  rw [hexec, hres]
  have hfind := Catalog.find?_store c1 key t0 (t0.load w.disk) ht
  refine ⟨rfl, rfl, hfind, ?_⟩
  intro hsync
  exact hfind.trans (congrArg some hsync)

/-- Witness for C13: on the four `students` rows no age equals 100; the command
`DELETE FROM t WHERE age = 100` reports 0 and leaves the world as it was. -/
theorem C13_delete_no_match_witness :
    (executeParse (Parse.delete "t".toList "age".toList "=".toList "100".toList)
      (World.ofTable (peopleTable studentRows))).2
      = { printed := [.deleteRemoved 0], raised := none } ∧
    (executeParse (Parse.delete "t".toList "age".toList "=".toList "100".toList)
      (World.ofTable (peopleTable studentRows))).1.disk
      = (World.ofTable (peopleTable studentRows)).disk :=
  ⟨(C13_delete_no_match (Parse.delete "t".toList "age".toList "=".toList "100".toList)
      (World.ofTable (peopleTable studentRows)) "t".toList
      (World.ofTable (peopleTable studentRows)).catalog (peopleTable studentRows)
      (by decide) (by decide) (by decide) (by decide) (by decide) (by decide)).1,
   (C13_delete_no_match (Parse.delete "t".toList "age".toList "=".toList "100".toList)
      (World.ofTable (peopleTable studentRows)) "t".toList
      (World.ofTable (peopleTable studentRows)).catalog (peopleTable studentRows)
      (by decide) (by decide) (by decide) (by decide) (by decide) (by decide)).2.1⟩

/-- C13 (counterexample): after the input lines `CREATE TABLE t (name STRING, age
INT)`, `INSERT INTO t VALUES (a,5)` and `UPDATE t SET name = ,` the table holds the row
(",", "5") in memory and its file holds the line `1,,,5`. No row satisfies `name = zzz`,
before or after a reload. `DELETE FROM t WHERE name = zzz` reports `removed: 0` and
leaves the disk as it was, but the row sequence in memory is now ("", ""): the command
replaced the table by the content of its file. -/
theorem C13_no_match_delete_reloads_counterexample :
    (runQueries (commaLiteralQueries.take 3) World.empty).map (fun w =>
        (w.catalog.find? "t".toList,
         (executeParse (Parse.delete "t".toList "name".toList "=".toList "zzz".toList) w).2,
         decide ((executeParse
           (Parse.delete "t".toList "name".toList "=".toList "zzz".toList) w).1.disk = w.disk),
         (executeParse (Parse.delete "t".toList "name".toList "=".toList "zzz".toList)
           w).1.catalog.find? "t".toList))
      = .ok (some (peopleTable [[",".toList, "5".toList]]),
          { printed := [.deleteRemoved 0], raised := none },
          true,
          some (peopleTable [[[], []]])) ∧
    checkWhere [",".toList, "5".toList] 0 "=".toList "zzz".toList = .ok false ∧
    checkWhere [[], []] 0 "=".toList "zzz".toList = .ok false := by
  refine ⟨?_, ?_, ?_⟩ <;> decide

/-- Looking up a key in an association list, one entry at a time. -/
theorem find?_key_cons {β : Type} (e : Str × β) (rest : List (Str × β)) (k : Str) :
    (e :: rest).find? (fun x => decide (x.1 = k))
      = if e.1 = k then some e else rest.find? (fun x => decide (x.1 = k)) := by
  by_cases h : e.1 = k
  · rw [if_pos h, List.find?_cons]
    have : decide (e.1 = k) = true := by simpa using h
    simp only [this]
  · rw [if_neg h, List.find?_cons]
    have : decide (e.1 = k) = false := by simpa using h
    simp only [this]

/-- Reading the map after `store`: the entry under the key is replaced, every other
entry is as before. -/
theorem Catalog.find?_store_eq (c : Catalog) (key k : Str) (t : TableDynamic) :
    (c.store key t).find? k = if k = key then (c.find? k).map (fun _ => t) else c.find? k := by
  obtain ⟨l⟩ := c
  simp only [Catalog.find?, Catalog.store]
  induction l with
  | nil => simp
  | cons e rest ih =>
    rw [List.map_cons, find?_key_cons, find?_key_cons]
    by_cases hk : k = key
    · subst hk
      rw [if_pos rfl] at ih ⊢
      by_cases he : e.1 = k
      · rw [if_pos he, if_pos rfl, if_pos he]
        rfl
      · rw [if_neg he, if_neg he, if_neg he]
        exact ih
    · rw [if_neg hk] at ih ⊢
      by_cases he : e.1 = key
      · have h1 : ¬ key = k := fun h => hk h.symm
        have h2 : ¬ e.1 = k := by
          rw [he]
          exact h1
        rw [if_pos he, if_neg h1, if_neg h2]
        exact ih
      · rw [if_neg he]
        by_cases hek : e.1 = k
        · rw [if_pos hek, if_pos hek]
        · rw [if_neg hek, if_neg hek]
          exact ih

/-- `get` keeps every entry the map had. -/
theorem Catalog.get_frame (c c1 : Catalog) (d : Disk) (name : Str) (r : Option Str)
    (h : c.get d name = (r, c1)) (k : Str) (t : TableDynamic) (hk : c.find? k = some t) :
    c1.find? k = some t := by
  unfold Catalog.get at h
  by_cases h1 : (c.find? (toLower (trim name))).isSome = true
  · rw [if_pos h1] at h
    rw [← (Prod.mk.inj h).2]
    exact hk
  · rw [if_neg h1] at h
    by_cases h2 : d.hasFile (folder ++ toLower (trim name) ++ ".txt".toList) = true
    · rw [if_pos h2] at h
      rw [← (Prod.mk.inj h).2]
      have hne : ¬ toLower (trim name) = k := by
        intro he
        rw [he, hk] at h1
        exact h1 rfl
      simp only [Catalog.find?] at hk ⊢
      rw [find?_key_cons, if_neg hne]
      exact hk
    · rw [if_neg h2] at h
      rw [← (Prod.mk.inj h).2]
      exact hk

/-- The INSERT branch when it ends in a rejection: no exception, the disk as before,
and the catalog as before or as `get` left it. -/
theorem executeInsert_rejected (p : Parse) (w : World) (msg : Output)
    (h : (executeInsert p w).2.printed = [msg]) (hm : msg.isRejection = true) :
    (executeInsert p w).2.raised = none ∧ (executeInsert p w).1.disk = w.disk ∧
    ((executeInsert p w).1.catalog = w.catalog ∨
      (executeInsert p w).1.catalog = (w.catalog.get w.disk p.table_).2) := by
  by_cases hhas : w.catalog.has w.disk p.table_ = true
  swap
  · have hres : executeInsert p w
        = (w, { printed := [.insertTableNotFound], raised := none }) := by
      have : w.catalog.has w.disk p.table_ = false := by simpa using hhas
      simp only [executeInsert, this, Bool.not_false, if_true]
    rw [hres]
    exact ⟨rfl, rfl, Or.inl rfl⟩
  · cases hget : w.catalog.get w.disk p.table_ with
    | mk r c1 =>
      cases r with
      | none =>
        have hres : executeInsert p w
            = ({ w with catalog := c1 }, { printed := [], raised := none }) := by
          simp only [executeInsert, hhas, Bool.not_true, Bool.false_eq_true, if_false, hget]
        rw [hres]
        exact ⟨rfl, rfl, Or.inr rfl⟩
      | some key =>
        cases ht : c1.find? key with
        | none =>
          have hres : executeInsert p w
              = ({ w with catalog := c1 }, { printed := [], raised := none }) := by
            simp only [executeInsert, hhas, Bool.not_true, Bool.false_eq_true, if_false, hget, ht]
          rw [hres]
          exact ⟨rfl, rfl, Or.inr rfl⟩
        | some t =>
          cases hv : validateInsert t.schema_ p.vals_ with
          | error err =>
            have hres : executeInsert p w
                = ({ w with catalog := c1 },
                   { printed := [.insertValidation err], raised := none }) := by
              simp only [executeInsert, hhas, Bool.not_true, Bool.false_eq_true, if_false, hget,
                ht, hv]
            rw [hres]
            exact ⟨rfl, rfl, Or.inr rfl⟩
          | ok u =>
            exfalso
            have hres : (executeInsert p w).2.printed = [.inserted p.table_] := by
              simp only [executeInsert, hhas, Bool.not_true, Bool.false_eq_true, if_false, hget,
                ht, hv]
            rw [hres] at h
            have := (List.cons.inj h).1
            rw [← this] at hm
            simp [Output.isRejection] at hm

/-- The UPDATE branch when it ends in a rejection: no exception, the disk as before,
and the catalog as before or as `get` left it with the table reloaded from its
file. -/
theorem executeUpdate_rejected (p : Parse) (w : World) (msg : Output)
    (h : (executeUpdate p w).2.printed = [msg]) (hm : msg.isRejection = true) :
    (executeUpdate p w).2.raised = none ∧ (executeUpdate p w).1.disk = w.disk ∧
    ((executeUpdate p w).1.catalog = w.catalog ∨
      ∃ key t0, (w.catalog.get w.disk p.table_).1 = some key ∧
        (w.catalog.get w.disk p.table_).2.find? key = some t0 ∧
        (executeUpdate p w).1.catalog
          = (w.catalog.get w.disk p.table_).2.store key (t0.load w.disk)) := by
  by_cases hhas : w.catalog.has w.disk p.table_ = true
  swap
  · have hres : executeUpdate p w
        = (w, { printed := [.updateTableNotFound], raised := none }) := by
      have : w.catalog.has w.disk p.table_ = false := by simpa using hhas
      simp only [executeUpdate, this, Bool.not_false, if_true]
    rw [hres]
    exact ⟨rfl, rfl, Or.inl rfl⟩
  · cases hget : w.catalog.get w.disk p.table_ with
    | mk r c1 =>
      cases r with
      | none =>
        exfalso
        have hres : (executeUpdate p w).2.printed = [] := by
          simp only [executeUpdate, hhas, Bool.not_true, Bool.false_eq_true, if_false, hget]
        rw [hres] at h
        exact absurd h (by simp)
      | some key =>
        cases ht : c1.find? key with
        | none =>
          exfalso
          have hres : (executeUpdate p w).2.printed = [] := by
            simp only [executeUpdate, hhas, Bool.not_true, Bool.false_eq_true, if_false, hget, ht]
          rw [hres] at h
          exact absurd h (by simp)
        | some t0 =>
          by_cases htarget : (t0.load w.disk).columnIndex p.setCol_ < 0
          · have hres : executeUpdate p w
                = ({ w with catalog := c1.store key (t0.load w.disk) },
                   { printed := [.updateUnknownColumn], raised := none }) := by
              simp only [executeUpdate, hhas, Bool.not_true, Bool.false_eq_true, if_false, hget,
                ht, htarget, if_true]
            rw [hres]
            exact ⟨rfl, rfl, Or.inr ⟨key, t0, rfl, ht, rfl⟩⟩
          · by_cases htype : (t0.load w.disk).schema_.types.getD
                ((t0.load w.disk).columnIndex p.setCol_).toNat [] = "INT".toList ∧
                isNumberString p.setVal_ = false
            · have hres : executeUpdate p w
                  = ({ w with catalog := c1.store key (t0.load w.disk) },
                     { printed := [.updateTypeMismatch], raised := none }) := by
                simp only [executeUpdate, hhas, Bool.not_true, Bool.false_eq_true, if_false,
                  hget, ht, htarget, htype, and_self, if_true]
              rw [hres]
              exact ⟨rfl, rfl, Or.inr ⟨key, t0, rfl, ht, rfl⟩⟩
            · cases hw : whereIndex (t0.load w.disk) p with
              | none =>
                have hres : executeUpdate p w
                    = ({ w with catalog := c1.store key (t0.load w.disk) },
                       { printed := [.updateUnknownWhereCol], raised := none }) := by
                  simp only [executeUpdate, hhas, Bool.not_true, Bool.false_eq_true, if_false,
                    hget, ht, htarget, htype, hw]
                rw [hres]
                exact ⟨rfl, rfl, Or.inr ⟨key, t0, rfl, ht, rfl⟩⟩
              | some whereIdx =>
                exfalso
                simp only [executeUpdate, hhas, Bool.not_true, Bool.false_eq_true, if_false,
                  hget, ht, htarget, htype, hw] at h
                split at h
                · exact absurd h (by simp)
                · have := (List.cons.inj h).1
                  rw [← this] at hm
                  simp [Output.isRejection] at hm

/-- The DELETE branch when it ends in a rejection: no exception, the disk as before,
and the catalog as before or as `get` left it with the table reloaded from its
file. -/
theorem executeDelete_rejected (p : Parse) (w : World) (msg : Output)
    (h : (executeDelete p w).2.printed = [msg]) (hm : msg.isRejection = true) :
    (executeDelete p w).2.raised = none ∧ (executeDelete p w).1.disk = w.disk ∧
    ((executeDelete p w).1.catalog = w.catalog ∨
      ∃ key t0, (w.catalog.get w.disk p.table_).1 = some key ∧
        (w.catalog.get w.disk p.table_).2.find? key = some t0 ∧
        (executeDelete p w).1.catalog
          = (w.catalog.get w.disk p.table_).2.store key (t0.load w.disk)) := by
  by_cases hhas : w.catalog.has w.disk p.table_ = true
  swap
  · have hres : executeDelete p w
        = (w, { printed := [.deleteTableNotFound], raised := none }) := by
      have : w.catalog.has w.disk p.table_ = false := by simpa using hhas
      simp only [executeDelete, this, Bool.not_false, if_true]
    rw [hres]
    exact ⟨rfl, rfl, Or.inl rfl⟩
  · cases hget : w.catalog.get w.disk p.table_ with
    | mk r c1 =>
      cases r with
      | none =>
        exfalso
        have hres : (executeDelete p w).2.printed = [] := by
          simp only [executeDelete, hhas, Bool.not_true, Bool.false_eq_true, if_false, hget]
        rw [hres] at h
        exact absurd h (by simp)
      | some key =>
        cases ht : c1.find? key with
        | none =>
          exfalso
          have hres : (executeDelete p w).2.printed = [] := by
            simp only [executeDelete, hhas, Bool.not_true, Bool.false_eq_true, if_false, hget, ht]
          rw [hres] at h
          exact absurd h (by simp)
        | some t0 =>
          cases hw : whereIndex (t0.load w.disk) p with
          | none =>
            have hres : executeDelete p w
                = ({ w with catalog := c1.store key (t0.load w.disk) },
                   { printed := [.deleteUnknownWhereCol], raised := none }) := by
              simp only [executeDelete, hhas, Bool.not_true, Bool.false_eq_true, if_false,
                hget, ht, hw]
            rw [hres]
            exact ⟨rfl, rfl, Or.inr ⟨key, t0, rfl, ht, rfl⟩⟩
          | some whereIdx =>
            exfalso
            simp only [executeDelete, hhas, Bool.not_true, Bool.false_eq_true, if_false,
              hget, ht, hw] at h
            split at h
            · exact absurd h (by simp)
            · have := (List.cons.inj h).1
              rw [← this] at hm
              simp [Output.isRejection] at hm

/-- Loading a table twice from the same disk is loading it once. -/
theorem TableDynamic.load_idem (t : TableDynamic) (d : Disk) : (t.load d).load d = t.load d := by
  cases hr : d.read t.filepath with
  | none =>
    have h1 : t.load d = { t with rows_ := [] } := by
      simp only [TableDynamic.load, hr]
    rw [h1]
    have hr2 : d.read (TableDynamic.filepath { t with rows_ := [] }) = none := hr
    simp only [TableDynamic.load, hr2]
  | some text =>
    cases hi : readInt text with
    | none =>
      have h1 : t.load d = { t with rows_ := [] } := by
        simp only [TableDynamic.load, hr, hi]
      rw [h1]
      have hr2 : d.read (TableDynamic.filepath { t with rows_ := [] }) = some text := hr
      simp only [TableDynamic.load, hr2, hi]
    | some cr =>
      obtain ⟨c, rest⟩ := cr
      cases hc : loadColumns c.toNat ((getlines rest).drop 1) { names := [], types := [] } with
      | mk sch ls =>
        cases ls with
        | none =>
          have h1 : t.load d = { t with rows_ := [], schema_ := sch } := by
            simp only [TableDynamic.load, hr, hi, hc]
          rw [h1]
          have hr2 : d.read (TableDynamic.filepath { t with rows_ := [], schema_ := sch })
              = some text := hr
          simp only [TableDynamic.load, hr2, hi, hc]
        | some rowLines =>
          have h1 : t.load d =
              { t with
                schema_ := sch, rows_ := rowLines.filterMap (loadRow c) } := by
            simp only [TableDynamic.load, hr, hi, hc]
          rw [h1]
          have hr2 : d.read (TableDynamic.filepath
              { t with
                schema_ := sch, rows_ := rowLines.filterMap (loadRow c) }) = some text := hr
          simp only [TableDynamic.load, hr2, hi, hc]

/-- `get` adds at most one entry: the table of the key, loaded from its file. -/
theorem Catalog.get_new (c c1 : Catalog) (d : Disk) (name : Str) (r : Option Str)
    (h : c.get d name = (r, c1)) (k : Str) (hk : c.find? k = none) :
    c1.find? k = none ∨ c1.find? k = some ((TableDynamic.new k).load d) := by
  unfold Catalog.get at h
  by_cases h1 : (c.find? (toLower (trim name))).isSome = true
  · rw [if_pos h1] at h
    rw [← (Prod.mk.inj h).2]
    exact Or.inl hk
  · rw [if_neg h1] at h
    by_cases h2 : d.hasFile (folder ++ toLower (trim name) ++ ".txt".toList) = true
    · rw [if_pos h2] at h
      rw [← (Prod.mk.inj h).2]
      simp only [Catalog.find?] at hk ⊢
      rw [find?_key_cons]
      by_cases he : toLower (trim name) = k
      · right
        rw [if_pos he, he]
        rfl
      · left
        rw [if_neg he]
        exact hk
    · rw [if_neg h2] at h
      rw [← (Prod.mk.inj h).2]
      exact Or.inl hk

/-- C15 (amended): an INSERT, UPDATE or DELETE that the executor rejects (its one printed line
is one of the rejection messages) raises no exception and leaves the disk, hence
every backing file, exactly as it was. Every table the catalog held stays in the
catalog, identical or, for the table of a rejected UPDATE or DELETE, as it is reloaded
from its unchanged file; so a table that agreed with its file before the command has
the same rows and schema after it. A table that was not in memory is absent
afterwards too, unless it is the table of the command, loaded from its file. -/
theorem C15_rejected_command_frame (p : Parse) (w : World) (msg : Output)
    (hcmd : p.cmd_ = "INSERT".toList ∨ p.cmd_ = "UPDATE".toList ∨ p.cmd_ = "DELETE".toList)
    (hprinted : (executeParse p w).2.printed = [msg]) (hmsg : msg.isRejection = true) :
    (executeParse p w).2.raised = none ∧
    (executeParse p w).1.disk = w.disk ∧
    (∀ k t, w.catalog.find? k = some t →
      (executeParse p w).1.catalog.find? k = some t ∨
      (executeParse p w).1.catalog.find? k = some (t.load w.disk)) ∧
    (∀ k t, w.catalog.find? k = some t → t.load w.disk = t →
      (executeParse p w).1.catalog.find? k = some t) ∧
    (∀ k, w.catalog.find? k = none →
      (executeParse p w).1.catalog.find? k = none ∨
      (executeParse p w).1.catalog.find? k = some ((TableDynamic.new k).load w.disk)) := by
  have hframe := Catalog.get_frame w.catalog (w.catalog.get w.disk p.table_).2 w.disk p.table_
    (w.catalog.get w.disk p.table_).1 rfl
  have hnew := Catalog.get_new w.catalog (w.catalog.get w.disk p.table_).2 w.disk p.table_
    (w.catalog.get w.disk p.table_).1 rfl
  -- the three shapes a catalog can have after a rejection
  have hshape : ∀ cat : Catalog,
      (cat = w.catalog ∨ cat = (w.catalog.get w.disk p.table_).2 ∨
        ∃ key t0, (w.catalog.get w.disk p.table_).2.find? key = some t0 ∧
          cat = (w.catalog.get w.disk p.table_).2.store key (t0.load w.disk)) →
      (∀ k t, w.catalog.find? k = some t →
        cat.find? k = some t ∨ cat.find? k = some (t.load w.disk)) ∧
      (∀ k, w.catalog.find? k = none →
        cat.find? k = none ∨ cat.find? k = some ((TableDynamic.new k).load w.disk)) := by
    intro cat hcat
    rcases hcat with h | h | ⟨key, t0, ht0, h⟩
    · subst h
      exact ⟨fun k t hk => Or.inl hk, fun k hk => Or.inl hk⟩
    · subst h
      exact ⟨fun k t hk => Or.inl (hframe k t hk), fun k hk => hnew k hk⟩
    · subst h
      constructor
      · intro k t hk
        rw [Catalog.find?_store_eq]
        by_cases hkey : k = key
        · subst hkey
          rw [if_pos rfl]
          have := hframe k t hk
          rw [ht0] at this
          have ht : t0 = t := Option.some.inj this
          subst ht
          right
          rw [ht0]
          rfl
        · rw [if_neg hkey]
          exact Or.inl (hframe k t hk)
      · intro k hk
        rw [Catalog.find?_store_eq]
        by_cases hkey : k = key
        · subst hkey
          rw [if_pos rfl, ht0]
          right
          rcases hnew k hk with h1 | h1
          · rw [ht0] at h1
            exact absurd h1 (by simp)
          · rw [ht0] at h1
            have ht : t0 = (TableDynamic.new k).load w.disk := Option.some.inj h1
            rw [ht, TableDynamic.load_idem]
            rfl
        · rw [if_neg hkey]
          exact hnew k hk
  have hmain : (executeParse p w).2.raised = none ∧ (executeParse p w).1.disk = w.disk ∧
      ((executeParse p w).1.catalog = w.catalog ∨
        (executeParse p w).1.catalog = (w.catalog.get w.disk p.table_).2 ∨
        ∃ key t0, (w.catalog.get w.disk p.table_).2.find? key = some t0 ∧
          (executeParse p w).1.catalog
            = (w.catalog.get w.disk p.table_).2.store key (t0.load w.disk)) := by
    rcases hcmd with hc | hc | hc
    · have e1 : ("INSERT".toList = "CREATE".toList) = False := by decide
      have hexec : executeParse p w = executeInsert p w := by
        simp only [executeParse, hc, e1, if_false, if_true]
      rw [hexec] at hprinted ⊢
      obtain ⟨h1, h2, h3⟩ := executeInsert_rejected p w msg hprinted hmsg
      refine ⟨h1, h2, ?_⟩
      rcases h3 with h | h
      · exact Or.inl h
      · exact Or.inr (Or.inl h)
    · have e1 : ("UPDATE".toList = "CREATE".toList) = False := by decide
      have e2 : ("UPDATE".toList = "INSERT".toList) = False := by decide
      have e3 : ("UPDATE".toList = "SELECT".toList) = False := by decide
      have hexec : executeParse p w = executeUpdate p w := by
        simp only [executeParse, hc, e1, e2, e3, if_false, if_true]
      rw [hexec] at hprinted ⊢
      obtain ⟨h1, h2, h3⟩ := executeUpdate_rejected p w msg hprinted hmsg
      refine ⟨h1, h2, ?_⟩
      rcases h3 with h | ⟨key, t0, _, ht0, h⟩
      · exact Or.inl h
      · exact Or.inr (Or.inr ⟨key, t0, ht0, h⟩)
    · have e1 : ("DELETE".toList = "CREATE".toList) = False := by decide
      have e2 : ("DELETE".toList = "INSERT".toList) = False := by decide
      have e3 : ("DELETE".toList = "SELECT".toList) = False := by decide
      have e4 : ("DELETE".toList = "UPDATE".toList) = False := by decide
      have hexec : executeParse p w = executeDelete p w := by
        simp only [executeParse, hc, e1, e2, e3, e4, if_false, if_true]
      rw [hexec] at hprinted ⊢
      obtain ⟨h1, h2, h3⟩ := executeDelete_rejected p w msg hprinted hmsg
      refine ⟨h1, h2, ?_⟩
      rcases h3 with h | ⟨key, t0, _, ht0, h⟩
      · exact Or.inl h
      · exact Or.inr (Or.inr ⟨key, t0, ht0, h⟩)
  obtain ⟨h1, h2, h3⟩ := hmain
  obtain ⟨h4, h5⟩ := hshape _ h3
  refine ⟨h1, h2, h4, ?_, h5⟩
  intro k t hk hsync
  rcases h4 k t hk with h | h
  · exact h
  · rw [hsync] at h
    exact h

/-- Witness for C15 (amended): on the four `students` rows, `UPDATE t SET nosuch = 1 WHERE name
= Sara` is rejected with "unknown column", and the table `t` is afterwards what it
was. -/
theorem C15_rejected_command_frame_witness :
    (executeParse (Parse.update "t".toList "nosuch".toList "1".toList "name".toList "=".toList
      "Sara".toList) (World.ofTable (peopleTable studentRows))).1.catalog.find? "t".toList
      = some (peopleTable studentRows) :=
  (C15_rejected_command_frame
    (Parse.update "t".toList "nosuch".toList "1".toList "name".toList "=".toList "Sara".toList)
    (World.ofTable (peopleTable studentRows)) .updateUnknownColumn
    (by decide) (by decide) (by decide)).2.2.2.1 "t".toList (peopleTable studentRows)
    (by decide) (by decide)

/-- C15 (counterexample): CREATE, two INSERTs and
`UPDATE t SET age = 7 WHERE name = 5` leave the row (5, 7) in memory and (5, 1) in the
file, because `stoll` throws on the second row after the first was changed and
nothing is saved. The next command, `UPDATE t SET nosuch = 1 WHERE name = 5`, is
rejected with "unknown column", yet the in-memory rows are not what they were: the
reload put (5, 1) back. -/
theorem C15_rejected_update_reloads_counterexample :
    runCommands [Parse.create "t".toList ["name:STRING".toList, "age:INT".toList],
        Parse.insert "t".toList ["5".toList, "1".toList],
        Parse.insert "t".toList ["99999999999999999999".toList, "2".toList],
        Parse.update "t".toList "age".toList "7".toList "name".toList "=".toList "5".toList]
        World.empty
      = { catalog := { tables_ := [("t".toList, peopleTable
            [["5".toList, "7".toList], ["99999999999999999999".toList, "2".toList]])] },
          disk := (peopleTable
            [["5".toList, "1".toList], ["99999999999999999999".toList, "2".toList]]).save Disk.empty } ∧
    executeParse (Parse.update "t".toList "nosuch".toList "1".toList "name".toList "=".toList
        "5".toList)
        { catalog := { tables_ := [("t".toList, peopleTable
            [["5".toList, "7".toList], ["99999999999999999999".toList, "2".toList]])] },
          disk := (peopleTable
            [["5".toList, "1".toList], ["99999999999999999999".toList, "2".toList]]).save Disk.empty }
      = (World.ofTable (peopleTable
            [["5".toList, "1".toList], ["99999999999999999999".toList, "2".toList]]),
         { printed := [.updateUnknownColumn], raised := none }) ∧
    (peopleTable [["5".toList, "7".toList], ["99999999999999999999".toList, "2".toList]]).rows_
      ≠ (peopleTable [["5".toList, "1".toList], ["99999999999999999999".toList, "2".toList]]).rows_ := by
  refine ⟨?_, ?_, ?_⟩ <;> decide

/-- C28 (the code at the failing inputs): the two predicates disagree under four of the
six operators. On the row (Ali, 17), `age < 18` is rejected by `checkWhere` and accepted
by the Filter row test; on the row (Ali, 18), `age <= 20`, `age >= 18` and `age != 20`
are accepted by `checkWhere` and rejected by the Filter row test. Under `=` and under
`>` the two agree on every row, column index and literal. -/
theorem C28_checkWhere_filter_disagree :
    (checkWhere ["Ali".toList, "17".toList] 1 "<".toList "18".toList = .ok false ∧
      Filter.accepts 1 "<".toList "18".toList ["Ali".toList, "17".toList] = true) ∧
    (checkWhere ["Ali".toList, "18".toList] 1 "<=".toList "20".toList = .ok true ∧
      Filter.accepts 1 "<=".toList "20".toList ["Ali".toList, "18".toList] = false) ∧
    (checkWhere ["Ali".toList, "18".toList] 1 ">=".toList "18".toList = .ok true ∧
      Filter.accepts 1 ">=".toList "18".toList ["Ali".toList, "18".toList] = false) ∧
    (checkWhere ["Ali".toList, "18".toList] 1 "!=".toList "20".toList = .ok true ∧
      Filter.accepts 1 "!=".toList "20".toList ["Ali".toList, "18".toList] = false) ∧
    (∀ (row : Row) (colIdx : Int) (val : Str),
      (checkWhere row colIdx "=".toList val = .ok true ↔
        Filter.accepts colIdx "=".toList val row = true) ∧
      (checkWhere row colIdx ">".toList val = .ok true ↔
        Filter.accepts colIdx ">".toList val row = true)) := by
  refine ⟨by decide, by decide, by decide, by decide, ?_⟩
  intro row colIdx val
  have e1 : (">".toList = "=".toList) = False := by decide
  have e2 : (">".toList = "!=".toList) = False := by decide
  refine ⟨?_, ?_⟩
  · unfold checkWhere Filter.accepts
    split
    · simp
    · dsimp only
      split
      · cases h1 : stoll (row.getD colIdx.toNat []) with
        | error e => simp [bind, Except.bind]
        | ok a =>
          cases h2 : stoll val with
          | error e => simp [bind, Except.bind]
          | ok b => simp [bind, Except.bind, pure, Except.pure]
      · simp
  · unfold checkWhere Filter.accepts
    split
    · simp
    · dsimp only
      split
      · cases h1 : stoll (row.getD colIdx.toNat []) with
        | error e => simp [bind, Except.bind]
        | ok a =>
          cases h2 : stoll val with
          | error e => simp [bind, Except.bind]
          | ok b => simp [bind, Except.bind, pure, Except.pure, e1, e2]
      · simp [e1]

/-- On a number string the integer scan finds a number: `stoll` can only end in
`out_of_range`, never in `invalid_argument`. -/
theorem stoll_numberString (s : Str) (h : isNumberString s = true) :
    stoll s ≠ .error .invalid_argument := by
  obtain ⟨ds, hne, hds, hs⟩ := (isNumberString_iff s).mp h
  obtain ⟨c, cs, rfl⟩ := List.exists_cons_of_ne_nil hne
  obtain ⟨hsp, hm, hp, _, _⟩ := isdigit_facts c (hds c (List.mem_cons_self _ _))
  obtain ⟨htake, hdropd⟩ := takeWhile_all (c :: cs) hds
  have hscan : ∃ v, scanInteger s = some (v, []) := by
    rcases hs with hs | hs
    · subst hs
      refine ⟨(decValue (c :: cs) : Int), ?_⟩
      unfold scanInteger
      have hdrop : (c :: cs).dropWhile isspace = c :: cs := by
        simp [List.dropWhile, hsp]
      simp only [hdrop, List.head?_cons]
      have hmatch : (match c :: cs with
          | '-' :: r => r
          | '+' :: r => r
          | _ => c :: cs) = c :: cs := by
        split
        · rename_i heq
          exact absurd (List.cons.inj heq).1 hm
        · rename_i heq
          exact absurd (List.cons.inj heq).1 hp
        · rfl
      rw [hmatch, htake, hdropd]
      have h4 : decide (some c = some '-') = false := by simpa using hm
      simp [h4, hm]
    · subst hs
      refine ⟨-(decValue (c :: cs) : Int), ?_⟩
      unfold scanInteger
      have hdrop : ('-' :: c :: cs).dropWhile isspace = '-' :: c :: cs := by
        have : isspace '-' = false := by decide
        simp [List.dropWhile, this]
      simp only [hdrop, List.head?_cons, htake, hdropd]
      simp
  obtain ⟨v, hv⟩ := hscan
  unfold stoll
  rw [hv]
  simp only
  split <;> simp

/-- C29 (the code at the failing input): the cell "99999999999999999999" and the
literal "5" both classify as Integer, `stoll` of the cell ends in `out_of_range`, and
`checkWhere` ends in that exception instead of returning a Boolean; the same holds when
the long digit string is the literal. The Filter row test of `operators.h` catches the
exception and rejects the row. This is the only way `checkWhere` fails: it never ends in
`invalid_argument`, whatever the row, the column index, the operator and the literal. -/
theorem C29_checkWhere_raises_out_of_range :
    isNumberString "99999999999999999999".toList = true ∧
    isNumberString "5".toList = true ∧
    stoll "99999999999999999999".toList = .error .out_of_range ∧
    checkWhere ["99999999999999999999".toList] 0 "=".toList "5".toList
      = .error .out_of_range ∧
    checkWhere ["5".toList] 0 ">".toList "99999999999999999999".toList
      = .error .out_of_range ∧
    Filter.accepts 0 "=".toList "5".toList ["99999999999999999999".toList] = false ∧
    (∀ (row : Row) (colIdx : Int) (op val : Str),
      checkWhere row colIdx op val ≠ .error .invalid_argument) := by
  refine ⟨by decide, by decide, by decide, by decide, by decide, by decide, ?_⟩
  intro row colIdx op val
  unfold checkWhere
  split
  · simp
  · dsimp only
    split
    · rename_i hnum
      simp only [Bool.and_eq_true] at hnum
      have h1 := stoll_numberString _ hnum.1
      have h2 := stoll_numberString _ hnum.2
      cases hc : stoll (row.getD colIdx.toNat []) with
      | error e =>
        rw [hc] at h1
        simp only [bind, Except.bind]
        intro heq
        exact h1 (congrArg Except.error (Except.error.inj heq))
      | ok a =>
        cases hv : stoll val with
        | error e =>
          rw [hv] at h2
          simp only [bind, Except.bind]
          intro heq
          exact h2 (congrArg Except.error (Except.error.inj heq))
        | ok b =>
          simp only [bind, Except.bind, pure, Except.pure]
          repeat' split
          all_goals simp
    · split <;> simp

/-- C30 (counterexample): the table `students` under the name `a/b` meets every premise
of the claim, but in a storage directory without the directory `a` its file cannot be
opened for writing: `save()` returns without writing, and `load()` then finds no file
and leaves the table without rows. -/
theorem C30_unopened_file_counterexample :
    (∀ n ∈ slashTable.schema_.names, n ≠ [] ∧ toLower n = n ∧ ∀ c ∈ n, isspace c = false) ∧
    (∀ ty ∈ slashTable.schema_.types, ty ≠ [] ∧ ∀ c ∈ ty, isspace c = false) ∧
    (∀ r ∈ slashTable.rows_, r.length = slashTable.schema_.names.length ∧
      ∀ v ∈ r, v ≠ [] ∧ ∀ c ∈ v, c ≠ ',' ∧ c ≠ '\n') ∧
    slashTable.filepath = "./db/a/b.txt".toList ∧
    flatDisk.opensForWriting slashTable.filepath = false ∧
    slashTable.save flatDisk = flatDisk ∧
    (slashTable.load (slashTable.save flatDisk)).rows_ = [] ∧
    slashTable.rows_ = studentRows := by
  refine ⟨?_, ?_, ?_, ?_, ?_, ?_, ?_, ?_⟩ <;> decide

/-- C30 (amended): for every table whose file can be opened for writing, whose names and
types are equally many (fewer than `2^31`, so that the count written by `save()` is the
`int` read by `load()`), whose column names are non-empty, lower-case and free of white
space, whose column types are non-empty and free of white space, and whose rows all
have one cell per column with every cell non-empty and free of `,` and of the line end,
`save()` followed by `load()` gives back the same schema and the same rows, in order:
on the object itself and on a new object of the same name. -/
theorem C30_save_then_load_reproduces (t : TableDynamic) (d : Disk)
    (hopen : d.opensForWriting t.filepath = true)
    (hlen : t.schema_.names.length = t.schema_.types.length)
    (hcols : t.schema_.names.length < 2 ^ 31)
    (hnames : ∀ n ∈ t.schema_.names, n ≠ [] ∧ toLower n = n ∧ ∀ c ∈ n, isspace c = false)
    (htypes : ∀ ty ∈ t.schema_.types, ty ≠ [] ∧ ∀ c ∈ ty, isspace c = false)
    (hrows : ∀ r ∈ t.rows_, r.length = t.schema_.names.length ∧
      ∀ v ∈ r, v ≠ [] ∧ ∀ c ∈ v, c ≠ ',' ∧ c ≠ '\n') :
    (t.load (t.save d)).schema_ = t.schema_ ∧
    (t.load (t.save d)).rows_ = t.rows_ ∧
    (TableDynamic.new t.name_).load (t.save d) = t := by
  have hrows1 : ∀ r ∈ t.rows_, r.length = t.schema_.names.length ∧
      (∀ v ∈ r, ∀ c ∈ v, c ≠ ',' ∧ c ≠ '\n') ∧ r.getLast? ≠ some [] := by
    intro r hr
    refine ⟨(hrows r hr).1, fun v hv => ((hrows r hr).2 v hv).2, ?_⟩
    intro hlast
    have hmem : ([] : Str) ∈ r := List.mem_of_getLast?_eq_some hlast
    exact ((hrows r hr).2 [] hmem).1 rfl
  have hnames1 : ∀ n ∈ t.schema_.names,
      n ≠ [] ∧ (∀ c ∈ n, isspace c = false) ∧ toLower n = n :=
    fun n hn => ⟨(hnames n hn).1, (hnames n hn).2.2, (hnames n hn).2.1⟩
  have htypes1 : ∀ ty ∈ t.schema_.types, ∀ c ∈ ty, isspace c = false :=
    fun ty hty => (htypes ty hty).2
  have h1 := save_load_roundtrip t t d rfl hopen hlen hcols hnames1 htypes1 hrows1
  have h2 := save_load_roundtrip t (TableDynamic.new t.name_) d rfl hopen hlen hcols hnames1
    htypes1 hrows1
  exact ⟨by rw [h1], by rw [h1], h2⟩

/-- Witness for C30 (amended): the table `students`, named `t`, meets the premises on a
file system where every path can be opened. -/
theorem C30_save_then_load_reproduces_witness :
    ((peopleTable studentRows).load ((peopleTable studentRows).save Disk.empty)).schema_
      = (peopleTable studentRows).schema_ ∧
    ((peopleTable studentRows).load ((peopleTable studentRows).save Disk.empty)).rows_
      = (peopleTable studentRows).rows_ ∧
    (TableDynamic.new (peopleTable studentRows).name_).load ((peopleTable studentRows).save Disk.empty)
      = peopleTable studentRows :=
  C30_save_then_load_reproduces (peopleTable studentRows) Disk.empty (by decide) (by decide)
    (by decide) (by decide) (by decide) (by decide)

/-- After `open()` and `j` calls of `next()` the cursor of the scan is `j - 1` and its
table is still the table that `open()` loaded. -/
theorem TableScan.nextN_open (s : TableScan) (d : Disk) (j : Nat) :
    ((s.open d).nextN j).idx_ = (j : Int) - 1 ∧
    ((s.open d).nextN j).table_ = s.table_.load d := by
  induction j with
  | zero => exact ⟨rfl, rfl⟩
  | succ j ih =>
    obtain ⟨h1, h2⟩ := ih
    simp only [TableScan.nextN, TableScan.next]
    split
    · exact ⟨by simp only [h1]; push_cast; ring, h2⟩
    · exact ⟨by simp only [h1]; push_cast; ring, h2⟩

/-- After `open()` and `j` calls of `next()` the cursor of the prototype scan is
`j - 1`; the table is never changed. -/
theorem Proto.TableScan.nextN_open_proto (s : Proto.TableScan) (j : Nat) :
    (s.open.nextN j).idx = (j : Int) - 1 ∧ (s.open.nextN j).table = s.table := by
  induction j with
  | zero => exact ⟨rfl, rfl⟩
  | succ j ih =>
    obtain ⟨h1, h2⟩ := ih
    simp only [Proto.TableScan.nextN, Proto.TableScan.next]
    exact ⟨by rw [h1]; push_cast; ring, h2⟩

/-- C21 (counterexample): `open()` of the scan of `operators.h` reloads the table from
its file. The table `students` has four rows; when it has no file, `open()` leaves it
without rows and the first call of `next()` returns `false`. The table with the one row
(",", "5") that has just been saved is reloaded from the line `1,,,5`: the first call
of `next()` returns `true` and `getRow()` yields ("", ""), not the row of the table at
index 0. -/
theorem C21_scan_reloads_counterexample :
    (TableScan.new (peopleTable studentRows)).table_.rows_.length = 4 ∧
    (((TableScan.new (peopleTable studentRows)).open Disk.empty).next).1 = false ∧
    (TableScan.new (peopleTable [[",".toList, "5".toList]])).table_.rows_.getD 0 []
      = [",".toList, "5".toList] ∧
    (((TableScan.new (peopleTable [[",".toList, "5".toList]])).open
        ((peopleTable [[",".toList, "5".toList]]).save Disk.empty)).next).1 = true ∧
    (((TableScan.new (peopleTable [[",".toList, "5".toList]])).open
        ((peopleTable [[",".toList, "5".toList]]).save Disk.empty)).next).2.getRow
      = [[], []] := by
  refine ⟨?_, ?_, ?_, ?_, ?_⟩ <;> decide

/-- C21 (amended): the scan protocol, for the scan of `operators.h` and for the scan of
the prototype. Whatever the state of the scan before (for instance exhausted), after
`open()` the `k`-th call of `next()` returns `true` when `k` is at most the number `n`
of rows of the table, and `getRow()` is then the row at index `k - 1`; every call after
the `n`-th returns `false`. In `operators.h` the table, its rows and `n` are those of
the table as `open()` reloaded it from its file; in the prototype they are those of the
table as given. The number of calls stays below `2^31`, so that the cursor, which every
call increments and which is `k - 1` after the `k`-th call, stays inside the range of
`int`. -/
theorem C21_scan_protocol (s : TableScan) (d : Disk) (ps : Proto.TableScan) (k : Nat)
    (hk : 1 ≤ k) (hint : k < 2 ^ 31) :
    ((k ≤ (s.table_.load d).rows_.length →
        (((s.open d).nextN (k - 1)).next).1 = true ∧
        (((s.open d).nextN (k - 1)).next).2.getRow = (s.table_.load d).rows_.getD (k - 1) []) ∧
      ((s.table_.load d).rows_.length < k → (((s.open d).nextN (k - 1)).next).1 = false)) ∧
    ((k ≤ ps.table.rows.length →
        ((ps.open.nextN (k - 1)).next).1 = true ∧
        ((ps.open.nextN (k - 1)).next).2.getRow
          = ps.table.rows.getD (k - 1) { values := [] }) ∧
      (ps.table.rows.length < k → ((ps.open.nextN (k - 1)).next).1 = false)) ∧
    ((((s.open d).nextN (k - 1)).next).2.idx_ = (k : Int) - 1 ∧
      ((ps.open.nextN (k - 1)).next).2.idx = (k : Int) - 1 ∧
      (k : Int) - 1 < 2 ^ 31 - 1) := by
  obtain ⟨h1, h2⟩ := TableScan.nextN_open s d (k - 1)
  obtain ⟨h3, h4⟩ := Proto.TableScan.nextN_open_proto ps (k - 1)
  have hcast : ((k - 1 : Nat) : Int) - 1 + 1 = ((k - 1 : Nat) : Int) := by ring
  have hk1 : ((k - 1 : Nat) : Int) = (k : Int) - 1 := by omega
  refine ⟨⟨?_, ?_⟩, ⟨?_, ?_⟩, ?_, ?_, ?_⟩
  rotate_left 4
  · simp only [TableScan.next, h1, hcast]
    split <;> exact hk1
  · simp only [Proto.TableScan.next, h3, hcast]
    exact hk1
  · have : (k : Int) < 2 ^ 31 := by exact_mod_cast hint
    omega
  · intro hle
    have hlt : ((k - 1 : Nat) : Int) < ((s.table_.load d).rows_.length : Int) := by omega
    simp only [TableScan.next, h1, h2, hcast, TableDynamic.rowCount, hlt, if_true,
      TableScan.getRow, Int.toNat_ofNat, and_self]
  · intro hgt
    have hlt : ¬ ((k - 1 : Nat) : Int) < ((s.table_.load d).rows_.length : Int) := by omega
    simp only [TableScan.next, h1, h2, hcast, TableDynamic.rowCount, hlt, if_false]
  · intro hle
    have hlt : ((k - 1 : Nat) : Int) < (ps.table.rows.length : Int) := by omega
    simp only [Proto.TableScan.next, Proto.TableScan.getRow, h3, h4, hcast, hlt,
      decide_True, Int.toNat_ofNat, and_self]
  · intro hgt
    have hlt : ¬ ((k - 1 : Nat) : Int) < (ps.table.rows.length : Int) := by omega
    simp only [Proto.TableScan.next, h3, h4, hcast, hlt, decide_False]

/-- Witness for C21 (amended): on a scan of `students`, in `operators.h` (table saved on disk)
and in the prototype, the third call of `next()` returns `true` with the row (Sara, 25)
and the fifth call returns `false`. -/
theorem C21_scan_protocol_witness :
    ((((TableScan.new (peopleTable studentRows)).open
        ((peopleTable studentRows).save Disk.empty)).nextN 2).next).1 = true ∧
    ((((TableScan.new (peopleTable studentRows)).open
        ((peopleTable studentRows).save Disk.empty)).nextN 2).next).2.getRow
      = ["Sara".toList, "25".toList] ∧
    ((((TableScan.new (peopleTable studentRows)).open
        ((peopleTable studentRows).save Disk.empty)).nextN 4).next).1 = false ∧
    (((Proto.TableScan.mk Proto.students 7).open.nextN 2).next).1 = true ∧
    (((Proto.TableScan.mk Proto.students 7).open.nextN 2).next).2.getRow
      = { values := [Proto.Value.ofString "Sara".toList, Proto.Value.ofInt 25] } ∧
    (((Proto.TableScan.mk Proto.students 7).open.nextN 4).next).1 = false := by
  have h3 := C21_scan_protocol (TableScan.new (peopleTable studentRows))
    ((peopleTable studentRows).save Disk.empty) (Proto.TableScan.mk Proto.students 7) 3
    (by decide) (by decide)
  have h5 := C21_scan_protocol (TableScan.new (peopleTable studentRows))
    ((peopleTable studentRows).save Disk.empty) (Proto.TableScan.mk Proto.students 7) 5
    (by decide) (by decide)
  exact ⟨(h3.1.1 (by decide)).1, (h3.1.1 (by decide)).2.trans (by decide),
    h5.1.2 (by decide), (h3.2.1.1 (by decide)).1, (h3.2.1.1 (by decide)).2.trans (by decide),
    h5.2.1.2 (by decide)⟩

/-- The rows a projection yields are the rows its child yields, each mapped through the
index list, for every bound on the number of calls. -/
theorem Projection.drainLoop_map {σ : Type} (ops : Operator σ) (fuel : Nat)
    (p : Projection σ) :
    Operator.drainLoop (Projection.operator ops) fuel p
      = (Operator.drainLoop ops fuel p.child_).map (List.map (fun r => p.idxs_.map
          (fun i => if 0 ≤ i ∧ i < (r.length : Int) then r.getD i.toNat [] else []))) := by
  induction fuel generalizing p with
  | zero => rfl
  | succ k ih =>
    simp only [Projection.operator] at ih ⊢
    simp only [Operator.drainLoop, Projection.next]
    cases hn : ops.next p.child_ with
    | mk b c =>
      cases b with
      | false => rfl
      | true =>
        simp only [ih]
        cases Operator.drainLoop ops k c with
        | none => rfl
        | some rest => rfl

/-- The same for the projection of the prototype. -/
theorem Proto.Projection.drainLoop_map_proto {σ : Type} (ops : Proto.Operator σ) (fuel : Nat)
    (p : Proto.Projection σ) :
    Proto.Operator.drainLoop (Proto.Projection.operator ops) fuel p
      = (Proto.Operator.drainLoop ops fuel p.child).map (Except.map (List.map (fun r =>
          ({ values := p.colIdx.map
              (fun idx => r.values.getD idx.toNat (Proto.Value.ofInt 0)) } : Proto.Row)))) := by
  induction fuel generalizing p with
  | zero => rfl
  | succ k ih =>
    simp only [Proto.Projection.operator] at ih ⊢
    simp only [Proto.Operator.drainLoop, Proto.Projection.next]
    cases hn : ops.next p.child with
    | error e => rfl
    | ok bc =>
      obtain ⟨b, c⟩ := bc
      cases b with
      | false => rfl
      | true =>
        simp only [ih]
        cases Proto.Operator.drainLoop ops k c with
        | none => rfl
        | some res =>
          cases res with
          | error e => rfl
          | ok rest => rfl

/-- C22: a projection above any child operator, in `operators.h` and in the prototype,
with an index list (duplicates allowed) whose indices are valid for every row the child
yields: when the child yields `rows` and then returns `false`, the projection yields
exactly one row for each of them, in the same order, and then returns `false`; the
output row for the child row `r` is the list of the cells of `r` at the requested
indices, in the order of the index list, so it is as long as the index list and its
`j`-th cell is the cell of `r` at the `j`-th requested index. -/
theorem C22_projection_rows {σ τ : Type} (ops : Operator σ) (p : Projection σ)
    (pops : Proto.Operator τ) (pp : Proto.Projection τ) (fuel : Nat)
    (rows : List Row) (prows : List Proto.Row)
    (hchild : Operator.drainLoop ops fuel p.child_ = some rows)
    (hvalid : ∀ r ∈ rows, ∀ i ∈ p.idxs_, 0 ≤ i ∧ i < (r.length : Int))
    (hpchild : Proto.Operator.drainLoop pops fuel pp.child = some (.ok prows))
    (hpvalid : ∀ r ∈ prows, ∀ i ∈ pp.colIdx, 0 ≤ i ∧ i < (r.values.length : Int)) :
    (Operator.drainLoop (Projection.operator ops) fuel p
        = some (rows.map (fun r => p.idxs_.map (fun i => r.getD i.toNat []))) ∧
      ∀ r ∈ rows, (p.idxs_.map (fun i => r.getD i.toNat [])).length = p.idxs_.length ∧
        ∀ j, j < p.idxs_.length →
          r[(p.idxs_.getD j 0).toNat]?
            = some ((p.idxs_.map (fun i => r.getD i.toNat [])).getD j [])) ∧
    (Proto.Operator.drainLoop (Proto.Projection.operator pops) fuel pp
        = some (.ok (prows.map (fun r => Proto.Row.mk (pp.colIdx.map
            (fun i => r.values.getD i.toNat (Proto.Value.ofInt 0)))))) ∧
      ∀ r ∈ prows,
        (pp.colIdx.map (fun i => r.values.getD i.toNat (Proto.Value.ofInt 0))).length
          = pp.colIdx.length ∧
        ∀ j, j < pp.colIdx.length →
          r.values[(pp.colIdx.getD j 0).toNat]?
            = some ((pp.colIdx.map
                (fun i => r.values.getD i.toNat (Proto.Value.ofInt 0))).getD j
                  (Proto.Value.ofInt 0))) := by
  refine ⟨⟨?_, ?_⟩, ?_, ?_⟩
  · rw [Projection.drainLoop_map, hchild]
    simp only [Option.map_some', Option.some.injEq]
    apply List.map_congr_left
    intro r hr
    apply List.map_congr_left
    intro i hi
    rw [if_pos (hvalid r hr i hi)]
  · intro r hr
    refine ⟨List.length_map _ _, ?_⟩
    intro j hj
    have hmem : p.idxs_.getD j 0 ∈ p.idxs_ := by
      rw [List.getD_eq_getElem _ _ hj]
      exact List.getElem_mem hj
    obtain ⟨h0, h1⟩ := hvalid r hr _ hmem
    have hlt : (p.idxs_.getD j 0).toNat < r.length := by omega
    have e2 : (p.idxs_.map (fun i => r.getD i.toNat [])).getD j []
        = r.getD (p.idxs_.getD j 0).toNat [] := by
      rw [List.getD_eq_getElem _ _ (by rw [List.length_map]; exact hj), List.getElem_map,
        List.getD_eq_getElem _ _ hj]
    rw [e2, List.getElem?_eq_getElem hlt, List.getD_eq_getElem _ _ hlt]
  · rw [Proto.Projection.drainLoop_map_proto, hpchild]
    rfl
  · intro r hr
    refine ⟨List.length_map _ _, ?_⟩
    intro j hj
    have hmem : pp.colIdx.getD j 0 ∈ pp.colIdx := by
      rw [List.getD_eq_getElem _ _ hj]
      exact List.getElem_mem hj
    obtain ⟨h0, h1⟩ := hpvalid r hr _ hmem
    have hlt : (pp.colIdx.getD j 0).toNat < r.values.length := by omega
    have e2 : (pp.colIdx.map (fun i => r.values.getD i.toNat (Proto.Value.ofInt 0))).getD j
        (Proto.Value.ofInt 0) = r.values.getD (pp.colIdx.getD j 0).toNat (Proto.Value.ofInt 0) := by
      rw [List.getD_eq_getElem _ _ (by rw [List.length_map]; exact hj), List.getElem_map,
        List.getD_eq_getElem _ _ hj]
    rw [e2, List.getElem?_eq_getElem hlt, List.getD_eq_getElem _ _ hlt]

/-- Witness for C22: the index list `[1, 0, 1]` above the filter `age > 20` on
`students` yields (22, Omar, 22) and (25, Sara, 25), in `operators.h` and in the
prototype. -/
theorem C22_projection_rows_witness :
    Operator.drainLoop (Projection.operator Filter.operator) 5
        (Projection.new studentsOver20 [1, 0, 1])
      = some [["22".toList, "Omar".toList, "22".toList],
          ["25".toList, "Sara".toList, "25".toList]] ∧
    Proto.Operator.drainLoop (Proto.Projection.operator Proto.Filter.operator) 5
        { child := Proto.studentsOver20, colIdx := [1, 0, 1], current := { values := [] } }
      = some (.ok [
          { values := [Proto.Value.ofInt 22, Proto.Value.ofString "Omar".toList,
              Proto.Value.ofInt 22] },
          { values := [Proto.Value.ofInt 25, Proto.Value.ofString "Sara".toList,
              Proto.Value.ofInt 25] }]) := by
  have h := C22_projection_rows Filter.operator (Projection.new studentsOver20 [1, 0, 1])
    Proto.Filter.operator
    { child := Proto.studentsOver20, colIdx := [1, 0, 1], current := { values := [] } } 5
    [["Omar".toList, "22".toList], ["Sara".toList, "25".toList]]
    [{ values := [Proto.Value.ofString "Omar".toList, Proto.Value.ofInt 22] },
     { values := [Proto.Value.ofString "Sara".toList, Proto.Value.ofInt 25] }]
    (by decide) (by decide) (by decide) (by decide)
  exact ⟨h.1.1.trans (by decide), h.2.1.trans (by decide)⟩

/-- The update operator above a prototype scan that stands just before the rows `rest`
(the rows `done` are behind the cursor): with more passes allowed than rows left, the
call returns `false`, every row of `rest` has the new value at the target index and the
rows of `done` are as they were. -/
theorem Proto.UpdateOperator.next_scan (t : Proto.Table) (ti : Int) (nv : Proto.Value)
    (rest : List Proto.Row) :
    ∀ (done : List Proto.Row) (fuel : Nat), rest.length < fuel →
      Proto.UpdateOperator.next Proto.TableScan.operator fuel
          { child := { table := { t with rows := done ++ rest }, idx := (done.length : Int) - 1 }
            targetIdx := ti
            newVal := nv }
        = some (.ok (false,
          { child :=
              { table :=
                  { t with
                    rows := done ++ rest.map (fun r => Proto.Row.mk (r.values.set ti.toNat nv)) }
                idx := ((done.length + rest.length : Nat) : Int) }
            targetIdx := ti
            newVal := nv })) := by
  induction rest with
  | nil =>
    intro done fuel hfuel
    obtain ⟨k, rfl⟩ : ∃ k, fuel = k + 1 := ⟨fuel - 1, by simp at hfuel; omega⟩
    simp [Proto.UpdateOperator.next, Proto.TableScan.operator, Proto.TableScan.next]
  | cons r rest ih =>
    intro done fuel hfuel
    obtain ⟨k, rfl⟩ : ∃ k, fuel = k + 1 := ⟨fuel - 1, by simp at hfuel; omega⟩
    have hk : rest.length < k := by simp at hfuel; omega
    have h1 := ih (done ++ [Proto.Row.mk (r.values.set ti.toNat nv)]) k hk
    have hcast : (done.length : Int) - 1 + 1 = (done.length : Int) := by ring
    have hn : Proto.TableScan.operator.next
        { table := { t with rows := done ++ r :: rest }, idx := (done.length : Int) - 1 }
        = .ok (true,
          { table := { t with rows := done ++ r :: rest }, idx := (done.length : Int) }) := by
      simp only [Proto.TableScan.operator, Proto.TableScan.next, hcast, List.length_append,
        List.length_cons]
      have : ((done.length : Int) < ((done.length + (rest.length + 1) : Nat) : Int)) := by
        omega
      simp only [this, decide_True]
    have hget : Proto.TableScan.operator.getRow
        { table := { t with rows := done ++ r :: rest }, idx := (done.length : Int) } = r := by
      simp only [Proto.TableScan.operator, Proto.TableScan.getRow, Int.toNat_ofNat]
      rw [List.getD_eq_getElem?_getD, List.getElem?_append_right (le_refl _)]
      simp
    have hupd : Proto.TableScan.operator.updateRow
        { table := { t with rows := done ++ r :: rest }, idx := (done.length : Int) }
        (Proto.Row.mk (r.values.set ti.toNat nv))
        = { table :=
              { t with rows := (done ++ [Proto.Row.mk (r.values.set ti.toNat nv)]) ++ rest }
            idx := ((done ++ [Proto.Row.mk (r.values.set ti.toNat nv)]).length : Int) - 1 } := by
      simp only [Proto.TableScan.operator, Proto.TableScan.updateRow, Int.toNat_ofNat]
      rw [List.set_append_right _ _ (le_refl _)]
      simp
    rw [Proto.UpdateOperator.next]
    simp only [hn, hget, hupd, h1]
    simp only [List.map_cons, List.append_assoc, List.singleton_append, List.length_append,
      List.length_cons, List.length_singleton]
    have e : done.length + (([] : List Proto.Row).length + 1) + rest.length
        = done.length + (rest.length + 1) := by
      simp only [List.length_nil]; omega
    rw [e]

/-- One call of the loop of the prototype filter on a scan that stands just before the
rows `rest`, none of which makes `stoi` throw: either it stops at the first accepted row
`r`, with the rejected rows `pre` before it, or it rejects every row and returns `false`.
The table is not changed. -/
theorem Proto.Filter.nextLoop_rows (t : Proto.Table) (colIdx : Int) (op val : Str)
    (rest : List Proto.Row) :
    ∀ (done : List Proto.Row) (k : Nat) (cur : Proto.Row), rest.length < k →
      (∀ r ∈ rest, ∃ b, Proto.Filter.accepts colIdx op val r = .ok b) →
      (∃ pre r post, rest = pre ++ r :: post ∧
        (∀ x ∈ pre, Proto.Filter.accepts colIdx op val x = .ok false) ∧
        Proto.Filter.accepts colIdx op val r = .ok true ∧
        Proto.Filter.nextLoop k
            { child := { table := { t with rows := done ++ rest }, idx := (done.length : Int) - 1 }
              colIdx := colIdx, op := op, val := val, current := cur }
          = .ok (true,
            { child :=
                { table := { t with rows := done ++ rest }
                  idx := ((done.length + pre.length : Nat) : Int) }
              colIdx := colIdx, op := op, val := val, current := r })) ∨
      ((∀ x ∈ rest, Proto.Filter.accepts colIdx op val x = .ok false) ∧
        Proto.Filter.nextLoop k
            { child := { table := { t with rows := done ++ rest }, idx := (done.length : Int) - 1 }
              colIdx := colIdx, op := op, val := val, current := cur }
          = .ok (false,
            { child :=
                { table := { t with rows := done ++ rest }
                  idx := ((done.length + rest.length : Nat) : Int) }
              colIdx := colIdx, op := op, val := val, current := cur })) := by
  induction rest with
  | nil =>
    intro done k cur hk _
    obtain ⟨k, rfl⟩ : ∃ j, k = j + 1 := ⟨k - 1, by simp at hk; omega⟩
    right
    refine ⟨by simp, ?_⟩
    have hcast : (done.length : Int) - 1 + 1 = (done.length : Int) := by ring
    simp [Proto.Filter.nextLoop, Proto.TableScan.next, hcast]
  | cons r rest ih =>
    intro done k cur hk hok
    obtain ⟨k, rfl⟩ : ∃ j, k = j + 1 := ⟨k - 1, by simp at hk; omega⟩
    have hk1 : rest.length < k := by simp at hk; omega
    have hcast : (done.length : Int) - 1 + 1 = (done.length : Int) := by ring
    have hn : Proto.TableScan.next
        { table := { t with rows := done ++ r :: rest }, idx := (done.length : Int) - 1 }
        = (true,
          { table := { t with rows := done ++ r :: rest }, idx := (done.length : Int) }) := by
      simp only [Proto.TableScan.next, hcast, List.length_append, List.length_cons]
      have : ((done.length : Int) < ((done.length + (rest.length + 1) : Nat) : Int)) := by
        omega
      simp only [this, decide_True]
    have hget : Proto.TableScan.getRow
        { table := { t with rows := done ++ r :: rest }, idx := (done.length : Int) } = r := by
      simp only [Proto.TableScan.getRow, Int.toNat_ofNat]
      rw [List.getD_eq_getElem?_getD, List.getElem?_append_right (le_refl _)]
      simp
    obtain ⟨b, hb⟩ := hok r (List.mem_cons_self _ _)
    rw [Proto.Filter.nextLoop]
    simp only [hn, hget, hb]
    cases b with
    | true =>
      left
      exact ⟨[], r, rest, rfl, by simp, hb, by simp⟩
    | false =>
      have hrows : done ++ r :: rest = (done ++ [r]) ++ rest := by simp
      have hidx : (done.length : Int) = ((done ++ [r]).length : Int) - 1 := by
        simp only [List.length_append, List.length_singleton]; push_cast; ring
      have h1 := ih (done ++ [r]) k cur hk1 (fun x hx => hok x (List.mem_cons_of_mem _ hx))
      simp only
      rw [hrows, hidx]
      rcases h1 with ⟨pre, r1, post, hsplit, hpre, hr1, hres⟩ | ⟨hall, hres⟩
      · left
        refine ⟨r :: pre, r1, post, by rw [hsplit]; rfl, ?_, hr1, ?_⟩
        · intro x hx
          rcases List.mem_cons.mp hx with hx | hx
          · rw [hx]; exact hb
          · exact hpre x hx
        · rw [hres]
          have e : (done ++ [r]).length + pre.length = done.length + (r :: pre).length := by
            simp only [List.length_append, List.length_cons, List.length_nil]; omega
          rw [e]
      · right
        refine ⟨?_, ?_⟩
        · intro x hx
          rcases List.mem_cons.mp hx with hx | hx
          · rw [hx]; exact hb
          · exact hall x hx
        · rw [hres]
          have e : (done ++ [r]).length + rest.length = done.length + (r :: rest).length := by
            simp only [List.length_append, List.length_cons, List.length_nil]; omega
          rw [e]

/-- The update operator above a prototype filter whose scan stands just before the rows
`rest`, none of which makes `stoi` throw: with more passes allowed than rows left, the
call returns `false`; the rows of `rest` that the filter accepts have the new value at
the target index, every other row is as it was. -/
theorem Proto.UpdateOperator.next_filter (t : Proto.Table) (colIdx : Int) (op val : Str)
    (ti : Int) (nv : Proto.Value) :
    ∀ (fuel : Nat) (done rest : List Proto.Row) (cur : Proto.Row), rest.length < fuel →
      (∀ r ∈ rest, ∃ b, Proto.Filter.accepts colIdx op val r = .ok b) →
      ∃ cur1, Proto.UpdateOperator.next Proto.Filter.operator fuel
          { child :=
              { child := { table := { t with rows := done ++ rest }, idx := (done.length : Int) - 1 }
                colIdx := colIdx, op := op, val := val, current := cur }
            targetIdx := ti
            newVal := nv }
        = some (.ok (false,
          { child :=
              { child :=
                  { table :=
                      { t with
                        rows := done ++ rest.map (fun r =>
                          if Proto.Filter.accepts colIdx op val r = .ok true
                          then Proto.Row.mk (r.values.set ti.toNat nv) else r) }
                    idx := ((done.length + rest.length : Nat) : Int) }
                colIdx := colIdx, op := op, val := val, current := cur1 }
            targetIdx := ti
            newVal := nv })) := by
  intro fuel
  induction fuel with
  | zero => intro done rest cur h; exact absurd h (Nat.not_lt_zero _)
  | succ k ih =>
    intro done rest cur hfuel hok
    have hcast : (done.length : Int) - 1 + 1 = (done.length : Int) := by ring
    have hnext : Proto.Filter.operator.next
        { child := { table := { t with rows := done ++ rest }, idx := (done.length : Int) - 1 }
          colIdx := colIdx, op := op, val := val, current := cur }
        = Proto.Filter.nextLoop (rest.length + 1)
          { child := { table := { t with rows := done ++ rest }, idx := (done.length : Int) - 1 }
            colIdx := colIdx, op := op, val := val, current := cur } := by
      simp only [Proto.Filter.operator, Proto.Filter.next, hcast, Int.toNat_ofNat,
        List.length_append, Nat.add_sub_cancel_left]
    rw [Proto.UpdateOperator.next, hnext]
    rcases Proto.Filter.nextLoop_rows t colIdx op val rest done (rest.length + 1) cur
        (Nat.lt_succ_self _) hok with ⟨pre, r, post, hsplit, hpre, hr, hres⟩ | ⟨hall, hres⟩
    · rw [hres]
      simp only
      have hlen : rest.length = pre.length + (post.length + 1) := by
        rw [hsplit]; simp only [List.length_append, List.length_cons]
      have hpost : post.length < k := by omega
      have hupd : Proto.Filter.operator.updateRow
          { child :=
              { table := { t with rows := done ++ rest }
                idx := ((done.length + pre.length : Nat) : Int) }
            colIdx := colIdx, op := op, val := val, current := r }
          (Proto.Row.mk
            ((Proto.Filter.operator.getRow
              { child :=
                  { table := { t with rows := done ++ rest }
                    idx := ((done.length + pre.length : Nat) : Int) }
                colIdx := colIdx, op := op, val := val, current := r }).values.set ti.toNat nv))
          = { child :=
                { table :=
                    { t with
                      rows := (done ++ pre ++ [Proto.Row.mk (r.values.set ti.toNat nv)]) ++ post }
                  idx := ((done ++ pre ++ [Proto.Row.mk (r.values.set ti.toNat nv)]).length
                    : Int) - 1 }
              colIdx := colIdx, op := op, val := val, current := r } := by
        simp only [Proto.Filter.operator, Proto.Filter.updateRow, Proto.Filter.getRow,
          Proto.TableScan.updateRow, Int.toNat_ofNat, hsplit]
        have hset : (done ++ (pre ++ r :: post)).set (done.length + pre.length)
            (Proto.Row.mk (r.values.set ti.toNat nv))
            = (done ++ pre ++ [Proto.Row.mk (r.values.set ti.toNat nv)]) ++ post := by
          rw [← List.append_assoc, ← List.length_append,
            List.set_append_right _ _ (le_refl _)]
          simp
        rw [hset]
        have hidx : ((done.length + pre.length : Nat) : Int)
            = ((done ++ pre ++ [Proto.Row.mk (r.values.set ti.toNat nv)]).length : Int) - 1 := by
          simp only [List.length_append, List.length_cons, List.length_nil]; push_cast; ring
        rw [hidx]
      rw [hupd]
      obtain ⟨cur1, h1⟩ := ih (done ++ pre ++ [Proto.Row.mk (r.values.set ti.toNat nv)]) post r
        hpost (fun x hx => hok x (by rw [hsplit]; simp [hx]))
      refine ⟨cur1, ?_⟩
      rw [h1]
      have hpremap : pre.map (fun r =>
          if Proto.Filter.accepts colIdx op val r = .ok true
          then Proto.Row.mk (r.values.set ti.toNat nv) else r) = pre := by
        have : ∀ x ∈ pre, (fun r =>
            if Proto.Filter.accepts colIdx op val r = .ok true
            then Proto.Row.mk (r.values.set ti.toNat nv) else r) x = id x := by
          intro x hx
          simp only [hpre x hx, id]
          rfl
        rw [List.map_congr_left this, List.map_id]
      have e : (done ++ pre ++ [Proto.Row.mk (r.values.set ti.toNat nv)]).length + post.length
          = done.length + rest.length := by
        simp only [List.length_append, List.length_cons, List.length_nil]; omega
      rw [e, hsplit, List.map_append, List.map_cons, hpremap, if_pos hr]
      simp only [List.append_assoc, List.singleton_append]
    · rw [hres]
      refine ⟨cur, ?_⟩
      have hmap : rest.map (fun r =>
          if Proto.Filter.accepts colIdx op val r = .ok true
          then Proto.Row.mk (r.values.set ti.toNat nv) else r) = rest := by
        have : ∀ x ∈ rest, (fun r =>
            if Proto.Filter.accepts colIdx op val r = .ok true
            then Proto.Row.mk (r.values.set ti.toNat nv) else r) x = id x := by
          intro x hx
          simp only [hall x hx, id]
          rfl
        rw [List.map_congr_left this, List.map_id]
      rw [hmap]

/-- C23 (counterexample): the update operator `age := 30` above the prototype filter
`age > abc` on `students`. The first call of `next()` does not return `false`: it ends
in the `invalid_argument` of `stoi("abc")`, thrown by the filter on the first row. -/
theorem C23_update_over_throwing_filter_counterexample :
    Proto.UpdateOperator.next Proto.Filter.operator 5
        { child :=
            { child := { table := Proto.students, idx := -1 }
              colIdx := 1, op := ">".toList, val := "abc".toList, current := { values := [] } }
          targetIdx := 1
          newVal := Proto.Value.ofInt 30 }
      = some (.error .invalid_argument) := by
  decide

/-- C23 (amended): the update operator of the prototype above an opened scan, and above
an opened filter on a scan whose test throws on no row of the table. With `fuel` passes
allowed, more than the table has rows, the first call of `next()` returns `false`;
`getRow()` is the empty row; afterwards the table has the same name and columns, and its
rows are the original rows, in order, where each row the child yielded (every row for
the scan, the accepted rows for the filter) has the new value at the target index: that
cell is the new value and every other cell is as before. The target and filter indices
are inside every row. -/
theorem C23_update_operator (t : Proto.Table) (idx0 : Int) (colIdx : Nat) (op val : Str)
    (cur : Proto.Row) (ti : Nat) (nv : Proto.Value) (fuel : Nat)
    (hfuel : t.rows.length < fuel)
    (hidx : ∀ r ∈ t.rows, ti < r.values.length ∧ colIdx < r.values.length)
    (hok : ∀ r ∈ t.rows, ∃ b, Proto.Filter.accepts colIdx op val r = .ok b) :
    (∃ u, Proto.UpdateOperator.next Proto.TableScan.operator fuel
          { child := (Proto.TableScan.mk t idx0).open, targetIdx := ti, newVal := nv }
        = some (.ok (false, u)) ∧
      u.getRow = { values := [] } ∧
      u.child.table
        = { t with rows := t.rows.map (fun r => Proto.Row.mk (r.values.set ti nv)) }) ∧
    (∃ u, Proto.UpdateOperator.next Proto.Filter.operator fuel
          { child := (Proto.Filter.mk (Proto.TableScan.mk t idx0) colIdx op val cur).open
            targetIdx := ti
            newVal := nv }
        = some (.ok (false, u)) ∧
      u.getRow = { values := [] } ∧
      u.child.child.table
        = { t with
            rows := t.rows.map (fun r =>
              if Proto.Filter.accepts colIdx op val r = .ok true
              then Proto.Row.mk (r.values.set ti nv) else r) }) ∧
    (∀ r ∈ t.rows, (r.values.set ti nv)[ti]? = some nv ∧
      ∀ j, j ≠ ti → (r.values.set ti nv)[j]? = r.values[j]?) := by
  refine ⟨?_, ?_, ?_⟩
  · have h := Proto.UpdateOperator.next_scan t ti nv t.rows [] fuel hfuel
    simp only [List.nil_append, List.length_nil, Int.toNat_ofNat] at h
    exact ⟨_, h, rfl, rfl⟩
  · obtain ⟨cur1, h⟩ := Proto.UpdateOperator.next_filter t colIdx op val ti nv fuel []
      t.rows cur hfuel hok
    simp only [List.nil_append, List.length_nil, Int.toNat_ofNat] at h
    exact ⟨_, h, rfl, rfl⟩
  · intro r hr
    refine ⟨?_, ?_⟩
    · exact List.getElem?_set_self (hidx r hr).1
    · intro j hj
      exact List.getElem?_set_ne (Ne.symm hj)

/-- Witness for C23 (amended): step 4 of `main` in `Source.cpp`, `age := 30` above the
filter `name = Sara` on `students`: the call returns `false` and the row of Sara holds
30, the other rows are as before. -/
theorem C23_update_operator_witness :
    ∃ u, Proto.UpdateOperator.next Proto.Filter.operator 5
          { child := (Proto.Filter.mk (Proto.TableScan.mk Proto.students 3) 0 "=".toList
              "Sara".toList { values := [] }).open
            targetIdx := 1
            newVal := Proto.Value.ofInt 30 }
        = some (.ok (false, u)) ∧
      u.child.child.table.rows =
        [{ values := [Proto.Value.ofString "Ali".toList, Proto.Value.ofInt 18] },
         { values := [Proto.Value.ofString "Omar".toList, Proto.Value.ofInt 22] },
         { values := [Proto.Value.ofString "Sara".toList, Proto.Value.ofInt 30] },
         { values := [Proto.Value.ofString "Mona".toList, Proto.Value.ofInt 19] }] := by
  obtain ⟨u, h1, _, h2⟩ := (C23_update_operator Proto.students 3 0 "=".toList "Sara".toList
    { values := [] } 1 (Proto.Value.ofInt 30) 5 (by decide) (by decide) (by decide)).2.1
  exact ⟨u, h1, by rw [h2]; decide⟩

/-- The accumulator loop of `splitOn` never gives the empty list. -/
theorem splitOnP_go_ne_nil (p : Char → Bool) (xs acc : List Char) :
    List.splitOnP.go p xs acc ≠ [] := by
  induction xs generalizing acc with
  | nil => simp [List.splitOnP.go]
  | cons x xs ih =>
    simp only [List.splitOnP.go]
    split
    · simp
    · exact ih _

/-- The character loop of `load()` gives the comma-separated fields collected so far,
without an empty field after the last comma. -/
theorem splitFieldsAux_eq (rest : Str) :
    ∀ (cur : Str) (fields : List Str),
      splitFieldsAux rest cur fields
        = fields ++
          (if (List.splitOnP.go (fun c => c == ',') rest cur.reverse).getLast? = some []
            then (List.splitOnP.go (fun c => c == ',') rest cur.reverse).dropLast
            else List.splitOnP.go (fun c => c == ',') rest cur.reverse) := by
  induction rest with
  | nil =>
    intro cur fields
    cases cur with
    | nil => simp [splitFieldsAux, List.splitOnP.go]
    | cons c cs => simp [splitFieldsAux, List.splitOnP.go]
  | cons ch rest ih =>
    intro cur fields
    by_cases hch : ch = ','
    · subst hch
      have hne := splitOnP_go_ne_nil (fun c => c == ',') rest []
      simp only [splitFieldsAux, if_true, ih, List.splitOnP.go, beq_self_eq_true,
        List.reverse_reverse, List.reverse_nil, List.append_assoc, List.singleton_append]
      obtain ⟨y, ys, hy⟩ := List.exists_cons_of_ne_nil hne
      rw [hy]
      simp only [List.getLast?_cons_cons, List.dropLast_cons₂]
      split <;> rfl
    · have hb : (ch == ',') = false := by simpa using hch
      simp only [splitFieldsAux, if_neg hch, ih, List.splitOnP.go, hb, List.reverse_append,
        List.reverse_cons, List.reverse_nil, List.nil_append, List.singleton_append]
      simp

/-- The fields `load()` counts on a row line are the comma-separated fields without an
empty field after the last comma. -/
theorem splitFields_eq_countedFields (line : Str) : splitFields line = countedFields line := by
  have h := splitFieldsAux_eq line [] []
  simpa [splitFields, countedFields, commaFields, List.splitOn, List.splitOnP] using h

/-- The column loop of `load()` consumes exactly the header lines when there are as many
as the count says. -/
theorem loadColumns_lines (hdr rowLines : List Str) :
    ∀ (sch : TableSchema), ∃ sch1, loadColumns hdr.length (hdr ++ rowLines) sch
      = (sch1, some rowLines) := by
  induction hdr with
  | nil => intro sch; exact ⟨sch, rfl⟩
  | cons h hdr ih =>
    intro sch
    simp only [List.length_cons, List.cons_append, loadColumns]
    exact ih _

/-- One pass of the row loop of `load()`, in terms of the comma-separated fields. -/
theorem loadRow_eq (N : Nat) (line : Str) :
    loadRow (N : Int) line
      = if line = [] then none
        else if 1 + N ≤ (countedFields line).length
          then some (((commaFields line).drop 1).take N) else none := by
  unfold loadRow
  rw [splitFields_eq_countedFields]
  by_cases hl : line = []
  · simp [hl]
  · have hl1 : line.isEmpty = false := by
      cases line with
      | nil => exact absurd rfl hl
      | cons c cs => rfl
    simp only [hl1, Bool.false_eq_true, if_false, if_neg hl, Int.toNat_ofNat]
    by_cases hlen : 1 + N ≤ (countedFields line).length
    · have hlen1 : ((countedFields line).length : Int) ≥ 1 + (N : Int) := by omega
      rw [if_pos hlen1, if_pos hlen]
      congr 1
      unfold countedFields at hlen ⊢
      by_cases hlast : (commaFields line).getLast? = some []
      · rw [if_pos hlast] at hlen ⊢
        rw [List.dropLast_eq_take, List.drop_take, List.take_take]
        rw [List.dropLast_eq_take, List.length_take] at hlen
        congr 1
        omega
      · rw [if_neg hlast]
    · have hlen1 : ¬ ((countedFields line).length : Int) ≥ 1 + (N : Int) := by omega
      rw [if_neg hlen1, if_neg hlen]

/-- C24 (counterexample): in a file with a two-column header, the row line `1,a,` has
the three comma-separated fields `1`, `a` and the empty field, that is `1 + 2` of them,
yet `load()` reads the header and produces no row for the line. -/
theorem C24_trailing_comma_line_counterexample :
    commaFields "1,a,".toList = ["1".toList, "a".toList, []] ∧
    1 + 2 ≤ (commaFields "1,a,".toList).length ∧
    ((TableDynamic.new "t".toList).load (Disk.ofFiles [("./db/t.txt".toList, trailingCommaFile)])).schema_
      = { names := ["name".toList, "age".toList], types := ["STRING".toList, "INT".toList] } ∧
    ((TableDynamic.new "t".toList).load (Disk.ofFiles [("./db/t.txt".toList, trailingCommaFile)])).rows_
      = [] := by
  decide

/-- C24 (amended): for a table file that starts with the count `N`, followed by `N`
header lines `hdr` and the row lines `rowLines`, the rows `load()` produces are, in file
order, one row for each row line that is not blank and has at least `1 + N`
comma-separated fields, not counting an empty field after the last comma; the row is the
`N` fields after the leading row number. Blank lines and lines with fewer such fields
produce no row. -/
theorem C24_load_rows (t : TableDynamic) (d : Disk) (text rest countLine : Str) (N : Nat)
    (hdr rowLines : List Str)
    (hread : d.read t.filepath = some text)
    (hcount : readInt text = some ((N : Int), rest))
    (hlines : getlines rest = countLine :: (hdr ++ rowLines))
    (hhdr : hdr.length = N) :
    (t.load d).rows_ = rowLines.filterMap (fun line =>
      if line = [] then none
      else if 1 + N ≤ (countedFields line).length
        then some (((commaFields line).drop 1).take N) else none) := by
  obtain ⟨sch1, hcols⟩ := loadColumns_lines hdr rowLines { names := [], types := [] }
  rw [hhdr] at hcols
  unfold TableDynamic.load
  simp only [hread, hcount, hlines, List.drop_succ_cons, List.drop_zero, Int.toNat_ofNat,
    hcols]
  apply List.filterMap_congr
  intro line _
  exact loadRow_eq N line

/-- Witness for C24 (amended): of the five row lines of the example file, the full line
and the line with one field too many give the rows (Ali, 18) and (Sara, 25); the blank
line, the short line and the line `4,z,` give none. -/
theorem C24_load_rows_witness :
    ((TableDynamic.new "t".toList).load (Disk.ofFiles [("./db/t.txt".toList, mixedRowsFile)])).rows_
      = [["Ali".toList, "18".toList], ["Sara".toList, "25".toList]] :=
  (C24_load_rows (TableDynamic.new "t".toList) (Disk.ofFiles [("./db/t.txt".toList, mixedRowsFile)])
    mixedRowsFile "\nname STRING\nage INT\n1,Ali,18\n\n2,Omar\n3,Sara,25,x\n4,z,\n".toList
    [] 2 ["name STRING".toList, "age INT".toList]
    ["1,Ali,18".toList, [], "2,Omar".toList, "3,Sara,25,x".toList, "4,z,".toList]
    (by decide) (by decide) (by decide) (by decide)).trans (by decide)

/-- A token read inside the vector gives the token. -/
theorem tokenAt_lt (t : List Str) (i : Nat) (h : i < t.length) :
    tokenAt t i = .ok (t.getD i []) := by
  unfold tokenAt
  rw [List.getElem?_eq_getElem h, List.getD_eq_getElem _ _ h]

/-- `parseUpdate` guards the reads after `WHERE`: when the `WHERE` at index 6 is followed
by fewer than three tokens, no token is read past the end and `valid_` is not set. -/
theorem Parse.parseUpdate_where_short (p : Parse) (t : List Str) (h6 : 6 < t.length)
    (hw : toUpper (t.getD 6 []) = "WHERE".toList) (h10 : t.length < 10) :
    ∃ q, Parse.parseUpdate p t = .ok q ∧ q.valid_ = p.valid_ := by
  have e1 := tokenAt_lt t 1 (by omega)
  have e2 := tokenAt_lt t 2 (by omega)
  have e3 := tokenAt_lt t 3 (by omega)
  have e4 := tokenAt_lt t 4 (by omega)
  have e5 := tokenAt_lt t 5 (by omega)
  have e6 := tokenAt_lt t 6 (by omega)
  have c1 : ¬ t.length < 5 := by omega
  have c2 : ¬ t.length < 6 := by omega
  have c3 : t.length > 6 := by omega
  have c4 : ¬ t.length ≥ 10 := by omega
  simp only [Parse.parseUpdate, e1, e2, e3, e4, e5, e6, bind, Except.bind, pure, Except.pure,
    hw, c1, c2, c3, c4, if_true, if_false]
  split_ifs <;> exact ⟨_, rfl, rfl⟩

/-- `parseSelect` guards the reads after `WHERE`: when the `WHERE` right after the table
name is followed by fewer than three tokens, no token is read past the end and `valid_`
is not set. -/
theorem Parse.parseSelect_where_short (p : Parse) (t : List Str) (from_ : Nat)
    (hfrom : findToken t 1 (fun s => toUpper s = "FROM".toList) = some from_)
    (h2 : from_ + 2 < t.length)
    (hw : toUpper (t.getD (from_ + 2) []) = "WHERE".toList) (h5 : t.length < from_ + 6) :
    ∃ q, Parse.parseSelect p t = .ok q ∧ q.valid_ = p.valid_ := by
  have hge : 1 ≤ from_ := by
    have h := List.find?_some hfrom
    simp only [Bool.and_eq_true, decide_eq_true_eq] at h
    exact h.1
  have e1 := tokenAt_lt t (from_ + 1) (by omega)
  have e2 := tokenAt_lt t (from_ + 2) (by omega)
  have c1 : ¬ t.length < 4 := by omega
  have c2 : ¬ from_ + 1 ≥ t.length := by omega
  have c4 : ¬ from_ + 5 + 1 ≤ t.length := by omega
  simp only [Parse.parseSelect, hfrom, e1, e2, bind, Except.bind, pure, Except.pure,
    hw, c1, c2, h2, c4, if_true, if_false]
  exact ⟨_, rfl, rfl⟩

/-- C27 (the code at the failing input): `DELETE FROM t WHERE age <` has six tokens, the
`WHERE` being followed by two. `parseDelete` tests `t.size() >= 6` and then reads `t[6]`,
one past the end of the vector, for this text and for every vector of six tokens with
`FROM` and `WHERE` in place; the source then sets `valid_`. The same clause is handled
as the claim says by `parseUpdate` and `parseSelect` (no read past the end, descriptor
not valid), and by `parseDelete` when only one token follows `WHERE`. -/
theorem C27_parseDelete_reads_past_end :
    Parse.tokenize "DELETE FROM t WHERE age <".toList
      = ["DELETE".toList, "FROM".toList, "t".toList, "WHERE".toList, "age".toList,
          "<".toList] ∧
    Parse.parse "DELETE FROM t WHERE age <".toList = .error { index := 6, size := 6 } ∧
    (∀ (p : Parse) (x t a b : Str),
      Parse.parseDelete p [x, "FROM".toList, t, "WHERE".toList, a, b]
        = .error { index := 6, size := 6 }) ∧
    (Parse.parse "UPDATE t SET age = 30 WHERE name =".toList).map (fun p => p.valid_)
      = .ok false ∧
    (Parse.parse "SELECT * FROM t WHERE name =".toList).map (fun p => p.valid_)
      = .ok false ∧
    (Parse.parse "DELETE FROM t WHERE age".toList).map (fun p => p.valid_) = .ok false := by
  refine ⟨by decide, by decide, ?_, by decide, by decide, by decide⟩
  intro p x t a b
  rfl

/-- C26 (the code at the failing input): the four input lines `CREATE TABLE t (name
STRING, age INT)`, `INSERT INTO t VALUES (a,5)`, `UPDATE t SET name = ,` and `DELETE FROM
t WHERE name = zzz`. The parser accepts the token `,` as the SET literal; the UPDATE
stores it in the `STRING` column and saves the line `1,,,5`; the DELETE reloads the
table, and the row it reads is ("", ""): the cell of the `INT` column `age` is the empty
string, which is not a number string. -/
theorem C26_comma_literal_breaks_int_column :
    Parse.parse "UPDATE t SET name = ,".toList
      = .ok (Parse.update "t".toList "name".toList ",".toList [] [] []) ∧
    (runQueries (commaLiteralQueries.take 3) World.empty).map
        (fun w => (w.catalog.find? "t".toList, w.disk.read "./db/t.txt".toList))
      = .ok (some (peopleTable [[",".toList, "5".toList]]),
          some "2\nname STRING\nage INT\n1,,,5\n".toList) ∧
    (runQueries commaLiteralQueries World.empty).map
        (fun w => w.catalog.find? "t".toList)
      = .ok (some (peopleTable [[[], []]])) ∧
    (peopleTable [[[], []]]).schema_.types.getD 1 [] = "INT".toList ∧
    isNumberString [] = false := by
  refine ⟨?_, ?_, ?_, ?_, ?_⟩ <;> decide

/-- The column loop of `load()` keeps names and types equally many, and when it reads
all `k` lines it adds exactly `k` names. -/
theorem loadColumns_lengths (k : Nat) :
    ∀ (ls : List Str) (sch : TableSchema), sch.names.length = sch.types.length →
      (loadColumns k ls sch).1.names.length = (loadColumns k ls sch).1.types.length ∧
      ∀ rl, (loadColumns k ls sch).2 = some rl →
        (loadColumns k ls sch).1.names.length = sch.names.length + k := by
  induction k with
  | zero => intro ls sch h; exact ⟨h, fun _ _ => rfl⟩
  | succ k ih =>
    intro ls sch h
    cases ls with
    | nil => exact ⟨h, fun rl hrl => by simp [loadColumns] at hrl⟩
    | cons line ls =>
      simp only [loadColumns]
      obtain ⟨h1, h2⟩ := ih ls
        { names := sch.names ++ [toLower (readWord line).1]
          types := sch.types ++ [(readWord (readWord line).2).1] }
        (by simp only [List.length_append, List.length_singleton, h])
      refine ⟨h1, fun rl hrl => ?_⟩
      rw [h2 rl hrl]
      simp only [List.length_append, List.length_singleton]
      omega

/-- A row that the row loop of `load()` accepts has exactly `c` cells (none when `c` is
negative). -/
theorem loadRow_length (c : Int) (line : Str) (r : Row) (h : loadRow c line = some r) :
    r.length = c.toNat := by
  unfold loadRow at h
  split at h
  · exact absurd h (by simp)
  · simp only at h
    split at h
    · rename_i hlen
      have hr := Option.some.inj h
      rw [← hr, List.length_take, List.length_drop]
      omega
    · exact absurd h (by simp)

/-- After `load()` the schema has one type per name and every row has one cell per
column name, whatever the file holds, when the object had one type per name before. -/
theorem TableDynamic.load_rows_match (t : TableDynamic) (d : Disk)
    (h : t.schema_.names.length = t.schema_.types.length) :
    (t.load d).schema_.names.length = (t.load d).schema_.types.length ∧
    ∀ r ∈ (t.load d).rows_, r.length = (t.load d).schema_.names.length := by
  cases hread : d.read t.filepath with
  | none =>
    have e : t.load d = { t with rows_ := [] } := by
      simp only [TableDynamic.load, hread]
    rw [e]
    exact ⟨h, fun r hr => by simp at hr⟩
  | some text =>
    cases hint : readInt text with
    | none =>
      have e : t.load d = { t with rows_ := [] } := by
        simp only [TableDynamic.load, hread, hint]
      rw [e]
      exact ⟨h, fun r hr => by simp at hr⟩
    | some cr =>
      obtain ⟨c, rest⟩ := cr
      obtain ⟨h1, h2⟩ := loadColumns_lengths c.toNat ((getlines rest).drop 1)
        { names := [], types := [] } rfl
      cases hcols : loadColumns c.toNat ((getlines rest).drop 1) { names := [], types := [] } with
      | mk sch res =>
        rw [hcols] at h1 h2
        cases res with
        | none =>
          have e : t.load d = { t with rows_ := [], schema_ := sch } := by
            simp only [TableDynamic.load, hread, hint, hcols]
          rw [e]
          exact ⟨h1, fun r hr => by simp at hr⟩
        | some rowLines =>
          have e : t.load d
              = { t with schema_ := sch, rows_ := rowLines.filterMap (loadRow c) } := by
            simp only [TableDynamic.load, hread, hint, hcols]
          rw [e]
          refine ⟨h1, ?_⟩
          intro r hr
          have hn := h2 rowLines rfl
          simp only [List.length_nil, Nat.zero_add] at hn
          simp only [List.mem_filterMap] at hr
          obtain ⟨line, _, hline⟩ := hr
          have := loadRow_length c line r hline
          simp only at hn ⊢
          omega

/-- The row loop of UPDATE changes no row length. -/
theorem updateLoop_lengths (whereIdx : Int) (whereOp whereVal : Str) (targetIdx : Nat)
    (setVal : Str) (n : Nat) (k : Nat) :
    ∀ (r : Nat) (rows : List Row) (changed : Nat), (∀ row ∈ rows, row.length = n) →
      ∀ row ∈ (updateLoop whereIdx whereOp whereVal targetIdx setVal k r rows changed).1,
        row.length = n := by
  induction k with
  | zero => intro r rows changed h; exact h
  | succ k ih =>
    intro r rows changed h
    simp only [updateLoop]
    split
    · rename_i hr
      split
      · exact h
      · apply ih
        intro row hrow
        rcases List.mem_or_eq_of_mem_set hrow with hmem | heq
        · exact h row hmem
        · rw [heq, List.length_set]
          apply h
          rw [List.getD_eq_getElem _ _ hr]
          exact List.getElem_mem hr
      · exact ih _ _ _ h
    · exact h

/-- The row loop of DELETE keeps the schema, and its rows are rows of the table it
started from. -/
theorem deleteLoop_rows (whereIdx : Int) (whereOp whereVal : Str) (r : Nat) :
    ∀ (t : TableDynamic) (d : Disk) (removed : Nat),
      (deleteLoop whereIdx whereOp whereVal r t d removed).1.schema_ = t.schema_ ∧
      ∀ row ∈ (deleteLoop whereIdx whereOp whereVal r t d removed).1.rows_, row ∈ t.rows_ := by
  induction r with
  | zero => intro t d removed; exact ⟨rfl, fun _ h => h⟩
  | succ r ih =>
    intro t d removed
    cases hg : t.getRow (r : Int) with
    | error e =>
      simp only [deleteLoop, hg]
      exact ⟨trivial, fun _ h => h⟩
    | ok row =>
      cases hs : rowSelected whereIdx whereOp whereVal row with
      | error e =>
        simp only [deleteLoop, hg, hs]
        exact ⟨trivial, fun _ h => h⟩
      | ok b =>
        cases b with
        | false =>
          simp only [deleteLoop, hg, hs]
          exact ih t d removed
        | true =>
          simp only [deleteLoop, hg, hs]
          obtain ⟨h1, h2⟩ := ih (t.deleteRows row d).2.1 (t.deleteRows row d).2.2 (removed + 1)
          refine ⟨h1.trans (by rw [TableDynamic.deleteRows_eq]), fun x hx => ?_⟩
          have hx1 := h2 x hx
          rw [TableDynamic.deleteRows_eq] at hx1
          exact List.mem_of_mem_filter hx1

/-- A table found in the catalog is the table of one of its entries. -/
theorem Catalog.find?_mem (c : Catalog) (key : Str) (t : TableDynamic)
    (h : c.find? key = some t) : ∃ e ∈ c.tables_, e.2 = t := by
  unfold Catalog.find? at h
  cases hf : c.tables_.find? (fun e => e.1 = key) with
  | none => rw [hf] at h; exact absurd h (by simp)
  | some e =>
    rw [hf] at h
    exact ⟨e, List.mem_of_find?_eq_some hf, Option.some.inj h⟩

/-- A property of every table of the catalog still holds after `store`, when the stored
table has it. -/
theorem Catalog.store_all (P : TableDynamic → Prop) (c : Catalog) (key : Str)
    (t : TableDynamic) (hc : ∀ e ∈ c.tables_, P e.2) (ht : P t) :
    ∀ e ∈ (c.store key t).tables_, P e.2 := by
  intro e he
  simp only [Catalog.store, List.mem_map] at he
  obtain ⟨e0, he0, rfl⟩ := he
  split
  · exact ht
  · exact hc e0 he0

/-- A property of every table of the catalog still holds after `get`, when every table
loaded from a file by a new object has it. -/
theorem Catalog.get_all (P : TableDynamic → Prop) (c : Catalog) (d : Disk) (name : Str)
    (hc : ∀ e ∈ c.tables_, P e.2) (hload : ∀ key, P ((TableDynamic.new key).load d)) :
    ∀ e ∈ (c.get d name).2.tables_, P e.2 := by
  unfold Catalog.get
  simp only
  split
  · exact hc
  · split
    · intro e he
      rcases List.mem_cons.mp he with rfl | he
      · exact hload _
      · exact hc e he
    · exact hc

/-- The INSERT branch keeps a property of every table of the catalog, when loading and
appending a validated row keep it. -/
theorem executeInsert_all (P : TableDynamic → Prop) (p : Parse) (w : World)
    (hc : ∀ e ∈ w.catalog.tables_, P e.2)
    (hload : ∀ key, P ((TableDynamic.new key).load w.disk))
    (hins : ∀ t, P t → validateInsert t.schema_ p.vals_ = .ok () →
      P { t with rows_ := t.rows_ ++ [p.vals_] }) :
    ∀ e ∈ (executeInsert p w).1.catalog.tables_, P e.2 := by
  have hget := Catalog.get_all P w.catalog w.disk p.table_ hc hload
  unfold executeInsert
  simp only
  split
  · exact hc
  · cases hg : w.catalog.get w.disk p.table_ with
    | mk r c1 =>
      rw [hg] at hget
      cases r with
      | none => exact hget
      | some key =>
        simp only
        cases ht : c1.find? key with
        | none => exact hget
        | some t =>
          obtain ⟨e0, he0, rfl⟩ := Catalog.find?_mem c1 key t ht
          simp only
          cases hv : validateInsert e0.2.schema_ p.vals_ with
          | error err => exact hget
          | ok u =>
            exact Catalog.store_all P c1 key _ hget (hins e0.2 (hget e0 he0) hv)

/-- The SELECT branch keeps a property of every table of the catalog, when loading keeps
it. -/
theorem executeSelect_all (P : TableDynamic → Prop) (p : Parse) (w : World)
    (hc : ∀ e ∈ w.catalog.tables_, P e.2)
    (hload : ∀ key, P ((TableDynamic.new key).load w.disk))
    (hreload : ∀ t, P t → P (t.load w.disk)) :
    ∀ e ∈ (executeSelect p w).1.catalog.tables_, P e.2 := by
  have hget := Catalog.get_all P w.catalog w.disk p.table_ hc hload
  unfold executeSelect
  simp only
  split
  · exact hc
  · cases hg : w.catalog.get w.disk p.table_ with
    | mk r c1 =>
      rw [hg] at hget
      cases r with
      | none => exact hget
      | some key =>
        simp only
        cases ht : c1.find? key with
        | none => exact hget
        | some t =>
          obtain ⟨e0, he0, rfl⟩ := Catalog.find?_mem c1 key t ht
          have hst := Catalog.store_all P c1 key _ hget (hreload e0.2 (hget e0 he0))
          simp only
          repeat' split
          all_goals exact hst

/-- The UPDATE branch keeps a property of every table of the catalog, when loading and
the row loop keep it. -/
theorem executeUpdate_all (P : TableDynamic → Prop) (p : Parse) (w : World)
    (hc : ∀ e ∈ w.catalog.tables_, P e.2)
    (hload : ∀ key, P ((TableDynamic.new key).load w.disk))
    (hreload : ∀ t, P t → P (t.load w.disk))
    (hupd : ∀ t whereIdx op val targetIdx k r changed, P t →
      P { t with rows_ := (updateLoop whereIdx op val targetIdx p.setVal_ k r t.rows_ changed).1 }) :
    ∀ e ∈ (executeUpdate p w).1.catalog.tables_, P e.2 := by
  have hget := Catalog.get_all P w.catalog w.disk p.table_ hc hload
  unfold executeUpdate
  simp only
  split
  · exact hc
  · cases hg : w.catalog.get w.disk p.table_ with
    | mk r c1 =>
      rw [hg] at hget
      cases r with
      | none => exact hget
      | some key =>
        simp only
        cases ht : c1.find? key with
        | none => exact hget
        | some t =>
          obtain ⟨e0, he0, rfl⟩ := Catalog.find?_mem c1 key t ht
          have hl := hreload e0.2 (hget e0 he0)
          have hst := Catalog.store_all P c1 key _ hget hl
          simp only
          repeat' split
          all_goals first
            | exact hst
            | exact Catalog.store_all P c1 key _ hget (hupd _ _ _ _ _ _ _ _ hl)

/-- The DELETE branch keeps a property of every table of the catalog, when loading and
the row loop keep it. -/
theorem executeDelete_all (P : TableDynamic → Prop) (p : Parse) (w : World)
    (hc : ∀ e ∈ w.catalog.tables_, P e.2)
    (hload : ∀ key, P ((TableDynamic.new key).load w.disk))
    (hreload : ∀ t, P t → P (t.load w.disk))
    (hdel : ∀ t whereIdx op val r d removed, P t →
      P (deleteLoop whereIdx op val r t d removed).1) :
    ∀ e ∈ (executeDelete p w).1.catalog.tables_, P e.2 := by
  have hget := Catalog.get_all P w.catalog w.disk p.table_ hc hload
  unfold executeDelete
  simp only
  split
  · exact hc
  · cases hg : w.catalog.get w.disk p.table_ with
    | mk r c1 =>
      rw [hg] at hget
      cases r with
      | none => exact hget
      | some key =>
        simp only
        cases ht : c1.find? key with
        | none => exact hget
        | some t =>
          obtain ⟨e0, he0, rfl⟩ := Catalog.find?_mem c1 key t ht
          have hl := hreload e0.2 (hget e0 he0)
          have hst := Catalog.store_all P c1 key _ hget hl
          simp only
          repeat' split
          all_goals first
            | exact hst
            | exact Catalog.store_all P c1 key _ hget (hdel _ _ _ _ _ _ _ hl)

/-- The CREATE and DROP branches keep a property of every table of the catalog, when
every new table with a schema has it. -/
theorem executeCreate_drop_all (P : TableDynamic → Prop) (p : Parse) (w : World)
    (hc : ∀ e ∈ w.catalog.tables_, P e.2)
    (hnew : ∀ key s, P ((TableDynamic.new key).setSchema s)) :
    (∀ e ∈ (executeCreate p w).1.catalog.tables_, P e.2) ∧
    (∀ e ∈ (executeDrop p w).1.catalog.tables_, P e.2) := by
  refine ⟨?_, ?_⟩
  · unfold executeCreate Catalog.create
    simp only
    repeat' split
    all_goals first
      | exact hc
      | (intro e he
         rcases List.mem_cons.mp he with rfl | he
         · exact hnew _ _
         · exact hc e he)
  · unfold executeDrop Catalog.drop
    simp only
    repeat' split
    all_goals first
      | exact hc
      | (intro e he
         exact hc e (List.mem_of_mem_filter he))

/-- `executeParse` keeps a property of every table of the catalog, when loading, the
appending of a validated row, the two row loops and the creation of a table keep it. -/
theorem executeParse_all (P : TableDynamic → Prop) (p : Parse) (w : World)
    (hc : ∀ e ∈ w.catalog.tables_, P e.2)
    (hload : ∀ key, P ((TableDynamic.new key).load w.disk))
    (hreload : ∀ t, P t → P (t.load w.disk))
    (hins : ∀ t, P t → validateInsert t.schema_ p.vals_ = .ok () →
      P { t with rows_ := t.rows_ ++ [p.vals_] })
    (hupd : ∀ t whereIdx op val targetIdx k r changed, P t →
      P { t with rows_ := (updateLoop whereIdx op val targetIdx p.setVal_ k r t.rows_ changed).1 })
    (hdel : ∀ t whereIdx op val r d removed, P t →
      P (deleteLoop whereIdx op val r t d removed).1)
    (hnew : ∀ key s, P ((TableDynamic.new key).setSchema s)) :
    ∀ e ∈ (executeParse p w).1.catalog.tables_, P e.2 := by
  unfold executeParse
  split
  · exact (executeCreate_drop_all P p w hc hnew).1
  · split
    · exact executeInsert_all P p w hc hload hins
    · split
      · exact executeSelect_all P p w hc hload hreload
      · split
        · exact executeUpdate_all P p w hc hload hreload hupd
        · split
          · exact executeDelete_all P p w hc hload hreload hdel
          · split
            · exact (executeCreate_drop_all P p w hc hnew).2
            · exact hc

/-- One command of the executor keeps, for every table of the catalog: one type per
column name, and one cell per column name in every row. -/
theorem executeParse_rows_match (p : Parse) (w : World)
    (hc : ∀ e ∈ w.catalog.tables_,
      e.2.schema_.names.length = e.2.schema_.types.length ∧
      ∀ r ∈ e.2.rows_, r.length = e.2.schema_.names.length) :
    ∀ e ∈ (executeParse p w).1.catalog.tables_,
      e.2.schema_.names.length = e.2.schema_.types.length ∧
      ∀ r ∈ e.2.rows_, r.length = e.2.schema_.names.length := by
  apply executeParse_all (fun t => t.schema_.names.length = t.schema_.types.length ∧
      ∀ r ∈ t.rows_, r.length = t.schema_.names.length) p w hc
  · intro key
    exact TableDynamic.load_rows_match _ _ rfl
  · intro t ht
    exact TableDynamic.load_rows_match _ _ ht.1
  · intro t ht hv
    refine ⟨ht.1, ?_⟩
    intro r hr
    rcases List.mem_append.mp hr with hr | hr
    · exact ht.2 r hr
    · rw [List.mem_singleton.mp hr]
      by_contra hne
      have := (validateInsert_spec t.schema_ p.vals_).1 (fun h => hne h.symm)
      rw [this] at hv
      exact absurd hv (by simp)
  · intro t whereIdx op val targetIdx k r changed ht
    exact ⟨ht.1, updateLoop_lengths whereIdx op val targetIdx p.setVal_ _ k r t.rows_ changed ht.2⟩
  · intro t whereIdx op val r d removed ht
    obtain ⟨h1, h2⟩ := deleteLoop_rows whereIdx op val r t d removed
    rw [h1]
    exact ⟨ht.1, fun row hrow => ht.2 row (h2 row hrow)⟩
  · intro key s
    refine ⟨?_, fun r hr => ?_⟩
    · simp [TableDynamic.setSchema]
    · simp [TableDynamic.setSchema, TableDynamic.new] at hr

/-- Any sequence of commands of the executor keeps, for every table of the catalog: one
type per column name, and one cell per column name in every row. -/
theorem runCommands_rows_match (ps : List Parse) :
    ∀ (w : World), (∀ e ∈ w.catalog.tables_,
        e.2.schema_.names.length = e.2.schema_.types.length ∧
        ∀ r ∈ e.2.rows_, r.length = e.2.schema_.names.length) →
      ∀ e ∈ (runCommands ps w).catalog.tables_,
        e.2.schema_.names.length = e.2.schema_.types.length ∧
        ∀ r ∈ e.2.rows_, r.length = e.2.schema_.names.length := by
  induction ps with
  | nil => intro w h; exact h
  | cons p ps ih =>
    intro w h
    simp only [runCommands, List.foldl_cons]
    exact ih _ (executeParse_rows_match p w h)

/-- C25: take any state in which every table held in memory has one type per column name
and one cell per column name in every row (the state at program start has no table),
create a table with `Catalog.create`, whatever the name, the schema and the files on
disk, and run any sequence of commands through the executor (INSERT, UPDATE and DELETE
with any descriptors, and the other commands as well); each command may reload tables
from their files. Then every table held in memory has one type per column name, and
every one of its rows has length equal to the schema length. -/
theorem C25_row_length_invariant (w : World) (name : Str) (schema : TableSchema)
    (ps : List Parse)
    (hinit : ∀ e ∈ w.catalog.tables_,
      e.2.schema_.names.length = e.2.schema_.types.length ∧
      ∀ r ∈ e.2.rows_, r.length = e.2.schema_.names.length) :
    ∀ e ∈ (runCommands ps
        { catalog := (w.catalog.create w.disk name schema).2.1
          disk := (w.catalog.create w.disk name schema).2.2 }).catalog.tables_,
      e.2.schema_.names.length = e.2.schema_.types.length ∧
      ∀ r ∈ e.2.rows_, r.length = e.2.schema_.names.length := by
  have hcreate : ∀ e ∈ (w.catalog.create w.disk name schema).2.1.tables_,
      e.2.schema_.names.length = e.2.schema_.types.length ∧
      ∀ r ∈ e.2.rows_, r.length = e.2.schema_.names.length := by
    unfold Catalog.create
    simp only
    split
    · exact hinit
    · intro e he
      rcases List.mem_cons.mp he with rfl | he
      · refine ⟨?_, fun r hr => ?_⟩
        · simp [TableDynamic.setSchema]
        · simp [TableDynamic.setSchema, TableDynamic.new] at hr
      · exact hinit e he
  exact runCommands_rows_match ps _ hcreate

/-- Witness for C25: from the empty state, the table `t` (name STRING, age INT) and the
five example commands; the table then holds the row (Omar, 22). -/
theorem C25_row_length_invariant_witness :
    (∀ e ∈ (runCommands rowLengthCommands
        { catalog := (World.empty.catalog.create World.empty.disk "t".toList
            (peopleTable []).schema_).2.1
          disk := (World.empty.catalog.create World.empty.disk "t".toList
            (peopleTable []).schema_).2.2 }).catalog.tables_,
      e.2.schema_.names.length = e.2.schema_.types.length ∧
      ∀ r ∈ e.2.rows_, r.length = e.2.schema_.names.length) ∧
    (runCommands rowLengthCommands
        { catalog := (World.empty.catalog.create World.empty.disk "t".toList
            (peopleTable []).schema_).2.1
          disk := (World.empty.catalog.create World.empty.disk "t".toList
            (peopleTable []).schema_).2.2 }).catalog.find? "t".toList
      = some (peopleTable [["Omar".toList, "22".toList]]) :=
  ⟨C25_row_length_invariant World.empty "t".toList (peopleTable []).schema_ rowLengthCommands
    (by intro e he; cases he), by decide⟩

end MiniDB
